import Mathlib

/-!
# AWS Neuron metric modifier

A shallow embedding of
`plugins/processors/gpuattributes/internal/awsneuron_metric_modifier.go`.

Conventions of the embedding.

* `pmetric.Metric`, `pmetric.NumberDataPoint` and `pcommon.Map` are values; a Go
  function that mutates its argument returns the mutated value.  `CopyTo` is the
  identity on values.  `ModifyMetric` is the call on a metric that is not an element of
  the output collection, `ModifyMetricAt` the call on an element of it.
* A Go run-time panic (index out of range, nil dereference, integer division by
  zero) is an `Except.error`; a function that can panic returns `Result`.
* `float64` is the type `Float64` of IEEE 754 binary64 values: the finite values, the two
  infinities, negative zero and NaN, with the payload of a NaN not distinguished.  The sum
  of two values is rounded to nearest, ties to even.
* Go's `range` over a map visits the entries in an unspecified order.  Every
  function that ranges over a map takes a `RangeOrder`, an arbitrary permutation
  applied to the entries (kept in first-insertion order) before they are visited.
* The constants of package `containerinsightscommon` are not part of the embedded
  sources; they are the fields of the parameter `ContainerInsightsCommon`, which also
  carries the case mapping `unicode.ToLower` of Go's standard library.
-/

namespace AwsNeuron

/-! ## Run-time panics -/

/-- Go run-time panics that the embedded code can raise. -/
inductive Panic
  | indexOutOfRange
  | nilDereference
  | divideByZero
deriving DecidableEq, Repr

/-- Outcome of a Go call that either returns or panics. -/
abbrev Result (α : Type) := Except Panic α

instance instDecidableEqResult {α : Type} [DecidableEq α] : DecidableEq (Result α)
  | .ok a, .ok b => if h : a = b then isTrue (by rw [h]) else isFalse (fun h2 => h (Except.ok.inj h2))
  | .error a, .error b => if h : a = b then isTrue (by rw [h]) else isFalse (fun h2 => h (Except.error.inj h2))
  | .ok _, .error _ => isFalse (fun h => by cases h)
  | .error _, .ok _ => isFalse (fun h => by cases h)

/-! ## `float64` -/

/-- An IEEE 754 binary64 value.  `fin q` is the finite value `q`, `fin 0` being positive
zero; NaN payloads are not distinguished.  The values of the type that no binary64 can take
(`fin q` with `q` outside the binary64 grid) are never produced by `Float64.round`. -/
inductive Float64
  | nan
  | posInf
  | negInf
  | negZero
  | fin (q : Rat)
deriving DecidableEq, Repr

/-- Auxiliary to `log2`, by recursion on the fuel. -/
def log2Fuel : Nat → Nat → Nat
  | 0, _ => 0
  | fuel + 1, n => if n < 2 then 0 else log2Fuel fuel (n / 2) + 1

/-- The integer part of the binary logarithm of a positive natural number. -/
def log2 (n : Nat) : Nat := log2Fuel n n

/-- The fraction `N / D` rounded to the nearest natural number, ties to even. -/
def roundHalfEven (N D : Nat) : Nat :=
  if 2 * (N % D) < D then N / D
  else if D < 2 * (N % D) then N / D + 1
  else if (N / D) % 2 = 0 then N / D else N / D + 1

/-- The positive rational `a / b` rounded to the nearest binary64, ties to even: the
significand has 53 bits, the exponent of the last bit is at least `-1074` (gradual
underflow) and at most `971`; `none` stands for the overflow to infinity. -/
def Float64.roundPos (a b : Nat) : Option Rat :=
  let l : Int := (log2 a : Int) - (log2 b : Int)
  let L : Int := if b * 2 ^ l.toNat ≤ a * 2 ^ (-l).toNat then l else l - 1
  let e : Int := max (L - 52) (-1074)
  let m : Nat := roundHalfEven (a * 2 ^ (-e).toNat) (b * 2 ^ e.toNat)
  if 971 < e ∨ (e = 971 ∧ 2 ^ 53 ≤ m) then none
  else some ((m : Rat) * ((2 ^ e.toNat : Nat) : Rat) / ((2 ^ (-e).toNat : Nat) : Rat))

/-- A rational rounded to the nearest binary64, ties to even.  Zero is positive zero; a
negative number that underflows is negative zero. -/
def Float64.round (q : Rat) : Float64 :=
  if q = 0 then Float64.fin 0
  else if 0 < q then
    match Float64.roundPos q.num.natAbs q.den with
    | none => Float64.posInf
    | some r => Float64.fin r
  else
    match Float64.roundPos q.num.natAbs q.den with
    | none => Float64.negInf
    | some r => if r = 0 then Float64.negZero else Float64.fin (-r)

/-- Go `x + y` on `float64`. -/
def Float64.add : Float64 → Float64 → Float64
  | .nan, _ => .nan
  | _, .nan => .nan
  | .posInf, .negInf => .nan
  | .negInf, .posInf => .nan
  | .posInf, _ => .posInf
  | _, .posInf => .posInf
  | .negInf, _ => .negInf
  | _, .negInf => .negInf
  | .negZero, .negZero => .negZero
  | .negZero, .fin q => .fin q
  | .fin q, .negZero => .fin q
  | .fin a, .fin b => Float64.round (a + b)

/-- The order that Go's built-in `max` uses on `float64`: the numeric order, with
negative zero below positive zero; NaN is not comparable. -/
def Float64.le : Float64 → Float64 → Bool
  | .nan, _ => false
  | _, .nan => false
  | .negInf, _ => true
  | _, .posInf => true
  | .posInf, _ => false
  | _, .negInf => false
  | .negZero, .negZero => true
  | .negZero, .fin q => decide (0 ≤ q)
  | .fin q, .negZero => decide (q < 0)
  | .fin a, .fin b => decide (a ≤ b)

/-- Go's built-in `max(x, y)` on `float64`: NaN if an argument is NaN, else the larger. -/
def Float64.max : Float64 → Float64 → Float64
  | .nan, _ => .nan
  | _, .nan => .nan
  | a, b => if Float64.le a b then b else a

/-- The rational that a finite value stands for; `0` for the others. -/
def Float64.toRat : Float64 → Rat
  | .fin q => q
  | _ => 0

instance : Zero Float64 := ⟨Float64.fin 0⟩

instance : Add Float64 := ⟨Float64.add⟩

instance : Max Float64 := ⟨Float64.max⟩

instance : LE Float64 := ⟨fun a b => Float64.le a b = true⟩

instance (a b : Float64) : Decidable (a ≤ b) :=
  inferInstanceAs (Decidable (Float64.le a b = true))

/-- Iteration order of one `range` loop over a Go map: a permutation of the entries. -/
structure RangeOrder where
  order : {α : Type} → List α → List α
  perm : ∀ {α : Type} (l : List α), (order l).Perm l

/-- The entries are visited in first-insertion order. -/
def RangeOrder.insertion : RangeOrder := ⟨fun l => l, fun l => List.Perm.refl l⟩

/-- The entries are visited in reverse insertion order. -/
def RangeOrder.reversed : RangeOrder := ⟨fun l => l.reverse, fun l => List.reverse_perm l⟩

/-- A `for` loop whose body can panic, collecting one result per visited element. -/
def mapRange {α β : Type} (f : α → Result β) : List α → Result (List β)
  | [] => .ok []
  | a :: rest =>
    match f a with
    | .error e => .error e
    | .ok b =>
      match mapRange f rest with
      | .error e => .error e
      | .ok bs => .ok (b :: bs)

/-- Go map update `m[k] = f(m[k])` on a `float64`-valued map; a missing key reads as `0`. -/
def upsert {κ : Type} [DecidableEq κ] (m : List (κ × Float64)) (k : κ)
    (f : Float64 → Float64) : List (κ × Float64) :=
  match m with
  | [] => [(k, f 0)]
  | (k0, v) :: rest => if k0 = k then (k0, f v) :: rest else (k0, v) :: upsert rest k f

/-- Go map read `m[k]` on a `float64`-valued map; a missing key reads as `0`. -/
def readKey {κ : Type} [DecidableEq κ] (m : List (κ × Float64)) (k : κ) : Float64 :=
  match m with
  | [] => 0
  | (k0, v) :: rest => if k0 = k then v else readKey rest k

/-! ## Standard library: `strconv`, integer division -/

/-- The two errors of package `strconv` that `ParseUint` reports for a decimal string. -/
inductive NumError
  | ErrSyntax
  | ErrRange
deriving DecidableEq, Repr

/-- The loop of Go `strconv.ParseUint` for base 10 and bit size 64, with `n` the value of
the digits read so far.  A byte that is not a decimal digit is a syntax error; an overflow
of `uint64` is a range error with value `2^64 - 1`, returned as soon as it occurs, whatever
follows in the string. -/
def parseUintLoop : List Char → Nat → Nat × Option NumError
  | [], n => (n, none)
  | ch :: rest, n =>
    if !ch.isDigit then (0, some NumError.ErrSyntax)
    else if (2 ^ 64 - 1) / 10 + 1 ≤ n then (2 ^ 64 - 1, some NumError.ErrRange)
    else if 2 ^ 64 - 1 < n * 10 + (ch.toNat - 48) then (2 ^ 64 - 1, some NumError.ErrRange)
    else parseUintLoop rest (n * 10 + (ch.toNat - 48))

/-- Go `strconv.ParseUint(s, 10, 64)`. -/
def ParseUint (s : List Char) : Nat × Option NumError :=
  if s = [] then (0, some NumError.ErrSyntax) else parseUintLoop s 0

/-- Go `strconv.ParseInt(s, 10, 0)` on a 64-bit platform. -/
def ParseInt (s : List Char) : Int × Option NumError :=
  if s = [] then (0, some NumError.ErrSyntax)
  else
    let neg : Bool := match s with
      | '-' :: _ => true
      | _ => false
    let digits : List Char := match s with
      | '+' :: rest => rest
      | '-' :: rest => rest
      | cs => cs
    match ParseUint digits with
    | (_, some NumError.ErrSyntax) => (0, some NumError.ErrSyntax)
    | (un, _) =>
      if !neg && decide (2 ^ 63 ≤ un) then ((2 : Int) ^ 63 - 1, some NumError.ErrRange)
      else if neg && decide (2 ^ 63 < un) then (-(2 : Int) ^ 63, some NumError.ErrRange)
      else (if neg then -(un : Int) else (un : Int), none)

/-- Go `strconv.Atoi` on a 64-bit platform: the value and whether the error is nil.  A
syntax error yields `0`, a range error the nearest `int64`.  The fast path that `Atoi` takes
for strings shorter than 19 bytes returns what `ParseInt` returns. -/
def Atoi (s : String) : Int × Bool :=
  ((ParseInt s.toList).1, (ParseInt s.toList).2.isNone)

/-- Go `strconv.Itoa`. -/
def Itoa (i : Int) : String := toString i

/-- Go `int` division on a 64-bit platform: truncated quotient, wrapped to `int64`;
a zero divisor panics. -/
def intDiv (a b : Int) : Result Int :=
  if b = 0 then .error Panic.divideByZero
  else .ok ((Int.tdiv a b + 2 ^ 63) % 2 ^ 64 - 2 ^ 63)

/-! ## `pcommon`: attribute values and attribute maps -/

/-- The `pcommon.Value` variants that the code can tell apart: it only reads `Str()`. -/
inductive Value
  | empty
  | str (s : String)
  | int (i : Int)
  | bool (b : Bool)
deriving DecidableEq, Repr

/-- `Value.Str()`: the string payload, the empty string for any other variant. -/
def Value.Str : Value → String
  | .str s => s
  | _ => ""

/-- `pcommon.Map`: a sequence of key/value pairs. -/
abbrev Map := List (String × Value)

/-- `Map.Get`: first entry with the key, and whether there is one. -/
def Map.Get : Map → String → Value × Bool
  | [], _ => (Value.empty, false)
  | (k, v) :: rest, key => if k = key then (v, true) else Map.Get rest key

/-- `Map.PutStr`: overwrite the first entry with the key in place, else append one. -/
def Map.PutStr : Map → String → String → Map
  | [], key, s => [(key, Value.str s)]
  | (k, v) :: rest, key, s =>
    if k = key then (k, Value.str s) :: rest else (k, v) :: Map.PutStr rest key s

/-! ## `pmetric`: datapoints and metrics -/

/-- `pmetric.DataPointFlags`: bit 0 (no recorded value) and the remaining bits. -/
structure DataPointFlags where
  noRecordedValue : Bool
  otherBits : Nat
deriving DecidableEq, Repr

/-- `DataPointFlags.WithNoRecordedValue`. -/
def DataPointFlags.WithNoRecordedValue (f : DataPointFlags) (b : Bool) : DataPointFlags :=
  { f with noRecordedValue := b }

/-- The value of a `NumberDataPoint`: unset, a double or an integer. -/
inductive NumberValue
  | empty
  | double (d : Float64)
  | int (i : Int)
deriving DecidableEq, Repr

/-- `pmetric.NumberDataPoint` (exemplars are not modelled). -/
structure NumberDataPoint where
  attributes : Map
  startTimestamp : Nat
  timestamp : Nat
  value : NumberValue
  flags : DataPointFlags
deriving DecidableEq, Repr

/-- `NumberDataPoint.DoubleValue()`: the double, `0` when the value is not a double. -/
def NumberDataPoint.DoubleValue (dp : NumberDataPoint) : Float64 :=
  match dp.value with
  | .double d => d
  | _ => 0

/-- `NumberDataPoint.SetDoubleValue`. -/
def NumberDataPoint.SetDoubleValue (dp : NumberDataPoint) (d : Float64) : NumberDataPoint :=
  { dp with value := NumberValue.double d }

/-- `NumberDataPoint.Attributes().PutStr`. -/
def NumberDataPoint.PutStr (dp : NumberDataPoint) (key s : String) : NumberDataPoint :=
  { dp with attributes := Map.PutStr dp.attributes key s }

abbrev NumberDataPointSlice := List NumberDataPoint

/-- `NumberDataPointSlice.At`. -/
def NumberDataPointSlice.At (dps : NumberDataPointSlice) (i : Nat) : Result NumberDataPoint :=
  match dps[i]? with
  | some dp => .ok dp
  | none => .error Panic.indexOutOfRange

/-- `pmetric.AggregationTemporality`. -/
inductive AggregationTemporality
  | unspecified
  | delta
  | cumulative
deriving DecidableEq, Repr

/-- The `data` field of a metric; `other` stands for the histogram and summary shapes. -/
inductive MetricData
  | empty
  | gauge (dataPoints : NumberDataPointSlice)
  | sum (dataPoints : NumberDataPointSlice) (temporality : AggregationTemporality)
      (isMonotonic : Bool)
  | other
deriving DecidableEq, Repr

/-- `pmetric.Metric`. -/
structure Metric where
  name : String
  description : String
  unit : String
  data : MetricData
deriving DecidableEq, Repr

abbrev MetricSlice := List Metric

/-- `MetricSlice.AppendEmpty()` yields this metric. -/
def Metric.new : Metric := ⟨"", "", "", MetricData.empty⟩

/-- `Metric.Gauge().DataPoints()`; a nil dereference unless the metric is a gauge. -/
def Metric.GaugeDataPoints (m : Metric) : Result NumberDataPointSlice :=
  match m.data with
  | .gauge dps => .ok dps
  | _ => .error Panic.nilDereference

/-- `Metric.Sum().DataPoints()`; a nil dereference unless the metric is a sum. -/
def Metric.SumDataPoints (m : Metric) : Result NumberDataPointSlice :=
  match m.data with
  | .sum dps _ _ => .ok dps
  | _ => .error Panic.nilDereference

/-- `Metric.Type() == pmetric.MetricTypeGauge`. -/
def Metric.isGauge (m : Metric) : Bool :=
  match m.data with
  | .gauge _ => true
  | _ => false

/-- `Metric.Type() == pmetric.MetricTypeSum`. -/
def Metric.isSum (m : Metric) : Bool :=
  match m.data with
  | .sum _ _ _ => true
  | _ => false

/-- Write back the datapoints of a sum metric after an in-place edit. -/
def Metric.withSumDataPoints (m : Metric) (dps : NumberDataPointSlice) : Metric :=
  match m.data with
  | .sum _ t mono => { m with data := MetricData.sum dps t mono }
  | _ => m

/-- `Metric.SetEmptySum()`. -/
def Metric.SetEmptySum (m : Metric) : Metric :=
  { m with data := MetricData.sum [] AggregationTemporality.unspecified false }

/-- `Metric.Sum().SetAggregationTemporality`. -/
def Metric.SetAggregationTemporality (m : Metric) (t : AggregationTemporality) : Metric :=
  match m.data with
  | .sum dps _ mono => { m with data := MetricData.sum dps t mono }
  | _ => m

/-! ## Constants -/

/-- What the modifier takes from outside the embedded sources: the constants of package
`containerinsightscommon` that it uses, and the case mapping `unicode.ToLower` of Go's
standard library, which `strings.ToLower` applies to a string that is not pure ASCII. -/
structure ContainerInsightsCommon where
  NeuronExecutionErrors : String
  NeuronExecutionStatus : String
  NeuronRuntimeMemoryUsage : String
  NeuronCoreMemoryUtilizationTotal : String
  NeuronCoreMemoryUtilizationConstants : String
  NeuronCoreMemoryUtilizationModelCode : String
  NeuronCoreMemoryUtilizationSharedScratchpad : String
  NeuronCoreMemoryUtilizationRuntimeMemory : String
  NeuronCoreMemoryUtilizationTensors : String
  NeuronCoreUtilization : String
  NeuronInstanceInfo : String
  NeuronHardware : String
  NeuronExecutionLatency : String
  NeuronDeviceHardwareEccEvents : String
  TypeNode : String
  TypePod : String
  TypeContainer : String
  MetricType : String
  UnicodeToLower : Char → Char

/-- The fourteen keys of `metricModificationsMap`, in source order. -/
def ContainerInsightsCommon.metricNames (c : ContainerInsightsCommon) : List String :=
  [c.NeuronExecutionErrors, c.NeuronExecutionStatus, c.NeuronRuntimeMemoryUsage,
   c.NeuronCoreMemoryUtilizationTotal, c.NeuronCoreMemoryUtilizationConstants,
   c.NeuronCoreMemoryUtilizationModelCode, c.NeuronCoreMemoryUtilizationSharedScratchpad,
   c.NeuronCoreMemoryUtilizationRuntimeMemory, c.NeuronCoreMemoryUtilizationTensors,
   c.NeuronCoreUtilization, c.NeuronInstanceInfo, c.NeuronHardware,
   c.NeuronExecutionLatency, c.NeuronDeviceHardwareEccEvents]

/-- Go rejects a map literal with a repeated constant key, so the metric names are
pairwise distinct in every build of the package. -/
def ContainerInsightsCommon.Distinct (c : ContainerInsightsCommon) : Prop :=
  c.metricNames.Nodup

instance (c : ContainerInsightsCommon) : Decidable c.Distinct :=
  inferInstanceAs (Decidable c.metricNames.Nodup)

/-- The values the constants have in the upstream agent; used to run the code on
concrete inputs.  All strings of the examples are ASCII, for which `strings.ToLower` does not
consult `unicode.ToLower`; the field is filled with the ASCII mapping. -/
def upstream : ContainerInsightsCommon where
  NeuronExecutionErrors := "neuron_execution_errors"
  NeuronExecutionStatus := "neuron_execution_status"
  NeuronRuntimeMemoryUsage := "neurondevice_runtime_memory_used_bytes"
  NeuronCoreMemoryUtilizationTotal := "neuroncore_memory_usage_total"
  NeuronCoreMemoryUtilizationConstants := "neuroncore_memory_usage_constants"
  NeuronCoreMemoryUtilizationModelCode := "neuroncore_memory_usage_model_code"
  NeuronCoreMemoryUtilizationSharedScratchpad := "neuroncore_memory_usage_model_shared_scratchpad"
  NeuronCoreMemoryUtilizationRuntimeMemory := "neuroncore_memory_usage_runtime_memory"
  NeuronCoreMemoryUtilizationTensors := "neuroncore_memory_usage_tensors"
  NeuronCoreUtilization := "neuroncore_utilization_ratio"
  NeuronInstanceInfo := "instance_info"
  NeuronHardware := "neuron_hardware"
  NeuronExecutionLatency := "neuron_execution_latency"
  NeuronDeviceHardwareEccEvents := "neurondevice_hw_ecc_events"
  TypeNode := "Node"
  TypePod := "Pod"
  TypeContainer := "Container"
  MetricType := "Type"
  UnicodeToLower := Char.toLower

/-- Go `strings.ToLower`: a string of ASCII bytes has its letters `A` to `Z` lowered; any
other string is mapped, rune by rune, through `unicode.ToLower`. -/
def ToLower (c : ContainerInsightsCommon) (s : String) : String :=
  if s.toList.all (fun ch => decide (ch.val < 128)) then String.mk (s.toList.map Char.toLower)
  else String.mk (s.toList.map c.UnicodeToLower)

abbrev ErrorType : String := "error_type"
abbrev StatusType : String := "status_type"
abbrev EventType : String := "event_type"
abbrev logTypeSuffix : String := "AWSNeuron"
abbrev MemoryLocation : String := "memory_location"
abbrev Core : String := "Core"
abbrev Device : String := "Device"
abbrev Percentile : String := "percentile"
abbrev PodName : String := "PodName"
abbrev Count : String := "Count"
abbrev Bytes : String := "Bytes"
abbrev Seconds : String := "Seconds"
abbrev Percent : String := "Percent"
abbrev NeuronCoreAttributeKey : String := "NeuronCore"
abbrev NeuronDeviceAttributeKey : String := "NeuronDevice"
abbrev RuntimeTag : String := "runtime_tag"
abbrev RuntimeTagOverride : String := "DEFAULT"
abbrev NeuronCoreLabel : String := "neuroncore"
abbrev NeuronCoresPerDeviceAttributeKey : String := "neuroncore_per_device_count"

def NeuronExecutionErrorsAggregatedMetric (c : ContainerInsightsCommon) : String :=
  c.NeuronExecutionErrors ++ "_total"

def NeuronDeviceHardwareEccEventsAggregatedMetric (c : ContainerInsightsCommon) : String :=
  c.NeuronDeviceHardwareEccEvents ++ "_total"

/-! ## The rule registry -/

structure MetricModifications where
  DuplicationTypes : List String
  UniqueAttribute : String
  LogTypeSuffix : String
  Unit : String
deriving DecidableEq, Repr

/-- The zero value of `MetricModifications`, read from the map at a missing key. -/
def MetricModifications.zero : MetricModifications := ⟨[], "", "", ""⟩

structure MetricDatapointAggregationKey where
  runtimeTag : String
  aggregatedMetricName : String
  deviceId : String
deriving DecidableEq, Repr

structure NeuronCoreUtilizationDatapointAggregationKey where
  runtimeTag : String
  coreID : String
deriving DecidableEq, Repr

def metricModificationsMap (c : ContainerInsightsCommon) : List (String × MetricModifications) :=
  [(c.NeuronExecutionErrors, ⟨[c.TypeNode], ErrorType, "", Count⟩),
   (c.NeuronExecutionStatus, ⟨[c.TypeNode], StatusType, "", Count⟩),
   (c.NeuronRuntimeMemoryUsage, ⟨[c.TypeNode], "", "", Bytes⟩),
   (c.NeuronCoreMemoryUtilizationTotal, ⟨[c.TypeContainer, c.TypePod, c.TypeNode], "", Core, Bytes⟩),
   (c.NeuronCoreMemoryUtilizationConstants, ⟨[c.TypeContainer, c.TypePod, c.TypeNode], "", Core, Bytes⟩),
   (c.NeuronCoreMemoryUtilizationModelCode, ⟨[c.TypeContainer, c.TypePod, c.TypeNode], "", Core, Bytes⟩),
   (c.NeuronCoreMemoryUtilizationSharedScratchpad, ⟨[c.TypeContainer, c.TypePod, c.TypeNode], "", Core, Bytes⟩),
   (c.NeuronCoreMemoryUtilizationRuntimeMemory, ⟨[c.TypeContainer, c.TypePod, c.TypeNode], "", Core, Bytes⟩),
   (c.NeuronCoreMemoryUtilizationTensors, ⟨[c.TypeContainer, c.TypePod, c.TypeNode], "", Core, Bytes⟩),
   (c.NeuronCoreUtilization, ⟨[c.TypeContainer, c.TypePod, c.TypeNode], "", Core, Percent⟩),
   (c.NeuronInstanceInfo, ⟨[], "", "", Count⟩),
   (c.NeuronHardware, ⟨[], "", "", Count⟩),
   (c.NeuronExecutionLatency, ⟨[c.TypeNode], "", "", Seconds⟩),
   (c.NeuronDeviceHardwareEccEvents, ⟨[c.TypeContainer, c.TypePod, c.TypeNode], EventType, Device, Count⟩)]

/-- Go `m[key]` on `metricModificationsMap`: the zero value at a missing key. -/
def metricModificationsAt (c : ContainerInsightsCommon) (name : String) : MetricModifications :=
  ((metricModificationsMap c).lookup name).getD MetricModifications.zero

def attributeValuePrefixingMap : List (String × String) :=
  [(NeuronCoreAttributeKey, "core"), (NeuronDeviceAttributeKey, "device")]

def uniquesDatapointsToAggregatedMetricMappings (c : ContainerInsightsCommon) :
    List (String × List (String × String)) :=
  [(c.NeuronExecutionErrors,
      [("generic", NeuronExecutionErrorsAggregatedMetric c),
       ("numerical", NeuronExecutionErrorsAggregatedMetric c),
       ("transient", NeuronExecutionErrorsAggregatedMetric c),
       ("model", NeuronExecutionErrorsAggregatedMetric c),
       ("runtime", NeuronExecutionErrorsAggregatedMetric c),
       ("hardware", NeuronExecutionErrorsAggregatedMetric c)]),
   (c.NeuronDeviceHardwareEccEvents,
      [("mem_ecc_corrected", NeuronDeviceHardwareEccEventsAggregatedMetric c),
       ("mem_ecc_uncorrected", NeuronDeviceHardwareEccEventsAggregatedMetric c),
       ("sram_ecc_corrected", NeuronDeviceHardwareEccEventsAggregatedMetric c),
       ("sram_ecc_uncorrected", NeuronDeviceHardwareEccEventsAggregatedMetric c)])]

/-! ## The modifier -/

def setMetricMetadata (metric : Metric) (name : String) (unit : String) : Metric :=
  { metric with name := name, unit := unit }

/-- Source lines 162-166.  The datapoints of the gauge are moved into a fresh sum. -/
def convertGaugeToSum (originalMetric : Metric) : Result Metric := do
  let datapoints ← originalMetric.GaugeDataPoints
  pure ((originalMetric.SetEmptySum).withSumDataPoints datapoints)

/-- Source lines 168-170. -/
def addUnit (c : ContainerInsightsCommon) (originalMetric : Metric) : Metric :=
  { originalMetric with unit := (metricModificationsAt c originalMetric.name).Unit }

/-- The predicate handed to `RemoveIf` in `keepSpecificDatapointBasedOnAttribute`. -/
def removeUnlessAttribute (attributeKey attributeValueToKeep : String) (dp : NumberDataPoint) :
    Bool :=
  let got := Map.Get dp.attributes attributeKey
  !got.2 || got.1.Str != attributeValueToKeep

/-- Source lines 180-185. -/
def keepSpecificDatapointBasedOnAttribute (originalMetric : Metric)
    (attributeKey attributeValueToKeep : String) : Result Metric := do
  let dps ← originalMetric.SumDataPoints
  pure (originalMetric.withSumDataPoints
    (dps.filter (fun dp => !removeUnlessAttribute attributeKey attributeValueToKeep dp)))

/-- Body of the inner loop of `updateCoreDeviceRuntimeLabels` for one table entry. -/
def prefixAttribute (attrs : Map) (entry : String × String) : Map :=
  let got := Map.Get attrs entry.1
  if got.2 then Map.PutStr attrs entry.1 (entry.2 ++ got.1.Str) else attrs

/-- Body of the outer loop of `updateCoreDeviceRuntimeLabels` for one datapoint. -/
def updateLabelsOfDatapoint (ord : RangeOrder) (dp : NumberDataPoint) : NumberDataPoint :=
  let attrs := (ord.order attributeValuePrefixingMap).foldl prefixAttribute dp.attributes
  { dp with attributes := Map.PutStr attrs RuntimeTag RuntimeTagOverride }

/-- Source lines 271-282. -/
def updateCoreDeviceRuntimeLabels (ord : RangeOrder) (originalMetric : Metric) :
    Result Metric := do
  let dps ← originalMetric.SumDataPoints
  pure (originalMetric.withSumDataPoints (dps.map (updateLabelsOfDatapoint ord)))

/-- Body of the loop of `resetStaleDatapoints` for one datapoint. -/
def resetStaleDatapoint (dp : NumberDataPoint) : NumberDataPoint :=
  if dp.value = NumberValue.empty ∨ dp.flags.noRecordedValue = true then
    let dp1 := dp.SetDoubleValue dp.DoubleValue
    let dp2 := dp1.PutStr RuntimeTag RuntimeTagOverride
    { dp2 with flags := dp2.flags.WithNoRecordedValue false }
  else dp

/-- Source lines 366-376. -/
def resetStaleDatapoints (originalMetric : Metric) : Result Metric := do
  let dps ← originalMetric.SumDataPoints
  pure (originalMetric.withSumDataPoints (dps.map resetStaleDatapoint))

/-- The accumulator key that the sum aggregator computes for one datapoint
(source lines 233-240); a discriminant value without entry reads as the empty name. -/
def sumKey (uniqueAttribute : String) (mapping : List (String × String))
    (dp : NumberDataPoint) : MetricDatapointAggregationKey :=
  { runtimeTag := (Map.Get dp.attributes RuntimeTag).1.Str,
    aggregatedMetricName :=
      (mapping.lookup (Map.Get dp.attributes uniqueAttribute).1.Str).getD "",
    deviceId := (Map.Get dp.attributes NeuronDeviceAttributeKey).1.Str }

/-- The per-value metric of one datapoint (source lines 244-247). -/
def perValueMetric (originalMetric : Metric) (uniqueAttribute : String)
    (dp : NumberDataPoint) : Metric :=
  let newNameMetric := setMetricMetadata Metric.new
    (originalMetric.name ++ "_" ++ (Map.Get dp.attributes uniqueAttribute).1.Str)
    originalMetric.unit
  ((newNameMetric.SetEmptySum).withSumDataPoints [dp]).SetAggregationTemporality
    AggregationTemporality.cumulative

/-- One iteration of the first loop of `extractDatapointsAsMetricsAndAggregate`
(source lines 231-248); the state is the accumulator map and the new metric slice.  The
`+=` of line 240 is the `float64` addition. -/
def extractStep (originalMetric : Metric) (uniqueAttribute : String)
    (mapping : Option (List (String × String)))
    (st : List (MetricDatapointAggregationKey × Float64) × MetricSlice)
    (originalDatapoint : NumberDataPoint) :
    List (MetricDatapointAggregationKey × Float64) × MetricSlice :=
  let acc := match mapping with
    | some mp =>
      upsert st.1 (sumKey uniqueAttribute mp originalDatapoint)
        (fun old => old + originalDatapoint.DoubleValue)
    | none => st.1
  (acc, st.2 ++ [perValueMetric originalMetric uniqueAttribute originalDatapoint])

/-- One iteration of the second loop of `extractDatapointsAsMetricsAndAggregate`
(source lines 252-263): the rollup metric of one accumulator entry. -/
def rollupMetric (originalMetric : Metric) (originalMetricDatapoints : NumberDataPointSlice)
    (entry : MetricDatapointAggregationKey × Float64) : Result Metric := do
  let aggregatedMetric := setMetricMetadata Metric.new entry.1.aggregatedMetricName
    originalMetric.unit
  let first ← originalMetricDatapoints.At 0
  let dp1 := first.SetDoubleValue entry.2
  let dp2 := dp1.PutStr RuntimeTag entry.1.runtimeTag
  let dp3 := if entry.1.deviceId ≠ "" then dp2.PutStr NeuronDeviceAttributeKey entry.1.deviceId
    else dp2
  pure (((aggregatedMetric.SetEmptySum).withSumDataPoints [dp3]).SetAggregationTemporality
    AggregationTemporality.cumulative)

/-- Source lines 218-267. -/
def extractDatapointsAsMetricsAndAggregate (c : ContainerInsightsCommon) (ord : RangeOrder)
    (originalMetric : Metric) : Result MetricSlice :=
  let uniqueAttribute := (metricModificationsAt c originalMetric.name).UniqueAttribute
  if uniqueAttribute = "" then .ok [originalMetric]
  else do
    let originalMetricDatapoints ← originalMetric.SumDataPoints
    let mapping := (uniquesDatapointsToAggregatedMetricMappings c).lookup originalMetric.name
    let st := originalMetricDatapoints.foldl
      (extractStep originalMetric uniqueAttribute mapping) ([], [])
    let rollups ← mapRange (rollupMetric originalMetric originalMetricDatapoints)
      (ord.order st.1)
    pure (st.2 ++ rollups)

/-- The accumulator key of the peak aggregator for one datapoint (source lines 314-316). -/
def peakKey (dp : NumberDataPoint) : NeuronCoreUtilizationDatapointAggregationKey :=
  { runtimeTag := (Map.Get dp.attributes RuntimeTag).1.Str,
    coreID := (Map.Get dp.attributes NeuronCoreLabel).1.Str }

/-- One iteration of the first loop of `aggregateCoreUtilizationMetrics`
(source lines 313-317).  Go's `max(x, y, 0)` on `float64` is `max(max(x, y), 0)`. -/
def peakStep (acc : List (NeuronCoreUtilizationDatapointAggregationKey × Float64))
    (originalDatapoint : NumberDataPoint) :
    List (NeuronCoreUtilizationDatapointAggregationKey × Float64) :=
  upsert acc (peakKey originalDatapoint)
    (fun old => max (max old originalDatapoint.DoubleValue) 0)

/-- One iteration of the second loop of `aggregateCoreUtilizationMetrics`
(source lines 331-338): the output datapoint of one accumulator entry. -/
def peakDatapoint (firstOriginalDatapoint : NumberDataPoint) (neuronCoresPerDeviceInt : Int)
    (entry : NeuronCoreUtilizationDatapointAggregationKey × Float64) : Result NumberDataPoint := do
  let dp1 := firstOriginalDatapoint.SetDoubleValue entry.2
  let dp2 := dp1.PutStr RuntimeTag entry.1.runtimeTag
  let dp3 := dp2.PutStr NeuronCoreLabel entry.1.coreID
  let dp4 := dp3.PutStr NeuronCoreAttributeKey ("core" ++ entry.1.coreID)
  let coreID := (Atoi entry.1.coreID).1
  let deviceID ← intDiv coreID neuronCoresPerDeviceInt
  pure (dp4.PutStr NeuronDeviceAttributeKey ("device" ++ Itoa deviceID))

/-- Source lines 308-341. -/
def aggregateCoreUtilizationMetrics (ord : RangeOrder) (originalMetric : Metric) :
    Result MetricSlice := do
  let originalMetricDatapoints ← originalMetric.SumDataPoints
  let aggregatedValuesPerCore := originalMetricDatapoints.foldl peakStep []
  if aggregatedValuesPerCore.length = 0 then
    pure []
  else
    let aggregatedMetric := setMetricMetadata Metric.new originalMetric.name originalMetric.unit
    let firstOriginalDatapoint ← originalMetricDatapoints.At 0
    let neuronCoresPerDevice :=
      (Map.Get firstOriginalDatapoint.attributes NeuronCoresPerDeviceAttributeKey).1
    let neuronCoresPerDeviceInt := (Atoi neuronCoresPerDevice.Str).1
    let aggregateDatapoints ← mapRange
      (peakDatapoint firstOriginalDatapoint neuronCoresPerDeviceInt)
      (ord.order aggregatedValuesPerCore)
    pure [(aggregatedMetric.SetEmptySum).withSumDataPoints aggregateDatapoints]

/-- Body of the loop of `duplicateMetricForType` for one datapoint (source line 352). -/
def stampMetricType (c : ContainerInsightsCommon) (duplicateType : String)
    (originalMetricName : String) (dp : NumberDataPoint) : NumberDataPoint :=
  dp.PutStr c.MetricType
    (duplicateType ++ logTypeSuffix ++ (metricModificationsAt c originalMetricName).LogTypeSuffix)

/-- Source lines 345-354.  The copy is appended to `metrics`. -/
def duplicateMetricForType (c : ContainerInsightsCommon) (metric : Metric)
    (duplicateType : String) (originalMetricName : String) (metrics : MetricSlice) :
    Result MetricSlice := do
  let metricCopy := { metric with name := ToLower c duplicateType ++ "_" ++ metric.name }
  let datapoints ← metricCopy.SumDataPoints
  pure (metrics ++ [metricCopy.withSumDataPoints
    (datapoints.map (stampMetricType c duplicateType originalMetricName))])

/-- The metric that `duplicateMetricForType` appends for a metric of sum shape, as a
function of the metric and the scope: renamed, every datapoint stamped. -/
def duplicateOf (c : ContainerInsightsCommon) (originalMetricName : String) (metric : Metric)
    (duplicateType : String) : Metric :=
  match metric.data with
  | .sum dps t mono =>
    ⟨ToLower c duplicateType ++ "_" ++ metric.name, metric.description, metric.unit,
      MetricData.sum (dps.map (stampMetricType c duplicateType originalMetricName)) t mono⟩
  | _ => { metric with name := ToLower c duplicateType ++ "_" ++ metric.name }

/-- Source lines 286-306. -/
def duplicateMetrics (c : ContainerInsightsCommon) (metricsSlice : MetricSlice)
    (originalMetricName : String) (originalMetricDatapoints : NumberDataPointSlice)
    (metrics : MetricSlice) : Result MetricSlice := do
  let metricModifications := metricModificationsAt c originalMetricName
  let first ← originalMetricDatapoints.At 0
  let podName := Map.Get first.attributes PodName
  let duplicateForNodeOnly : Bool := !podName.2 || podName.1.Str.length == 0
  metricsSlice.foldlM (fun out metric =>
    if duplicateForNodeOnly then
      duplicateMetricForType c metric c.TypeNode originalMetricName out
    else
      metricModifications.DuplicationTypes.foldlM (fun out2 duplicateType =>
        duplicateMetricForType c metric duplicateType originalMetricName out2) out) metrics

/-- Source lines 128-134 of `ModifyMetric`: shape, unit, labels and stale datapoints. -/
def ModifyMetric.normalize (c : ContainerInsightsCommon) (ord : RangeOrder)
    (originalMetric : Metric) : Result Metric := do
  let m1 ← if originalMetric.isGauge then convertGaugeToSum originalMetric
    else pure originalMetric
  let m2 := addUnit c m1
  let m3 ← updateCoreDeviceRuntimeLabels ord m2
  resetStaleDatapoints m3

/-- Source lines 136-157 of `ModifyMetric`: selective filter, aggregation, duplication. -/
def ModifyMetric.transform (c : ContainerInsightsCommon) (ord : RangeOrder)
    (originalMetric : Metric) (metrics : MetricSlice) : Result (Metric × MetricSlice) := do
  let originalMetricName := originalMetric.name
  let m5 ←
    if originalMetricName = c.NeuronExecutionLatency then
      keepSpecificDatapointBasedOnAttribute originalMetric Percentile "p50"
    else if originalMetricName = c.NeuronRuntimeMemoryUsage then
      keepSpecificDatapointBasedOnAttribute originalMetric MemoryLocation "neuron_device"
    else pure originalMetric
  let modifiedMetricSlice ←
    if m5.name = c.NeuronCoreUtilization then aggregateCoreUtilizationMetrics ord m5
    else extractDatapointsAsMetricsAndAggregate c ord m5
  let dps ← m5.SumDataPoints
  let out ← duplicateMetrics c modifiedMetricSlice originalMetricName dps metrics
  pure (m5, out)

/-- Source lines 119-158, for an input metric that is not an element of the output
collection (`ModifyMetricAt` is the call on an element).  Returns the input metric as the
call leaves it and the output collection as the call leaves it. -/
def ModifyMetric (c : ContainerInsightsCommon) (ord : RangeOrder) (originalMetric : Metric)
    (metrics : MetricSlice) : Result (Metric × MetricSlice) :=
  match (metricModificationsMap c).lookup originalMetric.name with
  | none => .ok (originalMetric, metrics)
  | some _ => do
    let m4 ← ModifyMetric.normalize c ord originalMetric
    ModifyMetric.transform c ord m4 metrics

/-- `MetricSlice.At`. -/
def MetricSlice.At (metrics : MetricSlice) (i : Nat) : Result Metric :=
  match metrics[i]? with
  | some m => .ok m
  | none => .error Panic.indexOutOfRange

/-- The call `ModifyMetric(metrics.At(k), metrics)`, in which the input metric is the
element `k` of the output collection; it returns the output collection as the call leaves
it.  The writes of source lines 128-144 to the input metric are writes to that element.
Both aggregators read the input metric and fill a slice of their own, and
`duplicateMetricForType` appends copies without reading the collection, so the collection is
the one that `ModifyMetric` leaves for unrelated arguments, with the element `k` replaced by
the input metric as the call leaves it. -/
def ModifyMetricAt (c : ContainerInsightsCommon) (ord : RangeOrder) (metrics : MetricSlice)
    (k : Nat) : Result MetricSlice := do
  let originalMetric ← MetricSlice.At metrics k
  let r ← ModifyMetric c ord originalMetric metrics
  pure (r.2.set k r.1)

/-! ## The duplication mode

The flag `duplicateForNodeOnly` is a local variable of `duplicateMetrics`; the definitions
below name it, and the selective filter of `ModifyMetric`, so that statements can refer to
them.  `duplicateMetrics_flag` and `transform_filter` show that the code computes them. -/

/-- Source lines 290-294 of `duplicateMetrics`: the value of `duplicateForNodeOnly`
(`true` is the NODE_ONLY mode, `false` the SCOPED mode). -/
def duplicateForNodeOnly (originalMetricDatapoints : NumberDataPointSlice) : Result Bool := do
  let first ← originalMetricDatapoints.At 0
  let podName := Map.Get first.attributes PodName
  pure (!podName.2 || podName.1.Str.length == 0)

/-- Source lines 140-144 of `ModifyMetric`: the selective filter, by metric name. -/
def ModifyMetric.filter (c : ContainerInsightsCommon) (originalMetric : Metric) :
    Result Metric :=
  if originalMetric.name = c.NeuronExecutionLatency then
    keepSpecificDatapointBasedOnAttribute originalMetric Percentile "p50"
  else if originalMetric.name = c.NeuronRuntimeMemoryUsage then
    keepSpecificDatapointBasedOnAttribute originalMetric MemoryLocation "neuron_device"
  else pure originalMetric

/-- The value that `duplicateForNodeOnly` takes in the call of `duplicateMetrics` at source
line 157, when the aggregation of lines 151-155 returns: the flag of the datapoints that
the metric holds after lines 128-144. -/
def ModifyMetric.duplicationMode (c : ContainerInsightsCommon) (ord : RangeOrder)
    (originalMetric : Metric) : Result Bool := do
  let m4 ← ModifyMetric.normalize c ord originalMetric
  let m5 ← ModifyMetric.filter c m4
  let dps ← m5.SumDataPoints
  duplicateForNodeOnly dps

/-! ## Example inputs -/

/-- A datapoint with the given attributes and double value; timestamps and flags zero. -/
def Example.dp (attrs : Map) (v : Rat) : NumberDataPoint :=
  ⟨attrs, 0, 0, NumberValue.double (Float64.fin v), ⟨false, 0⟩⟩

/-- Three error counters under one runtime tag, with values 1, 2 and 3. -/
def Example.errorDatapoints : NumberDataPointSlice :=
  [Example.dp [("error_type", .str "generic"), ("runtime_tag", .str "rt1")] 1,
   Example.dp [("error_type", .str "numerical"), ("runtime_tag", .str "rt1")] 2,
   Example.dp [("error_type", .str "transient"), ("runtime_tag", .str "rt1")] 3]

def Example.errors : Metric :=
  ⟨"neuron_execution_errors", "", "Count",
    .sum Example.errorDatapoints AggregationTemporality.unspecified false⟩

/-- The rollup mapping of `neuron_execution_errors` under the upstream constants. -/
def Example.errorsMapping : List (String × String) :=
  [("generic", "neuron_execution_errors_total"), ("numerical", "neuron_execution_errors_total"),
   ("transient", "neuron_execution_errors_total"), ("model", "neuron_execution_errors_total"),
   ("runtime", "neuron_execution_errors_total"), ("hardware", "neuron_execution_errors_total")]

/-- An error counter whose `error_type` has no entry in the rollup mapping. -/
def Example.unmappedError : Metric :=
  ⟨"neuron_execution_errors", "", "Count",
    .sum [Example.dp [("error_type", .str "oom"), ("runtime_tag", .str "rt1")] 5]
      AggregationTemporality.unspecified false⟩

/-- Utilisation samples: core 1 has 10 and 20, core 2 has 5, core 3 has -5; two cores per
device. -/
def Example.utilizationFirst : NumberDataPoint :=
  Example.dp [("neuroncore", .str "1"), ("runtime_tag", .str "rt1"),
    ("neuroncore_per_device_count", .str "2")] 10

def Example.utilizationRest : NumberDataPointSlice :=
  [Example.dp [("neuroncore", .str "1"), ("runtime_tag", .str "rt1")] 20,
   Example.dp [("neuroncore", .str "2"), ("runtime_tag", .str "rt1")] 5,
   Example.dp [("neuroncore", .str "3"), ("runtime_tag", .str "rt1")] (-5)]

def Example.utilization : Metric :=
  ⟨"neuroncore_utilization_ratio", "", "Percent",
    .sum (Example.utilizationFirst :: Example.utilizationRest)
      AggregationTemporality.unspecified false⟩

/-- A utilisation sample without the cores-per-device attribute. -/
def Example.utilizationNoCount : Metric :=
  ⟨"neuroncore_utilization_ratio", "", "",
    .gauge [Example.dp [("neuroncore", .str "1")] 10]⟩

/-- A utilisation sample whose cores-per-device attribute is not a number. -/
def Example.utilizationBadCount : Metric :=
  ⟨"neuroncore_utilization_ratio", "", "",
    .gauge [Example.dp [("neuroncore", .str "1"), ("neuroncore_per_device_count", .str "two")]
      10]⟩

/-- A latency metric with a p50 and a p99 datapoint and one without percentile. -/
def Example.latencyDatapoints : NumberDataPointSlice :=
  [Example.dp [("percentile", .str "p50")] 3, Example.dp [("percentile", .str "p99")] 4,
   Example.dp [] 7, Example.dp [("percentile", .str "p50"), ("PodName", .str "pod-1")] 9]

def Example.latency : Metric :=
  ⟨"neuron_execution_latency", "", "Seconds",
    .sum Example.latencyDatapoints AggregationTemporality.unspecified false⟩

/-- A latency metric none of whose datapoints is the p50 series. -/
def Example.latencyNoP50 : Metric :=
  ⟨"neuron_execution_latency", "", "", .gauge [Example.dp [("percentile", .str "p99")] 4]⟩

/-- Two transformed metrics of sum shape. -/
def Example.transformed : MetricSlice :=
  [⟨"a", "", "Count", .sum [Example.dp [] 1] AggregationTemporality.cumulative false⟩,
   ⟨"b", "", "Count", .sum [Example.dp [] 2, Example.dp [] 3]
      AggregationTemporality.cumulative false⟩]

/-- An instance-info gauge whose only datapoint has the given attributes. -/
def Example.instanceInfo (attrs : Map) : Metric :=
  ⟨"instance_info", "", "", .gauge [Example.dp attrs 1]⟩

/-- A datapoint without value, flagged as having no recorded value. -/
def Example.staleDatapoint : NumberDataPoint :=
  ⟨[("runtime_tag", .str "rt1")], 5, 6, NumberValue.empty, ⟨true, 0⟩⟩

/-- A latency gauge whose first datapoint is a p99 sample with `PodName` and whose only p50
sample has no `PodName`. -/
def Example.latencyPodOnP99 : Metric :=
  ⟨"neuron_execution_latency", "", "",
    .gauge [Example.dp [("percentile", .str "p99"), ("PodName", .str "pod-1")] 4,
            Example.dp [("percentile", .str "p50")] 3]⟩

/-- A latency gauge whose first p50 sample carries `PodName`. -/
def Example.latencyWithPod : Metric :=
  ⟨"neuron_execution_latency", "", "",
    .gauge [Example.dp [("percentile", .str "p99")] 4,
            Example.dp [("percentile", .str "p50"), ("PodName", .str "pod-1")] 3,
            Example.dp [("percentile", .str "p50")] 9]⟩

/-- A utilisation sample of sum shape without the cores-per-device attribute. -/
def Example.utilizationSumNoCount : Metric :=
  ⟨"neuroncore_utilization_ratio", "", "Percent",
    .sum [Example.dp [("neuroncore", .str "1"), ("runtime_tag", .str "rt1")] 10]
      AggregationTemporality.unspecified false⟩

/-- A utilisation sample whose core id, 2^63, is out of the range of `int64`; one core per
device. -/
def Example.utilizationHugeCore : Metric :=
  ⟨"neuroncore_utilization_ratio", "", "Percent",
    .sum [Example.dp [("neuroncore", .str "9223372036854775808"), ("runtime_tag", .str "rt1"),
      ("neuroncore_per_device_count", .str "1")] 10] AggregationTemporality.unspecified false⟩

/-- The datapoint that the peak aggregator returns for `Example.utilizationHugeCore`. -/
def Example.hugeCoreOutput : NumberDataPoint :=
  Example.dp [("neuroncore", .str "9223372036854775808"), ("runtime_tag", .str "rt1"),
    ("neuroncore_per_device_count", .str "1"), ("NeuronCore", .str "core9223372036854775808"),
    ("NeuronDevice", .str "device9223372036854775807")] 10

/-- A hardware sample of sum shape labelled with the core `3`, under the runtime tag `rt1`. -/
def Example.coreLabelled : Metric :=
  ⟨"neuron_hardware", "", "",
    .sum [Example.dp [("NeuronCore", .str "3"), ("runtime_tag", .str "rt1")] 7]
      AggregationTemporality.unspecified false⟩

/-- A sum metric with a flagged datapoint without value, a flagged datapoint with an
integer value, and a live datapoint. -/
def Example.partlyStale : Metric :=
  ⟨"neuron_hardware", "", "",
    .sum [Example.staleDatapoint,
      ⟨[("runtime_tag", .str "rt2")], 5, 6, NumberValue.int 4, ⟨true, 2⟩⟩,
      Example.dp [("runtime_tag", .str "rt3")] 8]
      AggregationTemporality.unspecified false⟩

/-- Two error counters under one runtime tag with the values 2^53 and 1, whose exact sum
2^53 + 1 is not a `float64`. -/
def Example.errorsRounding : Metric :=
  ⟨"neuron_execution_errors", "", "Count",
    .sum [Example.dp [("error_type", .str "generic"), ("runtime_tag", .str "rt1")]
        9007199254740992,
      Example.dp [("error_type", .str "numerical"), ("runtime_tag", .str "rt1")] 1]
      AggregationTemporality.unspecified false⟩

/-- A utilisation metric whose only sample is NaN; two cores per device. -/
def Example.utilizationNaN : Metric :=
  ⟨"neuroncore_utilization_ratio", "", "Percent",
    .sum [⟨[("neuroncore", .str "1"), ("runtime_tag", .str "rt1"),
      ("neuroncore_per_device_count", .str "2")], 0, 0, NumberValue.double Float64.nan,
      ⟨false, 0⟩⟩] AggregationTemporality.unspecified false⟩

/-! ## Quantities used in the statements -/

/-- The exact sum of the values, read with `DoubleValue()`, of the datapoints of a metric,
a value that is not finite counting as zero. -/
def Metric.valueSum (m : Metric) : Rat :=
  match m.data with
  | .sum dps _ _ => (dps.map (fun dp => dp.DoubleValue.toRat)).sum
  | .gauge dps => (dps.map (fun dp => dp.DoubleValue.toRat)).sum
  | _ => 0

/-- Every datapoint of the metric, which is of sum shape, carries `runtime_tag = DEFAULT`. -/
def Metric.RuntimeDefault (m : Metric) : Prop :=
  ∃ dps t mono, m.data = .sum dps t mono ∧
    ∀ dp ∈ dps, Map.Get dp.attributes RuntimeTag = (Value.str RuntimeTagOverride, true)

end AwsNeuron

/-!
# The pipeline translator

A shallow embedding of `translator/translate/otel/pipeline/translator.go`.

* `component.ID` is a pair of strings; `confmap.Conf` is a type parameter.
* Package `common` is not part of the embedded sources.  What `Translate` uses of it, the
  type `TranslatorMap[component.Config]` with `NewTranslatorMap`, `SortedKeys` and `Merge`,
  is the parameter structure `Common`.
* A child translator is the function that its `Translate` method computes: it returns a
  `*common.ComponentTranslators`, which may be nil, and an error, which may be nil.
* `t.translators` and `translation.Pipelines` are Go maps, modelled as lists of key/value
  pairs; the iteration order of `range` is a `RangeOrder` parameter.
* `Translate` returns either a nil translation with an error or a translation with a nil
  error, which is a value of `Except`.
-/

namespace Pipeline

/-- `component.ID`. -/
structure ID where
  typeVal : String
  nameVal : String
deriving DecidableEq, Repr

/-- The parts of package `common` that `Translate` uses. -/
structure Common where
  TranslatorMap : Type
  NewTranslatorMap : TranslatorMap
  SortedKeys : TranslatorMap → List ID
  Merge : TranslatorMap → TranslatorMap → TranslatorMap

/-- `common.ComponentTranslators`. -/
structure ComponentTranslators (k : Common) where
  Receivers : k.TranslatorMap
  Processors : k.TranslatorMap
  Exporters : k.TranslatorMap
  Extensions : k.TranslatorMap

/-- `service.PipelineConfig`, as far as `Translate` fills it. -/
structure PipelineConfig where
  Receivers : List ID
  Processors : List ID
  Exporters : List ID
deriving DecidableEq, Repr

/-- `Translation` (source lines 22-26). -/
structure Translation (k : Common) where
  Pipelines : List (ID × PipelineConfig)
  Translators : ComponentTranslators k

/-- The error values that `Translate` returns (source lines 16-18). -/
inductive Error
  | ErrNoPipelines
deriving DecidableEq, Repr

/-- The `Translate` method of a child translator: the pipeline, nil or not, and the error,
nil or a message. -/
abbrev Translator (k : Common) (Conf : Type) :=
  Conf → Option (ComponentTranslators k) × Option String

/-- Go map assignment `m[id] = v`. -/
def assign (m : List (ID × PipelineConfig)) (id : ID) (v : PipelineConfig) :
    List (ID × PipelineConfig) :=
  match m with
  | [] => [(id, v)]
  | (id0, v0) :: rest => if id0 = id then (id0, v) :: rest else (id0, v0) :: assign rest id v

/-- The `service.PipelineConfig` built at source lines 55-59. -/
def pipelineConfig (k : Common) (pipeline : ComponentTranslators k) : PipelineConfig :=
  { Receivers := k.SortedKeys pipeline.Receivers,
    Processors := k.SortedKeys pipeline.Processors,
    Exporters := k.SortedKeys pipeline.Exporters }

/-- The entry of `Pipelines` that one iteration of the loop of `Translate` writes for a
child translator, if it writes one (source lines 54-59). -/
def pipelineEntry (k : Common) {Conf : Type} (conf : Conf) (entry : ID × Translator k Conf) :
    Option (ID × PipelineConfig) :=
  (entry.2 conf).1.map (fun pipeline => (entry.1, pipelineConfig k pipeline))

/-- One iteration of the loop of `Translate` (source lines 54-64). -/
def translateStep (k : Common) {Conf : Type} (conf : Conf) (translation : Translation k)
    (entry : ID × Translator k Conf) : Translation k :=
  match (entry.2 conf).1 with
  | some pipeline =>
    { Pipelines := assign translation.Pipelines entry.1 (pipelineConfig k pipeline),
      Translators :=
        { Receivers := k.Merge translation.Translators.Receivers pipeline.Receivers,
          Processors := k.Merge translation.Translators.Processors pipeline.Processors,
          Exporters := k.Merge translation.Translators.Exporters pipeline.Exporters,
          Extensions := k.Merge translation.Translators.Extensions pipeline.Extensions } }
  | none => translation

/-- Source lines 43-70. -/
def Translate (k : Common) {Conf : Type} (ord : AwsNeuron.RangeOrder)
    (translators : List (ID × Translator k Conf)) (conf : Conf) :
    Except Error (Translation k) :=
  let translation0 : Translation k :=
    { Pipelines := [],
      Translators :=
        { Receivers := k.NewTranslatorMap,
          Processors := k.NewTranslatorMap,
          Exporters := k.NewTranslatorMap,
          Extensions := k.NewTranslatorMap } }
  let translation := (ord.order translators).foldl (translateStep k conf) translation0
  if translation.Pipelines.length = 0 then .error Error.ErrNoPipelines
  else .ok translation

/-- A translator map kept as the list of its keys, for the examples. -/
def Example.common : Common :=
  { TranslatorMap := List ID,
    NewTranslatorMap := [],
    SortedKeys := fun m => m,
    Merge := fun m other => m ++ other }

/-- The pipeline of the examples: one receiver and one exporter. -/
def Example.pipeline : ComponentTranslators Example.common :=
  { Receivers := [⟨"prometheus", ""⟩],
    Processors := [],
    Exporters := [⟨"awsemf", ""⟩],
    Extensions := [] }

/-- Three child translators: one yields nothing and an error, one yields a pipeline, one
yields a pipeline together with an error. -/
def Example.translators : List (ID × Translator Example.common Unit) :=
  [(⟨"metrics", "a"⟩, fun _ => (none, some "missing key")),
   (⟨"metrics", "b"⟩, fun _ => (some Example.pipeline, none)),
   (⟨"metrics", "c"⟩, fun _ => (some Example.pipeline, some "partial"))]

/-- Two child translators that yield no pipeline, one of them without error. -/
def Example.noPipelines : List (ID × Translator Example.common Unit) :=
  [(⟨"metrics", "a"⟩, fun _ => (none, some "missing key")),
   (⟨"metrics", "b"⟩, fun _ => (none, none))]

end Pipeline

namespace AwsNeuron

/-! ## Auxiliary facts: attribute maps -/

theorem Map.Get_PutStr_same (m : Map) (key s : String) :
    Map.Get (Map.PutStr m key s) key = (Value.str s, true) := by
  induction m with
  | nil => simp [Map.PutStr, Map.Get]
  | cons e rest ih =>
    obtain ⟨k, v⟩ := e
    by_cases h : k = key
    · simp [Map.PutStr, Map.Get, h]
    · simp [Map.PutStr, Map.Get, h, ih]

theorem Map.Get_PutStr_other (m : Map) (key key2 s : String) (hne : key ≠ key2) :
    Map.Get (Map.PutStr m key s) key2 = Map.Get m key2 := by
  induction m with
  | nil => simp [Map.PutStr, Map.Get, hne]
  | cons e rest ih =>
    obtain ⟨k, v⟩ := e
    by_cases h : k = key
    · subst h
      simp [Map.PutStr, Map.Get, hne]
    · by_cases h2 : k = key2
      · subst h2
        simp [Map.PutStr, Map.Get, h]
      · simp [Map.PutStr, Map.Get, h, h2, ih]

theorem length_eq_zero_iff_empty (s : String) : s.length = 0 ↔ s = "" := by
  constructor
  · intro h
    have h2 : s.data = [] := List.length_eq_zero.mp h
    exact String.ext h2
  · intro h
    rw [h]
    rfl

/-! ## Auxiliary facts: loops and Go maps -/

theorem mapRange_ok {α β : Type} (f : α → Result β) (g : α → β) (l : List α)
    (h : ∀ a ∈ l, f a = .ok (g a)) : mapRange f l = .ok (l.map g) := by
  induction l with
  | nil => rfl
  | cons a rest ih =>
    have h1 : f a = .ok (g a) := h a (List.mem_cons_self a rest)
    have h2 : mapRange f rest = .ok (rest.map g) :=
      ih (fun x hx => h x (List.mem_cons_of_mem a hx))
    simp [mapRange, h1, h2]

theorem mapRange_head_error {α β : Type} (f : α → Result β) (a : α) (rest : List α)
    (e : Panic) (h : f a = .error e) : mapRange f (a :: rest) = .error e := by
  simp [mapRange, h]

theorem mapRange_forall₂ {α β : Type} (f : α → Result β) (R : α → β → Prop) (l : List α)
    (h : ∀ a ∈ l, ∃ b, f a = .ok b ∧ R a b) :
    ∃ bs, mapRange f l = .ok bs ∧ List.Forall₂ R l bs := by
  induction l with
  | nil => exact ⟨[], rfl, List.Forall₂.nil⟩
  | cons a rest ih =>
    obtain ⟨b, hb, hR⟩ := h a (List.mem_cons_self a rest)
    obtain ⟨bs, hbs, hRs⟩ := ih (fun x hx => h x (List.mem_cons_of_mem a hx))
    exact ⟨b :: bs, by simp [mapRange, hb, hbs], List.Forall₂.cons hR hRs⟩

theorem order_ne_nil (ord : RangeOrder) {α : Type} (l : List α) (h : l ≠ []) :
    ord.order l ≠ [] := by
  intro h2
  have h3 := (ord.perm l).length_eq
  rw [h2] at h3
  exact h (List.length_eq_zero.mp h3.symm)

theorem keys_upsert {κ : Type} [DecidableEq κ] (m : List (κ × Float64)) (k : κ) (f : Float64 → Float64) :
    (upsert m k f).map Prod.fst =
      if k ∈ m.map Prod.fst then m.map Prod.fst else m.map Prod.fst ++ [k] := by
  induction m with
  | nil => simp [upsert]
  | cons e rest ih =>
    obtain ⟨k0, v⟩ := e
    by_cases h : k0 = k
    · simp [upsert, h]
    · have h2 : ¬ k = k0 := fun h3 => h h3.symm
      by_cases h4 : k ∈ rest.map Prod.fst
      · simp [upsert, h, h2, ih, h4]
      · simp [upsert, h, h2, ih, h4]

theorem mem_keys_upsert {κ : Type} [DecidableEq κ] (m : List (κ × Float64)) (k k2 : κ)
    (f : Float64 → Float64) :
    k2 ∈ (upsert m k f).map Prod.fst ↔ k2 = k ∨ k2 ∈ m.map Prod.fst := by
  rw [keys_upsert]
  by_cases h : k ∈ m.map Prod.fst
  · rw [if_pos h]
    constructor
    · intro h2
      exact Or.inr h2
    · rintro (h2 | h2)
      · rw [h2]
        exact h
      · exact h2
  · rw [if_neg h, List.mem_append, List.mem_singleton]
    exact or_comm

theorem nodup_keys_upsert {κ : Type} [DecidableEq κ] (m : List (κ × Float64)) (k : κ)
    (f : Float64 → Float64) (hm : (m.map Prod.fst).Nodup) : ((upsert m k f).map Prod.fst).Nodup := by
  rw [keys_upsert]
  by_cases h : k ∈ m.map Prod.fst
  · rw [if_pos h]
    exact hm
  · rw [if_neg h]
    exact List.Nodup.append hm (List.nodup_singleton k)
      (by
        intro x hx hx2
        rw [List.mem_singleton] at hx2
        exact h (hx2 ▸ hx))

theorem readKey_upsert {κ : Type} [DecidableEq κ] (m : List (κ × Float64)) (k k2 : κ)
    (f : Float64 → Float64) :
    readKey (upsert m k f) k2 = if k2 = k then f (readKey m k) else readKey m k2 := by
  induction m with
  | nil =>
    by_cases h : k2 = k
    · simp [upsert, readKey, h]
    · have h2 : ¬ k = k2 := fun h3 => h h3.symm
      simp [upsert, readKey, h, h2]
  | cons e rest ih =>
    obtain ⟨k0, v⟩ := e
    by_cases h : k0 = k
    · subst h
      by_cases h2 : k2 = k0
      · simp [upsert, readKey, h2]
      · have h3 : ¬ k0 = k2 := fun h4 => h2 h4.symm
        simp [upsert, readKey, h2, h3]
    · by_cases h2 : k2 = k
      · subst h2
        simp [upsert, readKey, h, ih]
      · by_cases h3 : k0 = k2
        · simp [upsert, readKey, h, h2, h3]
        · simp [upsert, readKey, h, h2, h3, ih]

theorem readKey_of_mem {κ : Type} [DecidableEq κ] (m : List (κ × Float64)) (k : κ) (v : Float64)
    (hm : (m.map Prod.fst).Nodup) (h : (k, v) ∈ m) : readKey m k = v := by
  induction m with
  | nil => simp at h
  | cons e rest ih =>
    obtain ⟨k0, v0⟩ := e
    rw [List.map_cons, List.nodup_cons] at hm
    rcases List.mem_cons.mp h with h1 | h1
    · injection h1 with h2 h3
      simp [readKey, h2, h3]
    · have h4 : k0 ≠ k := by
        intro h5
        apply hm.1
        rw [h5]
        exact List.mem_map.mpr ⟨(k, v), h1, rfl⟩
      simp [readKey, h4, ih hm.2 h1]

theorem mem_keys_foldl_upsert {δ κ : Type} [DecidableEq κ] (key : δ → κ)
    (g : δ → Float64 → Float64)
    (dps : List δ) (acc : List (κ × Float64)) (k : κ) :
    k ∈ (dps.foldl (fun a dp => upsert a (key dp) (g dp)) acc).map Prod.fst ↔
      k ∈ acc.map Prod.fst ∨ ∃ dp ∈ dps, key dp = k := by
  induction dps generalizing acc with
  | nil => simp
  | cons d rest ih =>
    rw [List.foldl_cons, ih, mem_keys_upsert]
    constructor
    · rintro ((h | h) | ⟨dp, hdp, hk⟩)
      · exact Or.inr ⟨d, List.mem_cons_self d rest, h.symm⟩
      · exact Or.inl h
      · exact Or.inr ⟨dp, List.mem_cons_of_mem d hdp, hk⟩
    · rintro (h | ⟨dp, hdp, hk⟩)
      · exact Or.inl (Or.inr h)
      · rcases List.mem_cons.mp hdp with h1 | h1
        · subst h1
          exact Or.inl (Or.inl hk.symm)
        · exact Or.inr ⟨dp, h1, hk⟩

theorem nodup_keys_foldl_upsert {δ κ : Type} [DecidableEq κ] (key : δ → κ)
    (g : δ → Float64 → Float64)
    (dps : List δ) (acc : List (κ × Float64)) (hacc : (acc.map Prod.fst).Nodup) :
    ((dps.foldl (fun a dp => upsert a (key dp) (g dp)) acc).map Prod.fst).Nodup := by
  induction dps generalizing acc with
  | nil => exact hacc
  | cons d rest ih =>
    rw [List.foldl_cons]
    exact ih _ (nodup_keys_upsert acc (key d) (g d) hacc)

theorem readKey_foldl_upsert {δ κ : Type} [DecidableEq κ] (key : δ → κ)
    (g : δ → Float64 → Float64)
    (dps : List δ) (acc : List (κ × Float64)) (k : κ) :
    readKey (dps.foldl (fun a dp => upsert a (key dp) (g dp)) acc) k =
      (dps.filter (fun dp => decide (key dp = k))).foldl (fun a dp => g dp a) (readKey acc k) := by
  induction dps generalizing acc with
  | nil => rfl
  | cons d rest ih =>
    rw [List.foldl_cons, ih, readKey_upsert]
    by_cases h : key d = k
    · have h2 : k = key d := h.symm
      rw [List.filter_cons_of_pos (by simpa using h), List.foldl_cons, if_pos h2, h]
    · have h2 : ¬ k = key d := fun h3 => h h3.symm
      rw [List.filter_cons_of_neg (by simpa using h), if_neg h2]

/-! ## Auxiliary facts: `float64` -/

theorem float64_le_iff (a b : Float64) : a ≤ b ↔ Float64.le a b = true := Iff.rfl

theorem float64_max_def (a b : Float64) : max a b = Float64.max a b := rfl

theorem float64_add_def (a b : Float64) : a + b = Float64.add a b := rfl

theorem float64_zero_def : (0 : Float64) = Float64.fin 0 := rfl

theorem float64_ne_nan_of_le_left {a b : Float64} (h : a ≤ b) : a ≠ Float64.nan := by
  intro ha
  subst ha
  simp [float64_le_iff, Float64.le] at h

theorem float64_ne_nan_of_le_right {a b : Float64} (h : a ≤ b) : b ≠ Float64.nan := by
  intro hb
  subst hb
  cases a <;> simp [float64_le_iff, Float64.le] at h

theorem float64_le_of_ne_nan (a : Float64) (ha : a ≠ Float64.nan) : a ≤ a := by
  cases a <;> simp [float64_le_iff, Float64.le] at ha ⊢

theorem float64_le_of_le_of_le {a b c : Float64} (h1 : a ≤ b) (h2 : b ≤ c) : a ≤ c := by
  cases a <;> cases b <;> cases c <;>
    simp only [float64_le_iff, Float64.le, decide_eq_true_eq, Bool.false_eq_true] at h1 h2 ⊢ <;>
    first
      | trivial
      | linarith

theorem float64_eq_of_le_of_le {a b : Float64} (h1 : a ≤ b) (h2 : b ≤ a) : a = b := by
  cases a <;> cases b <;>
    simp only [float64_le_iff, Float64.le, decide_eq_true_eq, Bool.false_eq_true] at h1 h2 ⊢ <;>
    first
      | rfl
      | (exfalso; linarith)
      | (congr 1; linarith)

theorem float64_le_or_le (a b : Float64) (ha : a ≠ Float64.nan) (hb : b ≠ Float64.nan) :
    a ≤ b ∨ b ≤ a := by
  cases a <;> cases b <;>
    simp only [float64_le_iff, Float64.le, decide_eq_true_eq, Bool.false_eq_true, ne_eq,
      not_true_eq_false, reduceCtorEq, not_false_eq_true, or_self, or_true, true_or] at ha hb ⊢
  · rename_i q
    rcases le_or_lt 0 q with h | h
    · exact Or.inl h
    · exact Or.inr h
  · rename_i q
    rcases le_or_lt 0 q with h | h
    · exact Or.inr h
    · exact Or.inl h
  · exact le_total _ _

theorem float64_max_nan_left (b : Float64) : max Float64.nan b = Float64.nan := by
  cases b <;> rfl

theorem float64_max_nan_right (a : Float64) : max a Float64.nan = Float64.nan := by
  cases a <;> rfl

theorem float64_max_of_le {a b : Float64} (h : a ≤ b) : max a b = b := by
  have ha := float64_ne_nan_of_le_left h
  have hb := float64_ne_nan_of_le_right h
  rw [float64_le_iff] at h
  cases a <;> cases b <;> simp_all [float64_max_def, Float64.max]

theorem float64_max_of_not_le {a b : Float64} (ha : a ≠ Float64.nan) (hb : b ≠ Float64.nan)
    (h : ¬ a ≤ b) : max a b = a := by
  rw [float64_le_iff] at h
  cases a <;> cases b <;> simp_all [float64_max_def, Float64.max]

theorem float64_max_cases (a b : Float64) (ha : a ≠ Float64.nan) (hb : b ≠ Float64.nan) :
    (max a b = b ∧ a ≤ b) ∨ (max a b = a ∧ b ≤ a) := by
  by_cases h : a ≤ b
  · exact Or.inl ⟨float64_max_of_le h, h⟩
  · refine Or.inr ⟨float64_max_of_not_le ha hb h, ?_⟩
    rcases float64_le_or_le a b ha hb with h2 | h2
    · exact absurd h2 h
    · exact h2

theorem float64_max_ne_nan (a b : Float64) (ha : a ≠ Float64.nan) (hb : b ≠ Float64.nan) :
    max a b ≠ Float64.nan := by
  rcases float64_max_cases a b ha hb with h | h
  · rw [h.1]
    exact hb
  · rw [h.1]
    exact ha

theorem float64_le_max_left_of (a b : Float64) (ha : a ≠ Float64.nan) (hb : b ≠ Float64.nan) :
    a ≤ max a b := by
  rcases float64_max_cases a b ha hb with h | h
  · rw [h.1]
    exact h.2
  · rw [h.1]
    exact float64_le_of_ne_nan a ha

theorem float64_le_max_right_of (a b : Float64) (ha : a ≠ Float64.nan) (hb : b ≠ Float64.nan) :
    b ≤ max a b := by
  rcases float64_max_cases a b ha hb with h | h
  · rw [h.1]
    exact float64_le_of_ne_nan b hb
  · rw [h.1]
    exact h.2

theorem float64_zero_ne_nan : (0 : Float64) ≠ Float64.nan := by
  intro h
  cases h

/-- The peak of a group without NaN sample: not below the start value, not below zero, not
below any sample, and equal to the start value or to a sample. -/
theorem foldl_peak_spec {δ : Type} (val : δ → Float64) (l : List δ) (a : Float64)
    (ha : 0 ≤ a) (hl : ∀ dp ∈ l, val dp ≠ Float64.nan) :
    0 ≤ l.foldl (fun x dp => max (max x (val dp)) 0) a ∧
    a ≤ l.foldl (fun x dp => max (max x (val dp)) 0) a ∧
    (∀ dp ∈ l, val dp ≤ l.foldl (fun x dp => max (max x (val dp)) 0) a) ∧
    (l.foldl (fun x dp => max (max x (val dp)) 0) a = a ∨
      ∃ dp ∈ l, val dp = l.foldl (fun x dp => max (max x (val dp)) 0) a) := by
  induction l generalizing a with
  | nil =>
    exact ⟨ha, float64_le_of_ne_nan a (float64_ne_nan_of_le_right ha),
      fun dp hdp => absurd hdp (List.not_mem_nil dp), Or.inl rfl⟩
  | cons d rest ih =>
    have han : a ≠ Float64.nan := float64_ne_nan_of_le_right ha
    have hdn : val d ≠ Float64.nan := hl d (List.mem_cons_self d rest)
    have hmn : max a (val d) ≠ Float64.nan := float64_max_ne_nan _ _ han hdn
    have hb : 0 ≤ max (max a (val d)) 0 :=
      float64_le_max_right_of _ _ hmn float64_zero_ne_nan
    obtain ⟨h1, h2, h3, h4⟩ := ih (max (max a (val d)) 0) hb
      (fun x hx => hl x (List.mem_cons_of_mem d hx))
    have hle : a ≤ max (max a (val d)) 0 :=
      float64_le_of_le_of_le (float64_le_max_left_of _ _ han hdn)
        (float64_le_max_left_of _ _ hmn float64_zero_ne_nan)
    have hle2 : val d ≤ max (max a (val d)) 0 :=
      float64_le_of_le_of_le (float64_le_max_right_of _ _ han hdn)
        (float64_le_max_left_of _ _ hmn float64_zero_ne_nan)
    rw [List.foldl_cons]
    refine ⟨h1, float64_le_of_le_of_le hle h2, ?_, ?_⟩
    · intro dp hdp
      rcases List.mem_cons.mp hdp with h5 | h5
      · rw [h5]
        exact float64_le_of_le_of_le hle2 h2
      · exact h3 dp h5
    · rcases h4 with h5 | ⟨dp, hdp, h5⟩
      · rw [h5]
        rcases float64_max_cases (max a (val d)) 0 hmn float64_zero_ne_nan with h6 | h6
        · left
          rw [h6.1]
          exact float64_eq_of_le_of_le ha
            (float64_le_of_le_of_le (float64_le_max_left_of _ _ han hdn) h6.2)
        · rw [h6.1]
          rcases float64_max_cases a (val d) han hdn with h7 | h7
          · right
            exact ⟨d, List.mem_cons_self d rest, h7.1.symm⟩
          · left
            exact h7.1
      · exact Or.inr ⟨dp, List.mem_cons_of_mem d hdp, h5⟩

/-- The peak of a group with a NaN sample is NaN. -/
theorem foldl_peak_nan {δ : Type} (val : δ → Float64) (l : List δ) (a : Float64)
    (h : a = Float64.nan ∨ ∃ dp ∈ l, val dp = Float64.nan) :
    l.foldl (fun x dp => max (max x (val dp)) 0) a = Float64.nan := by
  induction l generalizing a with
  | nil =>
    rcases h with h | ⟨dp, hdp, _⟩
    · exact h
    · exact absurd hdp (List.not_mem_nil dp)
  | cons d rest ih =>
    rw [List.foldl_cons]
    apply ih
    rcases h with h | ⟨dp, hdp, h⟩
    · left
      rw [h, float64_max_nan_left, float64_max_nan_left]
    · rcases List.mem_cons.mp hdp with h5 | h5
      · left
        rw [← h5, h, float64_max_nan_right, float64_max_nan_left]
      · exact Or.inr ⟨dp, h5, h⟩

/-! ## Auxiliary facts: integers that `float64` adds without rounding -/

theorem log2Fuel_le (fuel n : Nat) (h : n ≤ fuel) (hn : 0 < n) :
    2 ^ log2Fuel fuel n ≤ n := by
  induction fuel generalizing n with
  | zero => omega
  | succ fuel ih =>
    unfold log2Fuel
    by_cases h2 : n < 2
    · rw [if_pos h2]
      simpa using hn
    · rw [if_neg h2]
      have h3 := ih (n / 2) (by omega) (by omega)
      rw [pow_succ]
      omega

theorem two_pow_log2_le (n : Nat) (hn : 0 < n) : 2 ^ log2 n ≤ n :=
  log2Fuel_le n n (le_refl n) hn

theorem roundHalfEven_one (N : Nat) : roundHalfEven N 1 = N := by
  simp [roundHalfEven, Nat.mod_one]

theorem roundPos_natCast (a : Nat) (h1 : 0 < a) (h2 : a ≤ 2 ^ 53) :
    Float64.roundPos a 1 = some (a : Rat) := by
  have hk := two_pow_log2_le a h1
  have hk53 : log2 a ≤ 53 := by
    by_contra hc
    have h3 : 2 ^ 54 ≤ 2 ^ log2 a := Nat.pow_le_pow_right (by norm_num) (by omega)
    omega
  have hlog1 : log2 1 = 0 := by decide
  unfold Float64.roundPos
  simp only [hlog1, Nat.cast_zero, sub_zero, Int.toNat_ofNat, one_mul]
  have hneg : (-(log2 a : Int)).toNat = 0 := by omega
  rw [hneg, pow_zero, mul_one, if_pos hk]
  have he : max ((log2 a : Int) - 52) (-1074) = (log2 a : Int) - 52 := by omega
  rw [he]
  by_cases hlt : log2 a ≤ 52
  · have e1 : ((log2 a : Int) - 52).toNat = 0 := by omega
    have e2 : (-((log2 a : Int) - 52)).toNat = 52 - log2 a := by omega
    rw [e1, e2, pow_zero, roundHalfEven_one]
    have hc : ¬ (971 < (log2 a : Int) - 52 ∨
        ((log2 a : Int) - 52 = 971 ∧ 2 ^ 53 ≤ a * 2 ^ (52 - log2 a))) := by omega
    rw [if_neg hc]
    congr 1
    have hpos : ((2 ^ (52 - log2 a) : Nat) : Rat) ≠ 0 := by positivity
    push_cast
    field_simp
  · have hk2 : log2 a = 53 := by omega
    have ha : a = 2 ^ 53 := by
      rw [hk2] at hk
      omega
    subst ha
    rw [hk2]
    have e1 : (((53 : Nat) : Int) - 52).toNat = 1 := by decide
    have e2 : (-(((53 : Nat) : Int) - 52)).toNat = 0 := by decide
    rw [e1, e2]
    norm_num [roundHalfEven]

theorem float64_round_intCast (n : Int) (h : |n| ≤ 2 ^ 53) :
    Float64.round (n : Rat) = Float64.fin (n : Rat) := by
  unfold Float64.round
  by_cases h0 : n = 0
  · subst h0
    simp
  · have hq0 : ¬ ((n : Rat) = 0) := by exact_mod_cast h0
    rw [if_neg hq0]
    have hnum : ((n : Rat)).num.natAbs = n.natAbs := by rw [Rat.num_intCast]
    have hden : ((n : Rat)).den = 1 := Rat.den_intCast n
    have hpos : 0 < n.natAbs := Int.natAbs_pos.mpr h0
    have hle : n.natAbs ≤ 2 ^ 53 := by
      have : (n.natAbs : Int) ≤ 2 ^ 53 := by rw [Int.natCast_natAbs]; exact h
      exact_mod_cast this
    rw [hnum, hden, roundPos_natCast n.natAbs hpos hle]
    by_cases hp : 0 < n
    · have hqp : (0 : Rat) < (n : Rat) := by exact_mod_cast hp
      rw [if_pos hqp]
      simp only
      congr 1
      have h3 : ((n.natAbs : Int) : Rat) = (n : Rat) := by
        rw [Int.natAbs_of_nonneg (le_of_lt hp)]
      rw [Int.cast_natCast] at h3
      exact h3
    · have hqp : ¬ (0 : Rat) < (n : Rat) := by exact_mod_cast hp
      rw [if_neg hqp]
      have hne : ¬ ((n.natAbs : Rat) = 0) := by
        have : n.natAbs ≠ 0 := by omega
        exact_mod_cast this
      simp only [hne, if_false]
      congr 1
      have h3 : (n.natAbs : Int) = -n := by omega
      have h4 : ((n.natAbs : Int) : Rat) = ((-n : Int) : Rat) := by rw [h3]
      rw [Int.cast_natCast, Int.cast_neg] at h4
      rw [h4, neg_neg]

/-- Two integers of `float64` whose sum has magnitude at most `2^53` add without rounding. -/
theorem float64_add_intCast (a b : Int) (h : |a + b| ≤ 2 ^ 53) :
    Float64.fin (a : Rat) + Float64.fin (b : Rat) = Float64.fin ((a + b : Int) : Rat) := by
  show Float64.round ((a : Rat) + (b : Rat)) = _
  rw [← Int.cast_add]
  exact float64_round_intCast (a + b) h

theorem length_flatMap_map {α β γ : Type} (l : List α) (types : List β) (f : α → β → γ) :
    (l.flatMap (fun a => types.map (f a))).length = l.length * types.length := by
  induction l with
  | nil => simp
  | cons a tl ih =>
    rw [List.flatMap_cons, List.length_append, ih, List.length_map, List.length_cons,
      Nat.succ_mul, Nat.add_comm]

/-! ## Auxiliary facts: the rule registry -/

theorem lookup_cons_ne {β : Type} (k a : String) (b : β) (es : List (String × β))
    (h : k ≠ a) : List.lookup k ((a, b) :: es) = List.lookup k es := by
  have h2 : (k == a) = false := beq_eq_false_iff_ne.mpr h
  simp [List.lookup, h2]

theorem lookup_cons_self {β : Type} (a : String) (b : β) (es : List (String × β)) :
    List.lookup a ((a, b) :: es) = some b := by
  simp [List.lookup]

theorem lookup_eq_none_of_not_mem (c : ContainerInsightsCommon) (name : String)
    (h : name ∉ c.metricNames) : (metricModificationsMap c).lookup name = none := by
  simp only [ContainerInsightsCommon.metricNames, List.mem_cons, List.mem_singleton,
    List.not_mem_nil, or_false, not_or] at h
  obtain ⟨h1, h2, h3, h4, h5, h6, h7, h8, h9, h10, h11, h12, h13, h14⟩ := h
  rw [metricModificationsMap, lookup_cons_ne _ _ _ _ h1, lookup_cons_ne _ _ _ _ h2,
    lookup_cons_ne _ _ _ _ h3, lookup_cons_ne _ _ _ _ h4, lookup_cons_ne _ _ _ _ h5,
    lookup_cons_ne _ _ _ _ h6, lookup_cons_ne _ _ _ _ h7, lookup_cons_ne _ _ _ _ h8,
    lookup_cons_ne _ _ _ _ h9, lookup_cons_ne _ _ _ _ h10, lookup_cons_ne _ _ _ _ h11,
    lookup_cons_ne _ _ _ _ h12, lookup_cons_ne _ _ _ _ h13, lookup_cons_ne _ _ _ _ h14]
  rfl

theorem lookup_of_mem_nodup {β : Type} (l : List (String × β)) (k : String) (v : β)
    (hn : (l.map Prod.fst).Nodup) (h : (k, v) ∈ l) : l.lookup k = some v := by
  induction l with
  | nil => simp at h
  | cons e rest ih =>
    obtain ⟨a, b⟩ := e
    rw [List.map_cons, List.nodup_cons] at hn
    rcases List.mem_cons.mp h with h1 | h1
    · injection h1 with h2 h3
      rw [h2, h3]
      exact lookup_cons_self a b rest
    · have hne : k ≠ a := by
        intro h5
        apply hn.1
        rw [← h5]
        exact List.mem_map.mpr ⟨(k, v), h1, rfl⟩
      rw [lookup_cons_ne k a b rest hne]
      exact ih hn.2 h1

theorem metricModifications_of_mem (c : ContainerInsightsCommon) (hd : c.Distinct)
    (name : String) (r : MetricModifications) (h : (name, r) ∈ metricModificationsMap c) :
    (metricModificationsMap c).lookup name = some r ∧ metricModificationsAt c name = r := by
  have h1 : (metricModificationsMap c).lookup name = some r :=
    lookup_of_mem_nodup (metricModificationsMap c) name r hd h
  exact ⟨h1, by simp [metricModificationsAt, h1]⟩

theorem ne_of_distinct (c : ContainerInsightsCommon) (hd : c.Distinct) (i j : Fin 14)
    (hij : i ≠ j) : c.metricNames.get ⟨i.1, i.2⟩ ≠ c.metricNames.get ⟨j.1, j.2⟩ := by
  intro h
  have h2 := (List.Nodup.get_inj_iff hd).mp h
  exact hij (by simpa using h2)

example (c : ContainerInsightsCommon) (hd : c.Distinct) : c.NeuronInstanceInfo ≠ c.NeuronExecutionLatency :=
  ne_of_distinct c hd 10 12 (by decide)

/-! ## C1: unregistered metric names -/

/-- C1: a metric whose name has no entry in `metricModificationsMap` is left as it is and
nothing is appended to the output collection, whatever that collection holds. -/
theorem ModifyMetric_unregistered (c : ContainerInsightsCommon) (ord : RangeOrder)
    (originalMetric : Metric) (metrics : MetricSlice)
    (h : originalMetric.name ∉ (metricModificationsMap c).map Prod.fst) :
    ModifyMetric c ord originalMetric metrics = .ok (originalMetric, metrics) := by
  have h1 : (metricModificationsMap c).lookup originalMetric.name = none :=
    lookup_eq_none_of_not_mem c originalMetric.name h
  simp [ModifyMetric, h1]

theorem ModifyMetric_unregistered_witness :
    "cpu_temp" ∉ (metricModificationsMap upstream).map Prod.fst ∧
    ModifyMetric upstream RangeOrder.insertion
      ⟨"cpu_temp", "", "", .gauge [⟨[("PodName", .str "p")], 0, 0, .double (.fin 5), ⟨false, 0⟩⟩]⟩
      [⟨"kept", "", "", .empty⟩] =
      .ok (⟨"cpu_temp", "", "", .gauge [⟨[("PodName", .str "p")], 0, 0, .double (.fin 5), ⟨false, 0⟩⟩]⟩,
        [⟨"kept", "", "", .empty⟩]) :=
  ⟨by decide, ModifyMetric_unregistered upstream RangeOrder.insertion _ _ (by decide)⟩

/-! ## The peak aggregator: panics -/

theorem peakStep_eq :
    peakStep = fun a dp => upsert a (peakKey dp)
      ((fun (d : NumberDataPoint) (old : Float64) => max (max old d.DoubleValue) 0) dp) := rfl

theorem foldl_peakStep_ne_nil (first : NumberDataPoint) (rest : NumberDataPointSlice) :
    (first :: rest).foldl peakStep [] ≠ [] := by
  intro h
  have h1 : peakKey first ∈ ((first :: rest).foldl peakStep []).map Prod.fst := by
    rw [peakStep_eq]
    exact (mem_keys_foldl_upsert peakKey _ (first :: rest) [] (peakKey first)).mpr
      (Or.inr ⟨first, List.mem_cons_self first rest, rfl⟩)
  rw [h] at h1
  simp at h1

theorem peakDatapoint_zero (first : NumberDataPoint)
    (entry : NeuronCoreUtilizationDatapointAggregationKey × Float64) :
    peakDatapoint first 0 entry = .error Panic.divideByZero := by
  simp [peakDatapoint, intDiv, bind, Except.bind]

/-- Whenever the cores-per-device count read from the first datapoint parses to zero
(attribute missing, not a number, or the number zero) the peak aggregator panics with an
integer division by zero, for every iteration order. -/
theorem aggregateCoreUtilizationMetrics_divideByZero (ord : RangeOrder) (m : Metric)
    (first : NumberDataPoint) (rest : NumberDataPointSlice) (t : AggregationTemporality)
    (mono : Bool) (hdata : m.data = .sum (first :: rest) t mono)
    (h0 : (Atoi (Map.Get first.attributes NeuronCoresPerDeviceAttributeKey).1.Str).1 = 0) :
    aggregateCoreUtilizationMetrics ord m = .error Panic.divideByZero := by
  have hne := order_ne_nil ord _ (foldl_peakStep_ne_nil first rest)
  have hlen : ¬ ((first :: rest).foldl peakStep []).length = 0 := by
    intro h
    exact foldl_peakStep_ne_nil first rest (List.length_eq_zero.mp h)
  obtain ⟨e, es, hes⟩ := List.exists_cons_of_ne_nil hne
  have hmr := mapRange_head_error (peakDatapoint first 0) e es Panic.divideByZero
    (peakDatapoint_zero first e)
  simp only [aggregateCoreUtilizationMetrics, Metric.SumDataPoints, hdata, bind, Except.bind,
    NumberDataPointSlice.At, hlen, hes]
  simp [h0, hmr]

theorem Atoi_of_missing (attrs : Map) (key : String) (h : (Map.Get attrs key).2 = false) :
    (Atoi (Map.Get attrs key).1.Str).1 = 0 := by
  have h2 : (Map.Get attrs key).1 = Value.empty := by
    induction attrs with
    | nil => rfl
    | cons e rest ih =>
      obtain ⟨k, v⟩ := e
      by_cases hk : k = key
      · simp [Map.Get, hk] at h
      · simp only [Map.Get, hk, if_false] at h ⊢
        exact ih h
  rw [h2]
  decide

/-! ## The hierarchy duplicator: loops -/

theorem duplicateMetricForType_sum (c : ContainerInsightsCommon) (metric : Metric)
    (duplicateType originalMetricName : String) (metrics : MetricSlice)
    (hsum : metric.isSum = true) :
    duplicateMetricForType c metric duplicateType originalMetricName metrics =
      .ok (metrics ++ [duplicateOf c originalMetricName metric duplicateType]) := by
  obtain ⟨name, desc, unit, data⟩ := metric
  cases data with
  | sum dps t mono => rfl
  | empty => simp [Metric.isSum] at hsum
  | gauge dps => simp [Metric.isSum] at hsum
  | other => simp [Metric.isSum] at hsum

theorem foldlM_duplicateMetricForType (c : ContainerInsightsCommon) (metric : Metric)
    (originalMetricName : String) (types : List String) (metrics : MetricSlice)
    (hsum : metric.isSum = true) :
    types.foldlM (fun out2 duplicateType =>
        duplicateMetricForType c metric duplicateType originalMetricName out2) metrics =
      .ok (metrics ++ types.map (duplicateOf c originalMetricName metric)) := by
  induction types generalizing metrics with
  | nil => simp [pure, Except.pure]
  | cons s rest ih =>
    rw [List.foldlM_cons, duplicateMetricForType_sum c metric s originalMetricName metrics hsum]
    simp only [bind, Except.bind]
    rw [ih, List.append_assoc, List.map_cons, List.singleton_append]

/-- The whole loop of `duplicateMetrics` when every metric is duplicated for the same
list of scopes. -/
theorem foldlM_duplicate_scopes (c : ContainerInsightsCommon) (metricsSlice : MetricSlice)
    (originalMetricName : String) (types : List String) (metrics : MetricSlice)
    (hsum : ∀ m ∈ metricsSlice, m.isSum = true) :
    metricsSlice.foldlM (fun out metric =>
        types.foldlM (fun out2 duplicateType =>
          duplicateMetricForType c metric duplicateType originalMetricName out2) out) metrics =
      .ok (metrics ++ metricsSlice.flatMap
        (fun m => types.map (duplicateOf c originalMetricName m))) := by
  induction metricsSlice generalizing metrics with
  | nil => simp [pure, Except.pure]
  | cons m rest ih =>
    rw [List.foldlM_cons, foldlM_duplicateMetricForType c m originalMetricName types metrics
      (hsum m (List.mem_cons_self m rest))]
    simp only [bind, Except.bind]
    rw [ih _ (fun x hx => hsum x (List.mem_cons_of_mem m hx)), List.append_assoc,
      List.flatMap_cons]

theorem duplicateMetrics_nil (c : ContainerInsightsCommon) (metricsSlice : MetricSlice)
    (originalMetricName : String) (metrics : MetricSlice) :
    duplicateMetrics c metricsSlice originalMetricName [] metrics =
      .error Panic.indexOutOfRange := rfl

theorem nodeOnly_loop (c : ContainerInsightsCommon) (metricsSlice : MetricSlice)
    (originalMetricName : String) (first : NumberDataPoint) (rest : NumberDataPointSlice)
    (metrics : MetricSlice)
    (hb : (!(Map.Get first.attributes PodName).2 ||
            (Map.Get first.attributes PodName).1.Str.length == 0) = true) :
    duplicateMetrics c metricsSlice originalMetricName (first :: rest) metrics =
      metricsSlice.foldlM (fun out metric =>
        [c.TypeNode].foldlM (fun out2 duplicateType =>
          duplicateMetricForType c metric duplicateType originalMetricName out2) out)
        metrics := by
  simp only [duplicateMetrics, NumberDataPointSlice.At, List.getElem?_cons_zero, bind,
    Except.bind, hb, if_true]
  congr 1
  funext out metric
  simp [List.foldlM_cons, bind, Except.bind, pure, Except.pure]
  cases duplicateMetricForType c metric c.TypeNode originalMetricName out <;> rfl

theorem scoped_loop (c : ContainerInsightsCommon) (metricsSlice : MetricSlice)
    (originalMetricName : String) (first : NumberDataPoint) (rest : NumberDataPointSlice)
    (metrics : MetricSlice)
    (hb : (!(Map.Get first.attributes PodName).2 ||
            (Map.Get first.attributes PodName).1.Str.length == 0) = false) :
    duplicateMetrics c metricsSlice originalMetricName (first :: rest) metrics =
      metricsSlice.foldlM (fun out metric =>
        (metricModificationsAt c originalMetricName).DuplicationTypes.foldlM
          (fun out2 duplicateType =>
            duplicateMetricForType c metric duplicateType originalMetricName out2) out)
        metrics := by
  simp only [duplicateMetrics, NumberDataPointSlice.At, List.getElem?_cons_zero, bind,
    Except.bind, hb]
  rfl

theorem nodeOnly_flag (attrs : Map)
    (hpod : (Map.Get attrs PodName).2 = false ∨ (Map.Get attrs PodName).1.Str = "") :
    (!(Map.Get attrs PodName).2 || (Map.Get attrs PodName).1.Str.length == 0) = true := by
  rcases hpod with h | h
  · simp [h]
  · simp [h]

theorem scoped_flag (attrs : Map)
    (hpod : (Map.Get attrs PodName).2 = true ∧ (Map.Get attrs PodName).1.Str ≠ "") :
    (!(Map.Get attrs PodName).2 || (Map.Get attrs PodName).1.Str.length == 0) = false := by
  have h2 : ¬ (Map.Get attrs PodName).1.Str.length = 0 := fun h =>
    hpod.2 ((length_eq_zero_iff_empty _).mp h)
  simp [hpod.1, h2]

theorem duplicateOf_name (c : ContainerInsightsCommon) (originalMetricName : String)
    (metric : Metric) (duplicateType : String) :
    (duplicateOf c originalMetricName metric duplicateType).name =
      ToLower c duplicateType ++ "_" ++ metric.name := by
  obtain ⟨name, desc, unit, data⟩ := metric
  cases data <;> rfl

/-! ## C2: cores-per-device count missing or not a number -/

/-- C2: the claim fails on the code.  For a core-utilisation metric whose first datapoint
has no `neuroncore_per_device_count` attribute, and for one where the attribute is not a
number, `ModifyMetric` does not return: the ignored `Atoi` error leaves the divisor at zero
and `coreID / neuronCoresPerDeviceInt` panics with an integer division by zero. -/
theorem ModifyMetric_coreUtilization_divideByZero :
    ModifyMetric upstream RangeOrder.insertion Example.utilizationNoCount [] =
      .error Panic.divideByZero ∧
    ModifyMetric upstream RangeOrder.insertion Example.utilizationBadCount [] =
      .error Panic.divideByZero := by
  constructor <;> decide

/-! ## C3: no datapoint left when duplication is reached -/

/-- C3: the claim fails on the code.  With zero input datapoints (sum aggregator and peak
aggregator) and with a selective filter that removes every datapoint, `ModifyMetric` does
not return: `duplicateMetrics` reads `originalMetricDatapoints.At(0)` of an empty slice and
panics with an index out of range. -/
theorem ModifyMetric_noDatapoints_indexOutOfRange :
    ModifyMetric upstream RangeOrder.insertion
      ⟨"neuron_execution_errors", "", "", .gauge []⟩ [] = .error Panic.indexOutOfRange ∧
    ModifyMetric upstream RangeOrder.insertion Example.latencyNoP50 [] =
      .error Panic.indexOutOfRange ∧
    ModifyMetric upstream RangeOrder.insertion
      ⟨"neuroncore_utilization_ratio", "", "",
        .sum [] AggregationTemporality.unspecified false⟩ [] =
      .error Panic.indexOutOfRange := by
  refine ⟨?_, ?_, ?_⟩ <;> decide

/-! ## C4: discriminant value without entry in the rollup mapping -/

/-- C4: the claim fails on the code.  A datapoint of `neuron_execution_errors` whose
`error_type` (`oom`) has no entry in the rollup mapping yields its per-value metric and,
besides, an accumulator key with the empty rollup name: a rollup metric with the empty
name and the datapoint's value is emitted. -/
theorem extractDatapointsAsMetricsAndAggregate_unmapped :
    extractDatapointsAsMetricsAndAggregate upstream RangeOrder.insertion
        Example.unmappedError =
      .ok [⟨"neuron_execution_errors_oom", "", "Count",
            .sum [Example.dp [("error_type", .str "oom"), ("runtime_tag", .str "rt1")] 5]
              AggregationTemporality.cumulative false⟩,
           ⟨"", "", "Count",
            .sum [Example.dp [("error_type", .str "oom"), ("runtime_tag", .str "rt1")] 5]
              AggregationTemporality.cumulative false⟩] := by
  with_unfolding_all decide

/-! ## C5: rollup sums -/

theorem foldl_extractStep_some (m : Metric) (u : String) (mp : List (String × String))
    (dps : NumberDataPointSlice) (acc : List (MetricDatapointAggregationKey × Float64))
    (sl : MetricSlice) :
    dps.foldl (extractStep m u (some mp)) (acc, sl) =
      (dps.foldl (fun a dp => upsert a (sumKey u mp dp)
          ((fun (d : NumberDataPoint) (old : Float64) => old + d.DoubleValue) dp)) acc,
        sl ++ dps.map (perValueMetric m u)) := by
  induction dps generalizing acc sl with
  | nil => simp
  | cons d rest ih =>
    rw [List.foldl_cons, List.foldl_cons, List.map_cons]
    have h : extractStep m u (some mp) (acc, sl) d =
        (upsert acc (sumKey u mp d) (fun old => old + d.DoubleValue),
          sl ++ [perValueMetric m u d]) := rfl
    rw [h, ih, List.append_assoc, List.singleton_append]

theorem foldl_extractStep_none (m : Metric) (u : String)
    (dps : NumberDataPointSlice) (acc : List (MetricDatapointAggregationKey × Float64))
    (sl : MetricSlice) :
    dps.foldl (extractStep m u none) (acc, sl) = (acc, sl ++ dps.map (perValueMetric m u)) := by
  induction dps generalizing acc sl with
  | nil => simp
  | cons d rest ih =>
    rw [List.foldl_cons, List.map_cons]
    have h : extractStep m u none (acc, sl) d = (acc, sl ++ [perValueMetric m u d]) := rfl
    rw [h, ih, List.append_assoc, List.singleton_append]

/-- The rollup metric of one accumulator entry, given the first datapoint of the batch. -/
theorem rollupMetric_cons (m : Metric) (first : NumberDataPoint) (rest : NumberDataPointSlice)
    (entry : MetricDatapointAggregationKey × Float64) :
    ∃ dp : NumberDataPoint,
      rollupMetric m (first :: rest) entry =
        .ok ⟨entry.1.aggregatedMetricName, "", m.unit,
          .sum [dp] AggregationTemporality.cumulative false⟩ ∧
      dp.value = NumberValue.double entry.2 ∧
      Map.Get dp.attributes RuntimeTag = (Value.str entry.1.runtimeTag, true) := by
  by_cases hdev : entry.1.deviceId = ""
  · refine ⟨(first.SetDoubleValue entry.2).PutStr RuntimeTag entry.1.runtimeTag, ?_, rfl, ?_⟩
    · simp [rollupMetric, NumberDataPointSlice.At, bind, Except.bind, hdev, setMetricMetadata,
        Metric.new, Metric.SetEmptySum, Metric.withSumDataPoints,
        Metric.SetAggregationTemporality, pure, Except.pure]
    · exact Map.Get_PutStr_same _ _ _
  · refine ⟨((first.SetDoubleValue entry.2).PutStr RuntimeTag entry.1.runtimeTag).PutStr
      NeuronDeviceAttributeKey entry.1.deviceId, ?_, rfl, ?_⟩
    · simp [rollupMetric, NumberDataPointSlice.At, bind, Except.bind, hdev, setMetricMetadata,
        Metric.new, Metric.SetEmptySum, Metric.withSumDataPoints,
        Metric.SetAggregationTemporality, pure, Except.pure]
    · show Map.Get (Map.PutStr (Map.PutStr _ RuntimeTag _) NeuronDeviceAttributeKey _)
        RuntimeTag = _
      rw [Map.Get_PutStr_other _ _ _ _ (by decide)]
      exact Map.Get_PutStr_same _ _ _

theorem uniqueAttribute_of_rollup (c : ContainerInsightsCommon) (hd : c.Distinct)
    (name : String) (mp : List (String × String))
    (hmap : (uniquesDatapointsToAggregatedMetricMappings c).lookup name = some mp) :
    (metricModificationsAt c name).UniqueAttribute ≠ "" := by
  by_cases h1 : name = c.NeuronExecutionErrors
  · rw [h1, (metricModifications_of_mem c hd c.NeuronExecutionErrors
      ⟨[c.TypeNode], ErrorType, "", Count⟩ (by simp [metricModificationsMap])).2]
    simp [ErrorType]
  · by_cases h2 : name = c.NeuronDeviceHardwareEccEvents
    · rw [h2, (metricModifications_of_mem c hd c.NeuronDeviceHardwareEccEvents
        ⟨[c.TypeContainer, c.TypePod, c.TypeNode], EventType, Device, Count⟩
        (by simp [metricModificationsMap])).2]
      simp [EventType]
    · rw [uniquesDatapointsToAggregatedMetricMappings, lookup_cons_ne _ _ _ _ h1,
        lookup_cons_ne _ _ _ _ h2] at hmap
      simp at hmap

/-- C5, as amended: for a metric with a rollup mapping whose datapoints all carry a mapped
discriminant value, the sum aggregator returns the per-value metrics followed by exactly
one rollup metric per distinct key (runtime tag, rollup name, device id); the rollup metric
of a key is named after the key's rollup name and its single datapoint carries the key's
runtime tag and the `float64` sum of the values of all input datapoints with that key: the
values are added to zero one after the other, in the order of the input, each addition
rounded to the nearest `float64`. -/
theorem extractDatapointsAsMetricsAndAggregate_rollups (c : ContainerInsightsCommon)
    (ord : RangeOrder) (m : Metric) (dps : NumberDataPointSlice)
    (t : AggregationTemporality) (mono : Bool) (mp : List (String × String))
    (hd : c.Distinct)
    (hdata : m.data = .sum dps t mono)
    (hmap : (uniquesDatapointsToAggregatedMetricMappings c).lookup m.name = some mp)
    (hall : ∀ dp ∈ dps, (mp.lookup
      (Map.Get dp.attributes (metricModificationsAt c m.name).UniqueAttribute).1.Str).isSome) :
    ∃ (entries : List (MetricDatapointAggregationKey × Float64)) (rollups : MetricSlice),
      extractDatapointsAsMetricsAndAggregate c ord m =
        .ok (dps.map (perValueMetric m (metricModificationsAt c m.name).UniqueAttribute)
          ++ rollups) ∧
      (entries.map Prod.fst).Nodup ∧
      (∀ k, k ∈ entries.map Prod.fst ↔
        ∃ dp ∈ dps,
          (Map.Get dp.attributes RuntimeTag).1.Str = k.runtimeTag ∧
          mp.lookup (Map.Get dp.attributes
            (metricModificationsAt c m.name).UniqueAttribute).1.Str
              = some k.aggregatedMetricName ∧
          (Map.Get dp.attributes NeuronDeviceAttributeKey).1.Str = k.deviceId) ∧
      (∀ e ∈ entries, e.2 =
        (dps.filter (fun dp => decide
          (sumKey (metricModificationsAt c m.name).UniqueAttribute mp dp = e.1))).foldl
            (fun sum dp => sum + dp.DoubleValue) 0) ∧
      List.Forall₂ (fun e r =>
        ∃ dp : NumberDataPoint,
          r = ⟨e.1.aggregatedMetricName, "", m.unit,
            .sum [dp] AggregationTemporality.cumulative false⟩ ∧
          dp.value = NumberValue.double e.2 ∧
          Map.Get dp.attributes RuntimeTag = (Value.str e.1.runtimeTag, true)) entries rollups := by
  have hu := uniqueAttribute_of_rollup c hd m.name mp hmap
  have hext : extractDatapointsAsMetricsAndAggregate c ord m =
      match mapRange (rollupMetric m dps) (ord.order (dps.foldl (fun a dp =>
        upsert a (sumKey (metricModificationsAt c m.name).UniqueAttribute mp dp)
          ((fun (d : NumberDataPoint) (old : Float64) => old + d.DoubleValue) dp)) [])) with
      | .error e => .error e
      | .ok v => .ok (dps.map (perValueMetric m
          (metricModificationsAt c m.name).UniqueAttribute) ++ v) := by
    simp only [extractDatapointsAsMetricsAndAggregate]
    rw [if_neg (by simpa using hu)]
    simp only [Metric.SumDataPoints, hdata, hmap, bind, Except.bind, foldl_extractStep_some,
      List.nil_append]
    generalize mapRange _ _ = r
    cases r <;> rfl
  rw [hext]
  clear hext
  generalize (metricModificationsAt c m.name).UniqueAttribute = u at hu hall ⊢
  let acc := dps.foldl (fun a dp => upsert a (sumKey u mp dp)
    ((fun (d : NumberDataPoint) (old : Float64) => old + d.DoubleValue) dp)) []
  have hnodup : (acc.map Prod.fst).Nodup :=
    nodup_keys_foldl_upsert (sumKey u mp) _ dps [] (by simp)
  have hmem : ∀ k, k ∈ acc.map Prod.fst ↔ ∃ dp ∈ dps, sumKey u mp dp = k := by
    intro k
    have h := mem_keys_foldl_upsert (sumKey u mp)
      (fun (d : NumberDataPoint) (old : Float64) => old + d.DoubleValue) dps [] k
    simpa using h
  have hroll : ∀ e ∈ ord.order acc, ∃ r, rollupMetric m dps e = .ok r ∧
      ∃ dp : NumberDataPoint,
        r = ⟨e.1.aggregatedMetricName, "", m.unit,
          .sum [dp] AggregationTemporality.cumulative false⟩ ∧
        dp.value = NumberValue.double e.2 ∧
        Map.Get dp.attributes RuntimeTag = (Value.str e.1.runtimeTag, true) := by
    intro e he
    have he2 : e ∈ acc := (ord.perm acc).mem_iff.mp he
    cases dps with
    | nil => simp [acc] at he2
    | cons first rest =>
      obtain ⟨dp, h1, h2, h3⟩ := rollupMetric_cons m first rest e
      exact ⟨_, h1, dp, rfl, h2, h3⟩
  obtain ⟨rollups, hr1, hr2⟩ := mapRange_forall₂ _ _ _ hroll
  refine ⟨ord.order acc, rollups, ?_, ?_, ?_, ?_, hr2⟩
  · rw [hr1]
  · exact ((ord.perm acc).map Prod.fst).nodup_iff.mpr hnodup
  · intro k
    rw [((ord.perm acc).map Prod.fst).mem_iff, hmem]
    constructor
    · rintro ⟨dp, hdp, hk⟩
      refine ⟨dp, hdp, ?_, ?_, ?_⟩
      · rw [← hk]
        rfl
      · have h := hall dp hdp
        rw [← hk]
        obtain ⟨nm, hnm⟩ := Option.isSome_iff_exists.mp h
        simp [sumKey, hnm]
      · rw [← hk]
        rfl
    · rintro ⟨dp, hdp, h1, h2, h3⟩
      refine ⟨dp, hdp, ?_⟩
      obtain ⟨rt, nm, dev⟩ := k
      simp only [sumKey, h2, Option.getD_some] at h1 h2 h3 ⊢
      rw [h1, h3]
  · intro e he
    have he2 : e ∈ acc := (ord.perm acc).mem_iff.mp he
    have h1 : readKey acc e.1 = e.2 := readKey_of_mem acc e.1 e.2 hnodup he2
    rw [← h1, readKey_foldl_upsert]
    rfl


/-- The fan-out example: values 1, 2 and 3 under runtime tag `rt1` give the three
per-value metrics and one rollup metric with value 6 and runtime tag `rt1`. -/
theorem extractDatapointsAsMetricsAndAggregate_rollups_witness :
    upstream.Distinct ∧
    (uniquesDatapointsToAggregatedMetricMappings upstream).lookup Example.errors.name =
      some Example.errorsMapping ∧
    extractDatapointsAsMetricsAndAggregate upstream RangeOrder.insertion Example.errors =
      .ok [⟨"neuron_execution_errors_generic", "", "Count",
            .sum [Example.dp [("error_type", .str "generic"), ("runtime_tag", .str "rt1")] 1]
              AggregationTemporality.cumulative false⟩,
           ⟨"neuron_execution_errors_numerical", "", "Count",
            .sum [Example.dp [("error_type", .str "numerical"), ("runtime_tag", .str "rt1")] 2]
              AggregationTemporality.cumulative false⟩,
           ⟨"neuron_execution_errors_transient", "", "Count",
            .sum [Example.dp [("error_type", .str "transient"), ("runtime_tag", .str "rt1")] 3]
              AggregationTemporality.cumulative false⟩,
           ⟨"neuron_execution_errors_total", "", "Count",
            .sum [Example.dp [("error_type", .str "generic"), ("runtime_tag", .str "rt1")] 6]
              AggregationTemporality.cumulative false⟩] ∧
    ∃ (entries : List (MetricDatapointAggregationKey × Float64)) (rollups : MetricSlice),
      extractDatapointsAsMetricsAndAggregate upstream RangeOrder.reversed Example.errors =
        .ok (Example.errorDatapoints.map (perValueMetric Example.errors
          (metricModificationsAt upstream Example.errors.name).UniqueAttribute) ++ rollups) ∧
      (entries.map Prod.fst).Nodup ∧
      (∀ k, k ∈ entries.map Prod.fst ↔
        ∃ dp ∈ Example.errorDatapoints,
          (Map.Get dp.attributes RuntimeTag).1.Str = k.runtimeTag ∧
          Example.errorsMapping.lookup (Map.Get dp.attributes
            (metricModificationsAt upstream Example.errors.name).UniqueAttribute).1.Str
              = some k.aggregatedMetricName ∧
          (Map.Get dp.attributes NeuronDeviceAttributeKey).1.Str = k.deviceId) ∧
      (∀ e ∈ entries, e.2 =
        (Example.errorDatapoints.filter (fun dp => decide
          (sumKey (metricModificationsAt upstream Example.errors.name).UniqueAttribute
            Example.errorsMapping dp = e.1))).foldl (fun sum dp => sum + dp.DoubleValue) 0) ∧
      List.Forall₂ (fun e r =>
        ∃ dp : NumberDataPoint,
          r = ⟨e.1.aggregatedMetricName, "", Example.errors.unit,
            .sum [dp] AggregationTemporality.cumulative false⟩ ∧
          dp.value = NumberValue.double e.2 ∧
          Map.Get dp.attributes RuntimeTag = (Value.str e.1.runtimeTag, true)) entries rollups :=
  ⟨by decide, by decide, by with_unfolding_all decide,
    extractDatapointsAsMetricsAndAggregate_rollups upstream RangeOrder.reversed Example.errors
      Example.errorDatapoints AggregationTemporality.unspecified false Example.errorsMapping
      (by decide) rfl (by decide) (by decide)⟩

/-- C5, counterexample: two error counters under one key with the values 2^53 and 1, both
mapped.  The datapoint of the rollup metric carries 2^53, which is not the sum 2^53 + 1 of
the values of the two input datapoints. -/
theorem extractDatapointsAsMetricsAndAggregate_rollups_counterexample :
    (∀ dp ∈ [Example.dp [("error_type", .str "generic"), ("runtime_tag", .str "rt1")]
          9007199254740992,
        Example.dp [("error_type", .str "numerical"), ("runtime_tag", .str "rt1")] 1],
      (Example.errorsMapping.lookup (Map.Get dp.attributes ErrorType).1.Str).isSome = true) ∧
    extractDatapointsAsMetricsAndAggregate upstream RangeOrder.insertion
        Example.errorsRounding =
      .ok [⟨"neuron_execution_errors_generic", "", "Count",
            .sum [Example.dp [("error_type", .str "generic"), ("runtime_tag", .str "rt1")]
              9007199254740992] AggregationTemporality.cumulative false⟩,
           ⟨"neuron_execution_errors_numerical", "", "Count",
            .sum [Example.dp [("error_type", .str "numerical"), ("runtime_tag", .str "rt1")] 1]
              AggregationTemporality.cumulative false⟩,
           ⟨"neuron_execution_errors_total", "", "Count",
            .sum [⟨[("error_type", .str "generic"), ("runtime_tag", .str "rt1")], 0, 0,
              NumberValue.double (Float64.fin 9007199254740992), ⟨false, 0⟩⟩]
              AggregationTemporality.cumulative false⟩] ∧
    (Float64.fin 9007199254740992).toRat ≠
      (Float64.fin 9007199254740992).toRat + (Float64.fin 1).toRat := by
  refine ⟨by decide!, by decide!, by decide!⟩

/-! ## C6: peak values -/

theorem peakDatapoint_ok (first : NumberDataPoint) (n : Int) (hn : n ≠ 0)
    (entry : NeuronCoreUtilizationDatapointAggregationKey × Float64) :
    ∃ dp : NumberDataPoint,
      peakDatapoint first n entry = .ok dp ∧
      dp.value = NumberValue.double entry.2 ∧
      Map.Get dp.attributes RuntimeTag = (Value.str entry.1.runtimeTag, true) ∧
      Map.Get dp.attributes NeuronCoreLabel = (Value.str entry.1.coreID, true) := by
  obtain ⟨q, hq⟩ : ∃ q, intDiv (Atoi entry.1.coreID).1 n = .ok q := by
    simp [intDiv, hn]
  refine ⟨((((first.SetDoubleValue entry.2).PutStr RuntimeTag entry.1.runtimeTag).PutStr
    NeuronCoreLabel entry.1.coreID).PutStr NeuronCoreAttributeKey
      ("core" ++ entry.1.coreID)).PutStr NeuronDeviceAttributeKey ("device" ++ Itoa q),
    ?_, rfl, ?_, ?_⟩
  · simp [peakDatapoint, hq, bind, Except.bind, pure, Except.pure]
  · show Map.Get (Map.PutStr (Map.PutStr (Map.PutStr (Map.PutStr _ RuntimeTag _)
      NeuronCoreLabel _) NeuronCoreAttributeKey _) NeuronDeviceAttributeKey _) RuntimeTag = _
    rw [Map.Get_PutStr_other _ _ _ _ (by decide), Map.Get_PutStr_other _ _ _ _ (by decide),
      Map.Get_PutStr_other _ _ _ _ (by decide)]
    exact Map.Get_PutStr_same _ _ _
  · show Map.Get (Map.PutStr (Map.PutStr (Map.PutStr (Map.PutStr _ RuntimeTag _)
      NeuronCoreLabel _) NeuronCoreAttributeKey _) NeuronDeviceAttributeKey _)
        NeuronCoreLabel = _
    rw [Map.Get_PutStr_other _ _ _ _ (by decide), Map.Get_PutStr_other _ _ _ _ (by decide)]
    exact Map.Get_PutStr_same _ _ _

/-- When the cores-per-device count of the first datapoint parses to a non-zero integer,
the peak aggregator returns one metric with one datapoint per group, whose value is NaN if
a sample of the group is NaN, and else the maximum of zero and the group's samples. -/
theorem aggregateCoreUtilizationMetrics_ok (ord : RangeOrder) (m : Metric)
    (first : NumberDataPoint) (rest : NumberDataPointSlice) (t : AggregationTemporality)
    (mono : Bool) (hdata : m.data = .sum (first :: rest) t mono)
    (hn : (Atoi (Map.Get first.attributes NeuronCoresPerDeviceAttributeKey).1.Str).1 ≠ 0) :
    ∃ (entries : List (NeuronCoreUtilizationDatapointAggregationKey × Float64))
      (outDps : NumberDataPointSlice),
      aggregateCoreUtilizationMetrics ord m =
        .ok [⟨m.name, "", m.unit, .sum outDps AggregationTemporality.unspecified false⟩] ∧
      (entries.map Prod.fst).Nodup ∧
      (∀ k, k ∈ entries.map Prod.fst ↔ ∃ dp ∈ first :: rest, peakKey dp = k) ∧
      (∀ e ∈ entries,
        ((∃ dp ∈ first :: rest, peakKey dp = e.1 ∧ dp.DoubleValue = Float64.nan) →
          e.2 = Float64.nan) ∧
        ((∀ dp ∈ first :: rest, peakKey dp = e.1 → dp.DoubleValue ≠ Float64.nan) →
          0 ≤ e.2 ∧
          (∀ dp ∈ first :: rest, peakKey dp = e.1 → dp.DoubleValue ≤ e.2) ∧
          (e.2 = 0 ∨ ∃ dp ∈ first :: rest, peakKey dp = e.1 ∧ dp.DoubleValue = e.2))) ∧
      List.Forall₂ (fun e dp =>
        dp.value = NumberValue.double e.2 ∧
        Map.Get dp.attributes RuntimeTag = (Value.str e.1.runtimeTag, true) ∧
        Map.Get dp.attributes NeuronCoreLabel = (Value.str e.1.coreID, true)) entries outDps := by
  let acc := (first :: rest).foldl peakStep []
  have hnodup : (acc.map Prod.fst).Nodup := by
    show (((first :: rest).foldl peakStep []).map Prod.fst).Nodup
    rw [peakStep_eq]
    exact nodup_keys_foldl_upsert peakKey _ (first :: rest) [] (by simp)
  have hmem : ∀ k, k ∈ acc.map Prod.fst ↔ ∃ dp ∈ first :: rest, peakKey dp = k := by
    intro k
    show k ∈ ((first :: rest).foldl peakStep []).map Prod.fst ↔ _
    rw [peakStep_eq]
    have h := mem_keys_foldl_upsert peakKey
      (fun (d : NumberDataPoint) (old : Float64) => max (max old d.DoubleValue) 0) (first :: rest) [] k
    simpa using h
  have hval : ∀ k, readKey acc k =
      ((first :: rest).filter (fun dp => decide (peakKey dp = k))).foldl
        (fun a dp => max (max a dp.DoubleValue) 0) 0 := by
    intro k
    show readKey ((first :: rest).foldl peakStep []) k = _
    rw [peakStep_eq, readKey_foldl_upsert]
    rfl
  have hlen : ¬ acc.length = 0 := by
    intro h
    exact foldl_peakStep_ne_nil first rest (List.length_eq_zero.mp h)
  obtain ⟨outDps, ho1, ho2⟩ := mapRange_forall₂
    (peakDatapoint first (Atoi (Map.Get first.attributes NeuronCoresPerDeviceAttributeKey).1.Str).1)
    (fun e dp =>
        dp.value = NumberValue.double e.2 ∧
        Map.Get dp.attributes RuntimeTag = (Value.str e.1.runtimeTag, true) ∧
        Map.Get dp.attributes NeuronCoreLabel = (Value.str e.1.coreID, true))
    (ord.order acc) (fun e _ => peakDatapoint_ok first _ hn e)
  refine ⟨ord.order acc, outDps, ?_, ?_, ?_, ?_, ho2⟩
  · simp only [aggregateCoreUtilizationMetrics, Metric.SumDataPoints, hdata, bind, Except.bind,
      NumberDataPointSlice.At]
    rw [if_neg hlen]
    simp only [List.getElem?_cons_zero]
    rw [ho1]
    rfl
  · exact ((ord.perm acc).map Prod.fst).nodup_iff.mpr hnodup
  · intro k
    rw [((ord.perm acc).map Prod.fst).mem_iff, hmem]
  · intro e he
    have he2 : e ∈ acc := (ord.perm acc).mem_iff.mp he
    have h1 : readKey acc e.1 = e.2 := readKey_of_mem acc e.1 e.2 hnodup he2
    rw [hval] at h1
    constructor
    · rintro ⟨dp, hdp, hk, hnan⟩
      rw [← h1]
      exact foldl_peak_nan NumberDataPoint.DoubleValue _ 0
        (Or.inr ⟨dp, List.mem_filter.mpr ⟨hdp, by simpa using hk⟩, hnan⟩)
    · intro hno
      obtain ⟨p1, _, p3, p4⟩ := foldl_peak_spec NumberDataPoint.DoubleValue
        ((first :: rest).filter (fun dp => decide (peakKey dp = e.1))) 0
        (float64_le_of_ne_nan 0 float64_zero_ne_nan)
        (fun dp hdp => hno dp (List.mem_filter.mp hdp).1
          (by simpa using (List.mem_filter.mp hdp).2))
      rw [h1] at p1 p3 p4
      refine ⟨p1, ?_, ?_⟩
      · intro dp hdp hk
        exact p3 dp (List.mem_filter.mpr ⟨hdp, by simpa using hk⟩)
      · rcases p4 with h | ⟨dp, hdp, h⟩
        · exact Or.inl h
        · have h5 := List.mem_filter.mp hdp
          exact Or.inr ⟨dp, h5.1, by simpa using h5.2, h⟩


/-- C6, as amended: for every non-empty list of datapoints the peak aggregator either
panics on a zero cores-per-device count, or returns one metric whose datapoints correspond
one to one to the distinct groups (runtime tag, core id).  The value of the datapoint of a
group none of whose samples is NaN is the maximum of zero and the group's samples: it is
non-negative, at least every sample of the group, and is zero or one of the samples.  The
value of the datapoint of a group with a NaN sample is NaN, as Go's `max` returns it.  The
order is that of `max`, in which negative zero is below positive zero. -/
theorem aggregateCoreUtilizationMetrics_peak (ord : RangeOrder) (m : Metric)
    (first : NumberDataPoint) (rest : NumberDataPointSlice) (t : AggregationTemporality)
    (mono : Bool) (hdata : m.data = .sum (first :: rest) t mono) :
    ((Atoi (Map.Get first.attributes NeuronCoresPerDeviceAttributeKey).1.Str).1 = 0 ∧
      aggregateCoreUtilizationMetrics ord m = .error Panic.divideByZero) ∨
    ((Atoi (Map.Get first.attributes NeuronCoresPerDeviceAttributeKey).1.Str).1 ≠ 0 ∧
      ∃ (entries : List (NeuronCoreUtilizationDatapointAggregationKey × Float64))
        (outDps : NumberDataPointSlice),
        aggregateCoreUtilizationMetrics ord m =
          .ok [⟨m.name, "", m.unit, .sum outDps AggregationTemporality.unspecified false⟩] ∧
        (entries.map Prod.fst).Nodup ∧
        (∀ k, k ∈ entries.map Prod.fst ↔ ∃ dp ∈ first :: rest, peakKey dp = k) ∧
        (∀ e ∈ entries,
          ((∃ dp ∈ first :: rest, peakKey dp = e.1 ∧ dp.DoubleValue = Float64.nan) →
            e.2 = Float64.nan) ∧
          ((∀ dp ∈ first :: rest, peakKey dp = e.1 → dp.DoubleValue ≠ Float64.nan) →
            0 ≤ e.2 ∧
            (∀ dp ∈ first :: rest, peakKey dp = e.1 → dp.DoubleValue ≤ e.2) ∧
            (e.2 = 0 ∨ ∃ dp ∈ first :: rest, peakKey dp = e.1 ∧ dp.DoubleValue = e.2))) ∧
        List.Forall₂ (fun e dp =>
          dp.value = NumberValue.double e.2 ∧
          Map.Get dp.attributes RuntimeTag = (Value.str e.1.runtimeTag, true) ∧
          Map.Get dp.attributes NeuronCoreLabel = (Value.str e.1.coreID, true))
          entries outDps) := by
  by_cases hn : (Atoi (Map.Get first.attributes NeuronCoresPerDeviceAttributeKey).1.Str).1 = 0
  · exact Or.inl ⟨hn,
      aggregateCoreUtilizationMetrics_divideByZero ord m first rest t mono hdata hn⟩
  · exact Or.inr ⟨hn, aggregateCoreUtilizationMetrics_ok ord m first rest t mono hdata hn⟩

/-- The peak example: core 1 with samples 10 and 20, core 2 with 5 and core 3 with -5, two
cores per device, give one metric with the three datapoints 20, 5 and 0. -/
theorem aggregateCoreUtilizationMetrics_peak_witness :
    Example.utilization.data = .sum (Example.utilizationFirst :: Example.utilizationRest)
      AggregationTemporality.unspecified false ∧
    aggregateCoreUtilizationMetrics RangeOrder.insertion Example.utilization =
      .ok [⟨"neuroncore_utilization_ratio", "", "Percent",
        .sum [Example.dp [("neuroncore", .str "1"), ("runtime_tag", .str "rt1"),
                ("neuroncore_per_device_count", .str "2"), ("NeuronCore", .str "core1"),
                ("NeuronDevice", .str "device0")] 20,
              Example.dp [("neuroncore", .str "2"), ("runtime_tag", .str "rt1"),
                ("neuroncore_per_device_count", .str "2"), ("NeuronCore", .str "core2"),
                ("NeuronDevice", .str "device1")] 5,
              Example.dp [("neuroncore", .str "3"), ("runtime_tag", .str "rt1"),
                ("neuroncore_per_device_count", .str "2"), ("NeuronCore", .str "core3"),
                ("NeuronDevice", .str "device1")] 0]
          AggregationTemporality.unspecified false⟩] ∧
    ∃ (entries : List (NeuronCoreUtilizationDatapointAggregationKey × Float64))
      (outDps : NumberDataPointSlice),
      aggregateCoreUtilizationMetrics RangeOrder.reversed Example.utilization =
        .ok [⟨Example.utilization.name, "", Example.utilization.unit,
          .sum outDps AggregationTemporality.unspecified false⟩] ∧
      (entries.map Prod.fst).Nodup ∧
      (∀ k, k ∈ entries.map Prod.fst ↔
        ∃ dp ∈ Example.utilizationFirst :: Example.utilizationRest, peakKey dp = k) ∧
      (∀ e ∈ entries,
        ((∃ dp ∈ Example.utilizationFirst :: Example.utilizationRest,
            peakKey dp = e.1 ∧ dp.DoubleValue = Float64.nan) → e.2 = Float64.nan) ∧
        ((∀ dp ∈ Example.utilizationFirst :: Example.utilizationRest,
            peakKey dp = e.1 → dp.DoubleValue ≠ Float64.nan) →
          0 ≤ e.2 ∧
          (∀ dp ∈ Example.utilizationFirst :: Example.utilizationRest,
            peakKey dp = e.1 → dp.DoubleValue ≤ e.2) ∧
          (e.2 = 0 ∨ ∃ dp ∈ Example.utilizationFirst :: Example.utilizationRest,
            peakKey dp = e.1 ∧ dp.DoubleValue = e.2))) ∧
      List.Forall₂ (fun e dp =>
        dp.value = NumberValue.double e.2 ∧
        Map.Get dp.attributes RuntimeTag = (Value.str e.1.runtimeTag, true) ∧
        Map.Get dp.attributes NeuronCoreLabel = (Value.str e.1.coreID, true)) entries outDps :=
  ⟨rfl, by with_unfolding_all decide,
    (aggregateCoreUtilizationMetrics_peak RangeOrder.reversed Example.utilization
      Example.utilizationFirst Example.utilizationRest AggregationTemporality.unspecified false
      rfl).resolve_left (fun h => absurd h.1 (by decide)) |>.2⟩

/-- C6, counterexample: one utilisation sample whose value is NaN, two cores per device.
The peak aggregator returns, and the value of the group's datapoint is NaN, which is not
non-negative. -/
theorem aggregateCoreUtilizationMetrics_peak_counterexample :
    aggregateCoreUtilizationMetrics RangeOrder.insertion Example.utilizationNaN =
      .ok [⟨"neuroncore_utilization_ratio", "", "Percent",
        .sum [⟨[("neuroncore", .str "1"), ("runtime_tag", .str "rt1"),
          ("neuroncore_per_device_count", .str "2"), ("NeuronCore", .str "core1"),
          ("NeuronDevice", .str "device0")], 0, 0, NumberValue.double Float64.nan,
          ⟨false, 0⟩⟩] AggregationTemporality.unspecified false⟩] ∧
    ¬ ((0 : Float64) ≤ Float64.nan) := by
  refine ⟨by decide!, by decide⟩

/-! ## The hierarchy duplicator: both modes -/

theorem nodeOnly_duplicates (c : ContainerInsightsCommon) (metricsSlice : MetricSlice)
    (originalMetricName : String) (first : NumberDataPoint) (rest : NumberDataPointSlice)
    (metrics : MetricSlice)
    (hpod : (Map.Get first.attributes PodName).2 = false ∨
      (Map.Get first.attributes PodName).1.Str = "")
    (hsum : ∀ m ∈ metricsSlice, m.isSum = true) :
    duplicateMetrics c metricsSlice originalMetricName (first :: rest) metrics =
      .ok (metrics ++
        metricsSlice.map (fun m => duplicateOf c originalMetricName m c.TypeNode)) := by
  rw [nodeOnly_loop c metricsSlice originalMetricName first rest metrics
    (nodeOnly_flag _ hpod), foldlM_duplicate_scopes c metricsSlice originalMetricName
    [c.TypeNode] metrics hsum]
  congr 2
  induction metricsSlice with
  | nil => rfl
  | cons m tl ih =>
    rw [List.flatMap_cons, List.map_cons, ih (fun x hx => hsum x (List.mem_cons_of_mem m hx))]
    rfl

theorem scoped_duplicates (c : ContainerInsightsCommon) (metricsSlice : MetricSlice)
    (originalMetricName : String) (first : NumberDataPoint) (rest : NumberDataPointSlice)
    (metrics : MetricSlice)
    (hpod : (Map.Get first.attributes PodName).2 = true ∧
      (Map.Get first.attributes PodName).1.Str ≠ "")
    (hsum : ∀ m ∈ metricsSlice, m.isSum = true) :
    duplicateMetrics c metricsSlice originalMetricName (first :: rest) metrics =
      .ok (metrics ++ metricsSlice.flatMap (fun m =>
        (metricModificationsAt c originalMetricName).DuplicationTypes.map
          (duplicateOf c originalMetricName m))) := by
  rw [scoped_loop c metricsSlice originalMetricName first rest metrics
    (scoped_flag _ hpod), foldlM_duplicate_scopes c metricsSlice originalMetricName _
    metrics hsum]

theorem ToLower_ascii (c : ContainerInsightsCommon) (s : String)
    (h : s.toList.all (fun ch => decide (ch.val < 128)) = true) :
    ToLower c s = String.mk (s.toList.map Char.toLower) := by
  unfold ToLower
  rw [if_pos h]

theorem ToLower_unicode (c : ContainerInsightsCommon) (s : String)
    (h : s.toList.all (fun ch => decide (ch.val < 128)) = false) :
    ToLower c s = String.mk (s.toList.map c.UnicodeToLower) := by
  unfold ToLower
  rw [if_neg (by rw [h]; decide)]

theorem Atoi_overflow_then_letter :
    Atoi "99999999999999999999x" = (9223372036854775807, false) := by decide

theorem ToLower_Node (c : ContainerInsightsCommon) : ToLower c "Node" = "node" := by
  rw [ToLower_ascii c "Node" (by decide)]
  decide

/-! ## C7: NODE_ONLY mode -/

/-- C7 (NODE_ONLY mode): when the first datapoint handed to `duplicateMetrics` has no
`PodName` attribute or an empty one, every transformed metric is duplicated exactly once,
for the Node scope, whatever scopes the rule declares: the appended metrics correspond to
the transformed metrics one to one, in the same order, each renamed to the lower-cased
Node scope, an underscore and its name (`node_<name>`), each of its datapoints stamped
with the Node classification. -/
theorem duplicateMetrics_nodeOnly (c : ContainerInsightsCommon) (metricsSlice : MetricSlice)
    (originalMetricName : String) (first : NumberDataPoint) (rest : NumberDataPointSlice)
    (metrics : MetricSlice)
    (hpod : (Map.Get first.attributes PodName).2 = false ∨
      (Map.Get first.attributes PodName).1.Str = "")
    (hsum : ∀ m ∈ metricsSlice, m.isSum = true) :
    ∃ appended : MetricSlice,
      duplicateMetrics c metricsSlice originalMetricName (first :: rest) metrics =
        .ok (metrics ++ appended) ∧
      appended.length = metricsSlice.length ∧
      List.Forall₂ (fun m d =>
        d.name = ToLower c c.TypeNode ++ "_" ++ m.name ∧
        (c.TypeNode = "Node" → d.name = "node_" ++ m.name) ∧
        d.unit = m.unit ∧ d.description = m.description ∧
        ∃ dps t mono, m.data = .sum dps t mono ∧
          d.data = .sum (dps.map (fun dp => dp.PutStr c.MetricType
            (c.TypeNode ++ logTypeSuffix ++
              (metricModificationsAt c originalMetricName).LogTypeSuffix))) t mono)
        metricsSlice appended := by
  refine ⟨metricsSlice.map (fun m => duplicateOf c originalMetricName m c.TypeNode),
    nodeOnly_duplicates c metricsSlice originalMetricName first rest metrics hpod hsum,
    List.length_map _ _, ?_⟩
  rw [List.forall₂_map_right_iff, List.forall₂_same]
  intro m hm
  obtain ⟨name, desc, unit, data⟩ := m
  have h := hsum _ hm
  cases data with
  | sum dps t mono =>
    refine ⟨rfl, ?_, rfl, rfl, dps, t, mono, rfl, rfl⟩
    intro hnode
    show ToLower c c.TypeNode ++ "_" ++ name = "node_" ++ name
    rw [hnode, ToLower_Node c]
    rfl
  | empty => simp [Metric.isSum] at h
  | gauge dps => simp [Metric.isSum] at h
  | other => simp [Metric.isSum] at h

/-- Two transformed metrics, a first datapoint without `PodName` and a rule with three
declared scopes: two metrics are appended, `node_a` and `node_b`. -/
theorem duplicateMetrics_nodeOnly_witness :
    ((Map.Get (Example.dp [] 0).attributes PodName).2 = false ∨
      (Map.Get (Example.dp [] 0).attributes PodName).1.Str = "") ∧
    (∀ m ∈ Example.transformed, m.isSum = true) ∧
    (metricModificationsAt upstream "neuroncore_utilization_ratio").DuplicationTypes =
      ["Container", "Pod", "Node"] ∧
    duplicateMetrics upstream Example.transformed "neuroncore_utilization_ratio"
        [Example.dp [] 0] [] =
      .ok [⟨"node_a", "", "Count",
            .sum [Example.dp [("Type", .str "NodeAWSNeuronCore")] 1]
              AggregationTemporality.cumulative false⟩,
           ⟨"node_b", "", "Count",
            .sum [Example.dp [("Type", .str "NodeAWSNeuronCore")] 2,
                  Example.dp [("Type", .str "NodeAWSNeuronCore")] 3]
              AggregationTemporality.cumulative false⟩] ∧
    ∃ appended : MetricSlice,
      duplicateMetrics upstream Example.transformed "neuroncore_utilization_ratio"
          (Example.dp [] 0 :: []) [] = .ok ([] ++ appended) ∧
      appended.length = Example.transformed.length ∧
      List.Forall₂ (fun m d =>
        d.name = ToLower upstream upstream.TypeNode ++ "_" ++ m.name ∧
        (upstream.TypeNode = "Node" → d.name = "node_" ++ m.name) ∧
        d.unit = m.unit ∧ d.description = m.description ∧
        ∃ dps t mono, m.data = .sum dps t mono ∧
          d.data = .sum (dps.map (fun dp => dp.PutStr upstream.MetricType
            (upstream.TypeNode ++ logTypeSuffix ++
              (metricModificationsAt upstream
                "neuroncore_utilization_ratio").LogTypeSuffix))) t mono)
        Example.transformed appended :=
  ⟨by decide, by decide, by decide, by with_unfolding_all decide,
    duplicateMetrics_nodeOnly upstream Example.transformed "neuroncore_utilization_ratio"
      (Example.dp [] 0) [] [] (by decide) (by decide)⟩

/-! ## C8: SCOPED mode -/

/-- C8 (SCOPED mode): when the first datapoint handed to `duplicateMetrics` has a non-empty
`PodName` attribute, every transformed metric is duplicated once per scope of the rule's
`DuplicationTypes`, metric by metric and, within one metric, in the listed order of the
scopes; the number of appended metrics is the number of transformed metrics times the
number of declared scopes, and with no declared scope nothing is appended. -/
theorem duplicateMetrics_scoped (c : ContainerInsightsCommon) (metricsSlice : MetricSlice)
    (originalMetricName : String) (first : NumberDataPoint) (rest : NumberDataPointSlice)
    (metrics : MetricSlice)
    (hpod : (Map.Get first.attributes PodName).2 = true ∧
      (Map.Get first.attributes PodName).1.Str ≠ "")
    (hsum : ∀ m ∈ metricsSlice, m.isSum = true) :
    duplicateMetrics c metricsSlice originalMetricName (first :: rest) metrics =
      .ok (metrics ++ metricsSlice.flatMap (fun m =>
        (metricModificationsAt c originalMetricName).DuplicationTypes.map
          (duplicateOf c originalMetricName m))) ∧
    (metricsSlice.flatMap (fun m =>
        (metricModificationsAt c originalMetricName).DuplicationTypes.map
          (duplicateOf c originalMetricName m))).length =
      metricsSlice.length * (metricModificationsAt c originalMetricName).DuplicationTypes.length ∧
    (∀ m ∈ metricsSlice, ∀ s ∈ (metricModificationsAt c originalMetricName).DuplicationTypes,
      (duplicateOf c originalMetricName m s).name = ToLower c s ++ "_" ++ m.name) ∧
    ((metricModificationsAt c originalMetricName).DuplicationTypes = [] →
      duplicateMetrics c metricsSlice originalMetricName (first :: rest) metrics =
        .ok metrics) := by
  have heq := scoped_duplicates c metricsSlice originalMetricName first rest metrics
    hpod hsum
  refine ⟨heq, length_flatMap_map _ _ _, ?_, ?_⟩
  · intro m _ s _
    exact duplicateOf_name c originalMetricName m s
  · intro hnil
    rw [heq, hnil]
    simp

/-- Two transformed metrics, a first datapoint with `PodName`, and the three declared scopes
of the core-utilisation rule: six metrics are appended, metric by metric in scope order;
with the empty scope list of the instance-info rule nothing is appended. -/
theorem duplicateMetrics_scoped_witness :
    ((Map.Get (Example.dp [("PodName", .str "pod-1")] 0).attributes PodName).2 = true ∧
      (Map.Get (Example.dp [("PodName", .str "pod-1")] 0).attributes PodName).1.Str ≠ "") ∧
    (∀ m ∈ Example.transformed, m.isSum = true) ∧
    (metricModificationsAt upstream "instance_info").DuplicationTypes = [] ∧
    (duplicateMetrics upstream Example.transformed "neuroncore_utilization_ratio"
        (Example.dp [("PodName", .str "pod-1")] 0 :: []) []).map (List.map Metric.name) =
      .ok ["container_a", "pod_a", "node_a", "container_b", "pod_b", "node_b"] ∧
    duplicateMetrics upstream Example.transformed "instance_info"
        (Example.dp [("PodName", .str "pod-1")] 0 :: []) [] = .ok [] ∧
    (Example.transformed.flatMap (fun m =>
        (metricModificationsAt upstream "neuroncore_utilization_ratio").DuplicationTypes.map
          (duplicateOf upstream "neuroncore_utilization_ratio" m))).length =
      Example.transformed.length *
        (metricModificationsAt upstream "neuroncore_utilization_ratio").DuplicationTypes.length :=
  ⟨by decide, by decide, by decide, by with_unfolding_all decide,
    (duplicateMetrics_scoped upstream Example.transformed "instance_info"
      (Example.dp [("PodName", .str "pod-1")] 0) [] [] (by decide) (by decide)).2.2.2
        (by decide),
    (duplicateMetrics_scoped upstream Example.transformed "neuroncore_utilization_ratio"
      (Example.dp [("PodName", .str "pod-1")] 0) [] [] (by decide) (by decide)).2.1⟩

/-! ## The normalisation stage of `ModifyMetric` -/

theorem Get_prefixAttribute_other (attrs : Map) (entry : String × String) (key : String)
    (hne : entry.1 ≠ key) : Map.Get (prefixAttribute attrs entry) key = Map.Get attrs key := by
  unfold prefixAttribute
  by_cases h : (Map.Get attrs entry.1).2 = true
  · simp only [h, if_true]
    exact Map.Get_PutStr_other _ _ _ _ hne
  · simp only [h]
    rfl

theorem Get_foldl_prefixAttribute_other (l : List (String × String)) (attrs : Map)
    (key : String) (hne : ∀ e ∈ l, e.1 ≠ key) :
    Map.Get (l.foldl prefixAttribute attrs) key = Map.Get attrs key := by
  induction l generalizing attrs with
  | nil => rfl
  | cons e rest ih =>
    rw [List.foldl_cons, ih _ (fun x hx => hne x (List.mem_cons_of_mem e hx)),
      Get_prefixAttribute_other attrs e key (hne e (List.mem_cons_self e rest))]

theorem Get_updateLabelsOfDatapoint_other (ord : RangeOrder) (dp : NumberDataPoint)
    (key : String) (h1 : NeuronCoreAttributeKey ≠ key) (h2 : NeuronDeviceAttributeKey ≠ key)
    (h3 : RuntimeTag ≠ key) :
    Map.Get (updateLabelsOfDatapoint ord dp).attributes key = Map.Get dp.attributes key := by
  show Map.Get (Map.PutStr _ RuntimeTag RuntimeTagOverride) key = _
  rw [Map.Get_PutStr_other _ _ _ _ h3]
  apply Get_foldl_prefixAttribute_other
  intro e he
  have he2 : e ∈ attributeValuePrefixingMap := (ord.perm _).mem_iff.mp he
  simp only [attributeValuePrefixingMap, List.mem_cons, List.mem_singleton,
    List.not_mem_nil, or_false] at he2
  rcases he2 with h | h
  · rw [h]
    exact h1
  · rw [h]
    exact h2

theorem Get_resetStaleDatapoint_other (dp : NumberDataPoint) (key : String)
    (h3 : RuntimeTag ≠ key) :
    Map.Get (resetStaleDatapoint dp).attributes key = Map.Get dp.attributes key := by
  unfold resetStaleDatapoint
  split
  · exact Map.Get_PutStr_other _ _ _ _ h3
  · rfl

theorem normalize_sum (c : ContainerInsightsCommon) (ord : RangeOrder) (m : Metric)
    (dps : NumberDataPointSlice) (t : AggregationTemporality) (mono : Bool)
    (hdata : m.data = .sum dps t mono) :
    ModifyMetric.normalize c ord m =
      .ok ⟨m.name, m.description, (metricModificationsAt c m.name).Unit,
        .sum (dps.map (fun dp => resetStaleDatapoint (updateLabelsOfDatapoint ord dp)))
          t mono⟩ := by
  obtain ⟨name, desc, unit, data⟩ := m
  simp only at hdata
  subst hdata
  simp [ModifyMetric.normalize, Metric.isGauge, addUnit, updateCoreDeviceRuntimeLabels,
    resetStaleDatapoints, Metric.SumDataPoints, Metric.withSumDataPoints, bind, Except.bind,
    pure, Except.pure]

theorem normalize_gauge (c : ContainerInsightsCommon) (ord : RangeOrder) (m : Metric)
    (dps : NumberDataPointSlice) (hdata : m.data = .gauge dps) :
    ModifyMetric.normalize c ord m =
      .ok ⟨m.name, m.description, (metricModificationsAt c m.name).Unit,
        .sum (dps.map (fun dp => resetStaleDatapoint (updateLabelsOfDatapoint ord dp)))
          AggregationTemporality.unspecified false⟩ := by
  obtain ⟨name, desc, unit, data⟩ := m
  simp only at hdata
  subst hdata
  simp [ModifyMetric.normalize, Metric.isGauge, convertGaugeToSum, Metric.GaugeDataPoints,
    Metric.SetEmptySum, addUnit, updateCoreDeviceRuntimeLabels,
    resetStaleDatapoints, Metric.SumDataPoints, Metric.withSumDataPoints, bind, Except.bind,
    pure, Except.pure]

theorem transform_plain (c : ContainerInsightsCommon) (ord : RangeOrder) (m : Metric)
    (dps : NumberDataPointSlice) (t : AggregationTemporality) (mono : Bool)
    (metrics : MetricSlice) (hdata : m.data = .sum dps t mono)
    (h1 : m.name ≠ c.NeuronExecutionLatency) (h2 : m.name ≠ c.NeuronRuntimeMemoryUsage)
    (h3 : m.name ≠ c.NeuronCoreUtilization)
    (hu : (metricModificationsAt c m.name).UniqueAttribute = "") :
    ModifyMetric.transform c ord m metrics =
      match duplicateMetrics c [m] m.name dps metrics with
      | .error e => .error e
      | .ok out => .ok (m, out) := by
  simp only [ModifyMetric.transform, if_neg h1, if_neg h2, if_neg h3, bind, Except.bind, pure,
    Except.pure, extractDatapointsAsMetricsAndAggregate, hu, if_true, Metric.SumDataPoints, hdata]
  cases duplicateMetrics c [m] m.name dps metrics <;> rfl

/-! ## C9: rules with an empty scope list, end to end -/

/-- C9: for the two registered metrics whose rule declares no duplication scope
(`NeuronInstanceInfo`, `NeuronHardware`) and an input of gauge or sum shape with at least
one datapoint: when the first datapoint carries a non-empty `PodName`, `ModifyMetric`
appends nothing; when `PodName` is absent or empty, it appends exactly one metric, named
after the lower-cased Node scope, an underscore and the metric name (`node_<name>`). -/
theorem ModifyMetric_emptyScopes (c : ContainerInsightsCommon) (ord : RangeOrder)
    (m : Metric) (first : NumberDataPoint) (rest : NumberDataPointSlice)
    (metrics : MetricSlice) (hd : c.Distinct)
    (hname : m.name = c.NeuronInstanceInfo ∨ m.name = c.NeuronHardware)
    (hdata : m.data = .gauge (first :: rest) ∨
      ∃ t mono, m.data = .sum (first :: rest) t mono) :
    ((Map.Get first.attributes PodName).2 = true ∧
        (Map.Get first.attributes PodName).1.Str ≠ "" →
      ∃ m2, ModifyMetric c ord m metrics = .ok (m2, metrics)) ∧
    ((Map.Get first.attributes PodName).2 = false ∨
        (Map.Get first.attributes PodName).1.Str = "" →
      ∃ m2 d, ModifyMetric c ord m metrics = .ok (m2, metrics ++ [d]) ∧
        d.name = ToLower c c.TypeNode ++ "_" ++ m.name ∧
        (c.TypeNode = "Node" → d.name = "node_" ++ m.name)) := by
  have hrule : (metricModificationsMap c).lookup m.name = some ⟨[], "", "", Count⟩ ∧
      metricModificationsAt c m.name = ⟨[], "", "", Count⟩ := by
    rcases hname with h | h
    · rw [h]
      exact metricModifications_of_mem c hd _ _ (by simp [metricModificationsMap])
    · rw [h]
      exact metricModifications_of_mem c hd _ _ (by simp [metricModificationsMap])
  have hne : m.name ≠ c.NeuronExecutionLatency ∧ m.name ≠ c.NeuronRuntimeMemoryUsage ∧
      m.name ≠ c.NeuronCoreUtilization := by
    rcases hname with h | h
    · rw [h]
      exact ⟨ne_of_distinct c hd 10 12 (by decide), ne_of_distinct c hd 10 2 (by decide),
        ne_of_distinct c hd 10 9 (by decide)⟩
    · rw [h]
      exact ⟨ne_of_distinct c hd 11 12 (by decide), ne_of_distinct c hd 11 2 (by decide),
        ne_of_distinct c hd 11 9 (by decide)⟩
  obtain ⟨t, mono, hnorm⟩ : ∃ t mono, ModifyMetric.normalize c ord m =
      .ok ⟨m.name, m.description, (metricModificationsAt c m.name).Unit,
        .sum ((first :: rest).map
          (fun dp => resetStaleDatapoint (updateLabelsOfDatapoint ord dp))) t mono⟩ := by
    rcases hdata with h | ⟨t, mono, h⟩
    · exact ⟨_, _, normalize_gauge c ord m _ h⟩
    · exact ⟨t, mono, normalize_sum c ord m _ t mono h⟩
  generalize hm4 : (⟨m.name, m.description, (metricModificationsAt c m.name).Unit,
        .sum ((first :: rest).map
          (fun dp => resetStaleDatapoint (updateLabelsOfDatapoint ord dp))) t mono⟩ : Metric)
      = m4 at hnorm
  have hm4name : m4.name = m.name := by rw [← hm4]
  have hm4data : m4.data = .sum (resetStaleDatapoint (updateLabelsOfDatapoint ord first) ::
      rest.map (fun dp => resetStaleDatapoint (updateLabelsOfDatapoint ord dp))) t mono := by
    rw [← hm4]
    rfl
  have hm4sum : ∀ x ∈ [m4], x.isSum = true := by
    intro x hx
    rw [List.mem_singleton.mp hx]
    simp [Metric.isSum, hm4data]
  have hpodeq : Map.Get (resetStaleDatapoint (updateLabelsOfDatapoint ord first)).attributes
      PodName = Map.Get first.attributes PodName := by
    rw [Get_resetStaleDatapoint_other _ _ (by decide),
      Get_updateLabelsOfDatapoint_other _ _ _ (by decide) (by decide) (by decide)]
  have hmod : ModifyMetric c ord m metrics =
      match duplicateMetrics c [m4] m4.name
        (resetStaleDatapoint (updateLabelsOfDatapoint ord first) ::
          rest.map (fun dp => resetStaleDatapoint (updateLabelsOfDatapoint ord dp))) metrics with
      | .error e => .error e
      | .ok out => .ok (m4, out) := by
    simp only [ModifyMetric, hrule.1, hnorm, bind, Except.bind]
    exact transform_plain c ord m4 _ t mono metrics hm4data (hm4name ▸ hne.1)
      (hm4name ▸ hne.2.1) (hm4name ▸ hne.2.2) (by rw [hm4name, hrule.2])
  constructor
  · intro hpod
    rw [← hpodeq] at hpod
    have h := scoped_duplicates c [m4] m4.name
      (resetStaleDatapoint (updateLabelsOfDatapoint ord first))
      (rest.map (fun dp => resetStaleDatapoint (updateLabelsOfDatapoint ord dp)))
      metrics hpod hm4sum
    have hnil : (metricModificationsAt c m4.name).DuplicationTypes = [] := by
      rw [hm4name, hrule.2]
    rw [hnil] at h
    simp only [List.map_nil, List.flatMap_cons, List.flatMap_nil, List.append_nil] at h
    exact ⟨m4, by rw [hmod, h]⟩
  · intro hpod
    rw [← hpodeq] at hpod
    have h := nodeOnly_duplicates c [m4] m4.name
      (resetStaleDatapoint (updateLabelsOfDatapoint ord first))
      (rest.map (fun dp => resetStaleDatapoint (updateLabelsOfDatapoint ord dp)))
      metrics hpod hm4sum
    refine ⟨m4, duplicateOf c m4.name m4 c.TypeNode, by rw [hmod, h]; rfl, ?_, ?_⟩
    · rw [duplicateOf_name, hm4name]
    · intro hnode
      rw [duplicateOf_name, hm4name, hnode, ToLower_Node c]
      rfl

/-- The instance-info gauge with one datapoint: with `PodName = pod-1` nothing is appended,
without `PodName` exactly `node_instance_info` is appended. -/
theorem ModifyMetric_emptyScopes_witness :
    upstream.Distinct ∧
    (∃ m2, ModifyMetric upstream RangeOrder.insertion
      (Example.instanceInfo [("PodName", .str "pod-1")]) [] = .ok (m2, [])) ∧
    (∃ m2 d, ModifyMetric upstream RangeOrder.insertion (Example.instanceInfo []) [] =
        .ok (m2, [] ++ [d]) ∧
      d.name = ToLower upstream upstream.TypeNode ++ "_" ++ (Example.instanceInfo []).name ∧
      (upstream.TypeNode = "Node" → d.name = "node_" ++ (Example.instanceInfo []).name)) ∧
    (ModifyMetric upstream RangeOrder.insertion (Example.instanceInfo []) []).map
        (fun r => r.2.map Metric.name) = .ok ["node_instance_info"] :=
  ⟨by decide,
    (ModifyMetric_emptyScopes upstream RangeOrder.insertion
      (Example.instanceInfo [("PodName", .str "pod-1")])
      (Example.dp [("PodName", .str "pod-1")] 1) [] [] (by decide) (Or.inl rfl)
      (Or.inl rfl)).1 (by decide),
    (ModifyMetric_emptyScopes upstream RangeOrder.insertion (Example.instanceInfo [])
      (Example.dp [] 1) [] [] (by decide) (Or.inl rfl) (Or.inl rfl)).2 (by decide),
    by with_unfolding_all decide⟩

/-! ## C10: the selective filter -/

/-- C10: on a sum metric the selective filter keeps exactly the datapoints whose attribute
`attributeKey` is present with string value `attributeValueToKeep`, in their original
order and unmodified; every other datapoint is removed and nothing else of the metric
changes. -/
theorem keepSpecificDatapointBasedOnAttribute_filter (m : Metric)
    (dps : NumberDataPointSlice) (t : AggregationTemporality) (mono : Bool)
    (attributeKey attributeValueToKeep : String) (hdata : m.data = .sum dps t mono) :
    ∃ kept : NumberDataPointSlice,
      keepSpecificDatapointBasedOnAttribute m attributeKey attributeValueToKeep =
        .ok ⟨m.name, m.description, m.unit, .sum kept t mono⟩ ∧
      kept = dps.filter (fun dp => (Map.Get dp.attributes attributeKey).2 &&
        decide ((Map.Get dp.attributes attributeKey).1.Str = attributeValueToKeep)) ∧
      kept.Sublist dps ∧
      ∀ dp, dp ∈ kept ↔ dp ∈ dps ∧ (Map.Get dp.attributes attributeKey).2 = true ∧
        (Map.Get dp.attributes attributeKey).1.Str = attributeValueToKeep := by
  refine ⟨dps.filter (fun dp => (Map.Get dp.attributes attributeKey).2 &&
        decide ((Map.Get dp.attributes attributeKey).1.Str = attributeValueToKeep)),
    ?_, rfl, List.filter_sublist dps, ?_⟩
  · obtain ⟨name, desc, unit, data⟩ := m
    simp only at hdata
    subst hdata
    simp only [keepSpecificDatapointBasedOnAttribute, Metric.SumDataPoints, bind, Except.bind,
      pure, Except.pure, Metric.withSumDataPoints]
    congr 3
    apply List.filter_congr
    intro dp _
    by_cases h : (Map.Get dp.attributes attributeKey).1.Str = attributeValueToKeep
    · simp [removeUnlessAttribute, h]
    · simp [removeUnlessAttribute, h]
  · intro dp
    simp [List.mem_filter]


/-- The latency example: of the datapoints p50, p99, no percentile and p50, the two p50
datapoints are kept in their order. -/
theorem keepSpecificDatapointBasedOnAttribute_filter_witness :
    Example.latency.data =
      .sum Example.latencyDatapoints AggregationTemporality.unspecified false ∧
    keepSpecificDatapointBasedOnAttribute Example.latency Percentile "p50" =
      .ok ⟨"neuron_execution_latency", "", "Seconds",
        .sum [Example.dp [("percentile", .str "p50")] 3,
              Example.dp [("percentile", .str "p50"), ("PodName", .str "pod-1")] 9]
          AggregationTemporality.unspecified false⟩ ∧
    ∃ kept : NumberDataPointSlice,
      keepSpecificDatapointBasedOnAttribute Example.latency Percentile "p50" =
        .ok ⟨Example.latency.name, Example.latency.description, Example.latency.unit,
          .sum kept AggregationTemporality.unspecified false⟩ ∧
      kept = Example.latencyDatapoints.filter (fun dp =>
        (Map.Get dp.attributes Percentile).2 &&
          decide ((Map.Get dp.attributes Percentile).1.Str = "p50")) ∧
      kept.Sublist Example.latencyDatapoints ∧
      ∀ dp, dp ∈ kept ↔ dp ∈ Example.latencyDatapoints ∧
        (Map.Get dp.attributes Percentile).2 = true ∧
        (Map.Get dp.attributes Percentile).1.Str = "p50" :=
  ⟨rfl, by with_unfolding_all decide,
    keepSpecificDatapointBasedOnAttribute_filter Example.latency Example.latencyDatapoints
      AggregationTemporality.unspecified false Percentile "p50" rfl⟩

/-! ## C11: shape normalisation -/

/-- C11: for a registered metric of gauge shape, `convertGaugeToSum` followed by `addUnit`
yields the metric with the same name and description, of sum shape, holding the same
datapoints in the same order, unchanged, with unspecified aggregation temporality, and
with the unit of the metric's rule in the registry. -/
theorem convertGaugeToSum_addUnit (c : ContainerInsightsCommon) (m : Metric)
    (dps : NumberDataPointSlice) (r : MetricModifications)
    (hreg : (metricModificationsMap c).lookup m.name = some r)
    (hdata : m.data = .gauge dps) :
    (convertGaugeToSum m).map (addUnit c) =
      .ok ⟨m.name, m.description, r.Unit,
        .sum dps AggregationTemporality.unspecified false⟩ := by
  obtain ⟨name, desc, unit, data⟩ := m
  simp only at hdata hreg
  subst hdata
  simp [convertGaugeToSum, Metric.GaugeDataPoints, Metric.SetEmptySum,
    Metric.withSumDataPoints, addUnit, metricModificationsAt, hreg, bind, Except.bind, pure,
    Except.pure, Functor.map, Except.map]

/-- The instance-info gauge: the result is the sum metric with the same datapoint and
the unit `Count` of its rule. -/
theorem convertGaugeToSum_addUnit_witness :
    (metricModificationsMap upstream).lookup (Example.instanceInfo []).name =
      some ⟨[], "", "", "Count"⟩ ∧
    (convertGaugeToSum (Example.instanceInfo [])).map (addUnit upstream) =
      .ok ⟨"instance_info", "", "Count",
        .sum [Example.dp [] 1] AggregationTemporality.unspecified false⟩ :=
  ⟨by decide,
    convertGaugeToSum_addUnit upstream (Example.instanceInfo []) [Example.dp [] 1]
      ⟨[], "", "", "Count"⟩ (by decide) rfl⟩

/-! ## C12: the stale resolver is idempotent -/

theorem duplicateMetrics_flag (c : ContainerInsightsCommon) (metricsSlice : MetricSlice)
    (originalMetricName : String) (originalMetricDatapoints : NumberDataPointSlice)
    (metrics : MetricSlice) :
    duplicateMetrics c metricsSlice originalMetricName originalMetricDatapoints metrics =
      (duplicateForNodeOnly originalMetricDatapoints >>= fun flag =>
        metricsSlice.foldlM (fun out metric =>
          if flag = true then
            duplicateMetricForType c metric c.TypeNode originalMetricName out
          else
            (metricModificationsAt c originalMetricName).DuplicationTypes.foldlM
              (fun out2 duplicateType =>
                duplicateMetricForType c metric duplicateType originalMetricName out2) out)
          metrics) := by
  cases originalMetricDatapoints with
  | nil => rfl
  | cons first rest =>
    simp only [duplicateMetrics, duplicateForNodeOnly, NumberDataPointSlice.At,
      List.getElem?_cons_zero, bind, Except.bind, pure, Except.pure]

theorem transform_filter (c : ContainerInsightsCommon) (ord : RangeOrder)
    (originalMetric : Metric) (metrics : MetricSlice) :
    ModifyMetric.transform c ord originalMetric metrics =
      (ModifyMetric.filter c originalMetric >>= fun m5 =>
        (if m5.name = c.NeuronCoreUtilization then aggregateCoreUtilizationMetrics ord m5
          else extractDatapointsAsMetricsAndAggregate c ord m5) >>= fun modifiedMetricSlice =>
        m5.SumDataPoints >>= fun dps =>
        duplicateMetrics c modifiedMetricSlice originalMetric.name dps metrics >>= fun out =>
        pure (m5, out)) := by
  simp only [ModifyMetric.transform, ModifyMetric.filter]
  split_ifs with h1 h2
  · congr 1
    funext y
    split_ifs <;> rfl
  · congr 1
    funext y
    split_ifs <;> rfl
  · simp only [bind, Except.bind, pure, Except.pure]
    split_ifs <;> rfl

/-! ## C13: what a call does to the output collection -/

theorem duplicateMetricForType_prefix (c : ContainerInsightsCommon) (metric : Metric)
    (duplicateType originalMetricName : String) (metrics r : MetricSlice)
    (h : duplicateMetricForType c metric duplicateType originalMetricName metrics = .ok r) :
    ∃ appended, r = metrics ++ appended := by
  obtain ⟨name, desc, unit, data⟩ := metric
  cases data with
  | sum dps t mono =>
    simp only [duplicateMetricForType, Metric.SumDataPoints, bind, Except.bind, pure,
      Except.pure, Except.ok.injEq] at h
    exact ⟨_, h.symm⟩
  | empty => simp [duplicateMetricForType, Metric.SumDataPoints, bind, Except.bind] at h
  | gauge dps => simp [duplicateMetricForType, Metric.SumDataPoints, bind, Except.bind] at h
  | other => simp [duplicateMetricForType, Metric.SumDataPoints, bind, Except.bind] at h

theorem foldlM_prefix {α : Type} (f : MetricSlice → α → Result MetricSlice)
    (hf : ∀ out a r, f out a = .ok r → ∃ appended, r = out ++ appended)
    (l : List α) (metrics r : MetricSlice) (h : l.foldlM f metrics = .ok r) :
    ∃ appended, r = metrics ++ appended := by
  induction l generalizing metrics with
  | nil =>
    simp only [List.foldlM_nil, pure, Except.pure, Except.ok.injEq] at h
    exact ⟨[], by rw [← h, List.append_nil]⟩
  | cons a rest ih =>
    rw [List.foldlM_cons] at h
    cases hfa : f metrics a with
    | error e => simp [hfa, bind, Except.bind] at h
    | ok mid =>
      simp only [hfa, bind, Except.bind] at h
      obtain ⟨app1, h1⟩ := hf metrics a mid hfa
      obtain ⟨app2, h2⟩ := ih mid h
      exact ⟨app1 ++ app2, by rw [h2, h1, List.append_assoc]⟩

theorem duplicateMetrics_prefix (c : ContainerInsightsCommon) (metricsSlice : MetricSlice)
    (originalMetricName : String) (originalMetricDatapoints : NumberDataPointSlice)
    (metrics r : MetricSlice)
    (h : duplicateMetrics c metricsSlice originalMetricName originalMetricDatapoints metrics =
      .ok r) :
    ∃ appended, r = metrics ++ appended := by
  rw [duplicateMetrics_flag] at h
  cases hflag : duplicateForNodeOnly originalMetricDatapoints with
  | error e => simp [hflag, bind, Except.bind] at h
  | ok flag =>
    simp only [hflag, bind, Except.bind] at h
    refine foldlM_prefix _ ?_ metricsSlice metrics r h
    intro out metric r2 h2
    by_cases hf : flag = true
    · simp only [hf, if_true] at h2
      exact duplicateMetricForType_prefix c metric _ _ out r2 h2
    · simp only [hf] at h2
      exact foldlM_prefix _ (fun o s r3 h3 =>
        duplicateMetricForType_prefix c metric s _ o r3 h3) _ out r2 h2

theorem transform_prefix (c : ContainerInsightsCommon) (ord : RangeOrder)
    (originalMetric : Metric) (metrics : MetricSlice) (r : Metric × MetricSlice)
    (h : ModifyMetric.transform c ord originalMetric metrics = .ok r) :
    ∃ appended, r.2 = metrics ++ appended := by
  rw [transform_filter] at h
  cases h1 : ModifyMetric.filter c originalMetric with
  | error e => simp [h1, bind, Except.bind] at h
  | ok m5 =>
    simp only [h1, bind, Except.bind] at h
    cases h2 : (if m5.name = c.NeuronCoreUtilization then
        aggregateCoreUtilizationMetrics ord m5
        else extractDatapointsAsMetricsAndAggregate c ord m5) with
    | error e => simp [h2] at h
    | ok slice =>
      simp only [h2] at h
      cases h3 : m5.SumDataPoints with
      | error e => simp [h3] at h
      | ok dps =>
        simp only [h3] at h
        cases h4 : duplicateMetrics c slice originalMetric.name dps metrics with
        | error e => simp [h4] at h
        | ok out =>
          simp only [h4, pure, Except.pure, Except.ok.injEq] at h
          obtain ⟨appended, h5⟩ := duplicateMetrics_prefix c slice _ dps metrics out h4
          exact ⟨appended, by rw [← h, h5]⟩

theorem ModifyMetric_prefix (c : ContainerInsightsCommon) (ord : RangeOrder)
    (originalMetric : Metric) (metrics : MetricSlice) (r : Metric × MetricSlice)
    (h : ModifyMetric c ord originalMetric metrics = .ok r) :
    ∃ appended, r.2 = metrics ++ appended := by
  unfold ModifyMetric at h
  cases hl : (metricModificationsMap c).lookup originalMetric.name with
  | none =>
    simp only [hl, Except.ok.injEq] at h
    exact ⟨[], by rw [← h, List.append_nil]⟩
  | some rule =>
    simp only [hl, bind, Except.bind] at h
    cases hn : ModifyMetric.normalize c ord originalMetric with
    | error e => simp [hn] at h
    | ok m4 =>
      simp only [hn] at h
      exact transform_prefix c ord m4 metrics r h

theorem MetricSlice.At_ok (metrics : MetricSlice) (k : Nat) (m : Metric)
    (h : MetricSlice.At metrics k = .ok m) : k < metrics.length := by
  unfold MetricSlice.At at h
  cases hk : metrics[k]? with
  | none => simp [hk] at h
  | some x => exact (List.getElem?_eq_some_iff.mp hk).1

/-- C13, as amended: `ModifyMetric` removes and reorders nothing.  When the input metric is
not an element of the output collection, the collection after the call is the initial
collection followed by the appended metrics.  When the input metric is the element `k` of
the output collection, the collection after the call is the initial collection with the
element `k` rewritten in place (it is the input metric as the call leaves it: normalised
and filtered), followed by the appended metrics; every other element is unchanged. -/
theorem ModifyMetric_appends (c : ContainerInsightsCommon) (ord : RangeOrder)
    (metrics : MetricSlice) :
    (∀ (originalMetric : Metric) (r : Metric × MetricSlice),
      ModifyMetric c ord originalMetric metrics = .ok r →
        ∃ appended, r.2 = metrics ++ appended) ∧
    (∀ (k : Nat) (r : MetricSlice), ModifyMetricAt c ord metrics k = .ok r →
      ∃ (original m5 : Metric) (appended : MetricSlice),
        metrics[k]? = some original ∧
        ModifyMetric c ord original metrics = .ok (m5, metrics ++ appended) ∧
        r = metrics.set k m5 ++ appended ∧
        ∀ i : Nat, i ≠ k → i < metrics.length → r[i]? = metrics[i]?) := by
  refine ⟨fun originalMetric r h => ModifyMetric_prefix c ord originalMetric metrics r h, ?_⟩
  intro k r h
  unfold ModifyMetricAt at h
  cases hat : MetricSlice.At metrics k with
  | error e => simp [hat, bind, Except.bind] at h
  | ok original =>
    have hk : k < metrics.length := MetricSlice.At_ok metrics k original hat
    have hget : metrics[k]? = some original := by
      unfold MetricSlice.At at hat
      cases hk2 : metrics[k]? with
      | none => simp [hk2] at hat
      | some x =>
        simp only [hk2, Except.ok.injEq] at hat
        rw [hat]
    simp only [hat, bind, Except.bind] at h
    cases hm : ModifyMetric c ord original metrics with
    | error e => simp [hm] at h
    | ok res =>
      obtain ⟨m5, out⟩ := res
      simp only [hm, pure, Except.pure, Except.ok.injEq] at h
      obtain ⟨appended, happ⟩ := ModifyMetric_prefix c ord original metrics (m5, out) hm
      simp only at happ
      subst happ
      have hset : (metrics ++ appended).set k m5 = metrics.set k m5 ++ appended := by
        rw [List.set_append, if_pos hk]
      refine ⟨original, m5, appended, hget, hm, ?_, ?_⟩
      · rw [← h, hset]
      · intro i hik hi
        rw [← h, hset, List.getElem?_append_left (by simpa using hi),
          List.getElem?_set_ne (Ne.symm hik)]

/-- C13, counterexample: the instance-info gauge is the only element of the collection and
`ModifyMetric` is called on it.  After the call the element is a sum with the unit `Count`
and the runtime tag `DEFAULT`: the initial collection is not a prefix of the result. -/
theorem ModifyMetric_appends_counterexample :
    ModifyMetricAt upstream RangeOrder.insertion [Example.instanceInfo []] 0 =
      .ok [⟨"instance_info", "", "Count",
          .sum [Example.dp [("runtime_tag", .str "DEFAULT")] 1]
            AggregationTemporality.unspecified false⟩,
        ⟨"node_instance_info", "", "Count",
          .sum [Example.dp [("runtime_tag", .str "DEFAULT"), ("Type", .str "NodeAWSNeuron")] 1]
            AggregationTemporality.unspecified false⟩] ∧
    ¬ ∃ appended : MetricSlice,
      [⟨"instance_info", "", "Count",
          .sum [Example.dp [("runtime_tag", .str "DEFAULT")] 1]
            AggregationTemporality.unspecified false⟩,
        ⟨"node_instance_info", "", "Count",
          .sum [Example.dp [("runtime_tag", .str "DEFAULT"), ("Type", .str "NodeAWSNeuron")] 1]
            AggregationTemporality.unspecified false⟩] =
        [Example.instanceInfo []] ++ appended := by
  refine ⟨by decide!, ?_⟩
  rintro ⟨appended, h⟩
  have h1 := (List.cons.inj h).1
  exact absurd h1 (by decide!)

/-- The instance-info gauge as the second element of a collection: the call returns, the
first element is kept, the second is rewritten in place and one metric is appended.  Called
with a collection it is not an element of, the collection is an unchanged prefix. -/
theorem ModifyMetric_appends_witness :
    ModifyMetricAt upstream RangeOrder.insertion
        [⟨"kept", "", "", .empty⟩, Example.instanceInfo []] 1 =
      .ok [⟨"kept", "", "", .empty⟩,
        ⟨"instance_info", "", "Count",
          .sum [Example.dp [("runtime_tag", .str "DEFAULT")] 1]
            AggregationTemporality.unspecified false⟩,
        ⟨"node_instance_info", "", "Count",
          .sum [Example.dp [("runtime_tag", .str "DEFAULT"), ("Type", .str "NodeAWSNeuron")] 1]
            AggregationTemporality.unspecified false⟩] ∧
    (∃ (original m5 : Metric) (appended : MetricSlice),
      [⟨"kept", "", "", .empty⟩, Example.instanceInfo []][1]? = some original ∧
      ModifyMetric upstream RangeOrder.insertion original
          [⟨"kept", "", "", .empty⟩, Example.instanceInfo []] =
        .ok (m5, [⟨"kept", "", "", .empty⟩, Example.instanceInfo []] ++ appended) ∧
      [⟨"kept", "", "", .empty⟩,
        ⟨"instance_info", "", "Count",
          .sum [Example.dp [("runtime_tag", .str "DEFAULT")] 1]
            AggregationTemporality.unspecified false⟩,
        ⟨"node_instance_info", "", "Count",
          .sum [Example.dp [("runtime_tag", .str "DEFAULT"), ("Type", .str "NodeAWSNeuron")] 1]
            AggregationTemporality.unspecified false⟩] =
        [⟨"kept", "", "", .empty⟩, Example.instanceInfo []].set 1 m5 ++ appended ∧
      ∀ i : Nat, i ≠ 1 → i < [⟨"kept", "", "", .empty⟩, Example.instanceInfo []].length →
        [⟨"kept", "", "", .empty⟩,
          ⟨"instance_info", "", "Count",
            .sum [Example.dp [("runtime_tag", .str "DEFAULT")] 1]
              AggregationTemporality.unspecified false⟩,
          ⟨"node_instance_info", "", "Count",
            .sum [Example.dp [("runtime_tag", .str "DEFAULT"),
              ("Type", .str "NodeAWSNeuron")] 1]
              AggregationTemporality.unspecified false⟩][i]? =
          [⟨"kept", "", "", .empty⟩, Example.instanceInfo []][i]?) ∧
    (ModifyMetric upstream RangeOrder.insertion (Example.instanceInfo [])
        [⟨"kept", "", "", .empty⟩]).map (fun r => r.2.map Metric.name) =
      .ok ["kept", "node_instance_info"] ∧
    ∀ r, ModifyMetric upstream RangeOrder.insertion (Example.instanceInfo [])
        [⟨"kept", "", "", .empty⟩] = .ok r →
      ∃ appended, r.2 = [⟨"kept", "", "", .empty⟩] ++ appended :=
  ⟨by decide!,
    (ModifyMetric_appends upstream RangeOrder.insertion
      [⟨"kept", "", "", .empty⟩, Example.instanceInfo []]).2 1 _ (by decide!),
    by decide!,
    fun r h => (ModifyMetric_appends upstream RangeOrder.insertion
      [⟨"kept", "", "", .empty⟩]).1 (Example.instanceInfo []) r h⟩

/-! ## The selective filter inside `ModifyMetric` -/

theorem keepPredicate_eq (key value : String) (dp : NumberDataPoint) :
    (!removeUnlessAttribute key value dp) =
      ((Map.Get dp.attributes key).2 && decide ((Map.Get dp.attributes key).1.Str = value)) := by
  by_cases h : (Map.Get dp.attributes key).1.Str = value
  · simp [removeUnlessAttribute, h]
  · simp [removeUnlessAttribute, h]

theorem keepSpecific_sum (name desc unit : String) (dps : NumberDataPointSlice)
    (t : AggregationTemporality) (mono : Bool) (key value : String) :
    keepSpecificDatapointBasedOnAttribute ⟨name, desc, unit, .sum dps t mono⟩ key value =
      .ok ⟨name, desc, unit, .sum (dps.filter (fun dp =>
        (Map.Get dp.attributes key).2 &&
          decide ((Map.Get dp.attributes key).1.Str = value))) t mono⟩ := by
  simp only [keepSpecificDatapointBasedOnAttribute, Metric.SumDataPoints, bind, Except.bind,
    pure, Except.pure, Metric.withSumDataPoints]
  congr 3
  apply List.filter_congr
  intro dp _
  exact keepPredicate_eq key value dp

/-- The datapoint as `ModifyMetric.normalize` leaves it. -/
theorem Get_normalized_other (ord : RangeOrder) (dp : NumberDataPoint) (key : String)
    (h1 : NeuronCoreAttributeKey ≠ key) (h2 : NeuronDeviceAttributeKey ≠ key)
    (h3 : RuntimeTag ≠ key) :
    Map.Get (resetStaleDatapoint (updateLabelsOfDatapoint ord dp)).attributes key =
      Map.Get dp.attributes key := by
  rw [Get_resetStaleDatapoint_other _ _ h3, Get_updateLabelsOfDatapoint_other _ _ _ h1 h2 h3]

theorem filter_normalized (ord : RangeOrder) (dps : NumberDataPointSlice) (key value : String)
    (h1 : NeuronCoreAttributeKey ≠ key) (h2 : NeuronDeviceAttributeKey ≠ key)
    (h3 : RuntimeTag ≠ key) :
    (dps.map (fun dp => resetStaleDatapoint (updateLabelsOfDatapoint ord dp))).filter
        (fun dp => (Map.Get dp.attributes key).2 &&
          decide ((Map.Get dp.attributes key).1.Str = value)) =
      (dps.filter (fun dp => (Map.Get dp.attributes key).2 &&
          decide ((Map.Get dp.attributes key).1.Str = value))).map
        (fun dp => resetStaleDatapoint (updateLabelsOfDatapoint ord dp)) := by
  induction dps with
  | nil => rfl
  | cons d rest ih =>
    simp only [List.map_cons, List.filter_cons, Get_normalized_other ord d key h1 h2 h3, ih]
    split <;> rfl

/-- The datapoints that `ModifyMetric` keeps for duplication, in terms of the input
datapoints: the selected series of the two filtered metrics, all datapoints otherwise. -/
theorem normalize_filter (c : ContainerInsightsCommon) (ord : RangeOrder) (m : Metric)
    (dps : NumberDataPointSlice)
    (hdata : m.data = .gauge dps ∨ ∃ t mono, m.data = .sum dps t mono) :
    ∃ t mono,
      (ModifyMetric.normalize c ord m >>= ModifyMetric.filter c) =
        .ok ⟨m.name, m.description, (metricModificationsAt c m.name).Unit,
          .sum ((if m.name = c.NeuronExecutionLatency then
              dps.filter (fun dp => (Map.Get dp.attributes Percentile).2 &&
                decide ((Map.Get dp.attributes Percentile).1.Str = "p50"))
            else if m.name = c.NeuronRuntimeMemoryUsage then
              dps.filter (fun dp => (Map.Get dp.attributes MemoryLocation).2 &&
                decide ((Map.Get dp.attributes MemoryLocation).1.Str = "neuron_device"))
            else dps).map
              (fun dp => resetStaleDatapoint (updateLabelsOfDatapoint ord dp))) t mono⟩ ∧
      (m.data = .gauge dps → t = AggregationTemporality.unspecified ∧ mono = false) ∧
      (∀ t0 mono0, m.data = .sum dps t0 mono0 → t = t0 ∧ mono = mono0) := by
  obtain ⟨t, mono, hnorm, hg, hs⟩ : ∃ t mono, ModifyMetric.normalize c ord m =
      .ok ⟨m.name, m.description, (metricModificationsAt c m.name).Unit,
        .sum (dps.map (fun dp => resetStaleDatapoint (updateLabelsOfDatapoint ord dp)))
          t mono⟩ ∧
      (m.data = .gauge dps → t = AggregationTemporality.unspecified ∧ mono = false) ∧
      (∀ t0 mono0, m.data = .sum dps t0 mono0 → t = t0 ∧ mono = mono0) := by
    rcases hdata with h | ⟨t, mono, h⟩
    · refine ⟨_, _, normalize_gauge c ord m _ h, fun _ => ⟨rfl, rfl⟩, ?_⟩
      intro t0 mono0 h0
      rw [h] at h0
      cases h0
    · refine ⟨t, mono, normalize_sum c ord m _ t mono h, ?_, ?_⟩
      · intro h0
        rw [h] at h0
        cases h0
      · intro t0 mono0 h0
        rw [h] at h0
        injection h0 with _ h1 h2
        exact ⟨h1, h2⟩
  refine ⟨t, mono, ?_, hg, hs⟩
  rw [hnorm]
  simp only [bind, Except.bind, ModifyMetric.filter]
  by_cases hl : m.name = c.NeuronExecutionLatency
  · simp only [hl, if_true]
    rw [keepSpecific_sum, filter_normalized ord dps Percentile "p50" (by decide) (by decide)
      (by decide)]
  · by_cases hmu : m.name = c.NeuronRuntimeMemoryUsage
    · have hl2 : ¬ c.NeuronRuntimeMemoryUsage = c.NeuronExecutionLatency := hmu ▸ hl
      simp only [hmu, hl2, if_true, if_false]
      rw [keepSpecific_sum, filter_normalized ord dps MemoryLocation "neuron_device"
        (by decide) (by decide) (by decide)]
    · simp only [hl, hmu, if_false]
      rfl

theorem duplicateForNodeOnly_cons (first : NumberDataPoint) (rest : NumberDataPointSlice) :
    duplicateForNodeOnly (first :: rest) =
      .ok (decide ((Map.Get first.attributes PodName).2 = false ∨
        (Map.Get first.attributes PodName).1.Str = "")) := by
  simp only [duplicateForNodeOnly, NumberDataPointSlice.At, List.getElem?_cons_zero, bind,
    Except.bind, pure, Except.pure]
  congr 1
  by_cases h1 : (Map.Get first.attributes PodName).2 = true
  · by_cases h2 : (Map.Get first.attributes PodName).1.Str = ""
    · simp [h1, h2]
    · have h3 : ¬ (Map.Get first.attributes PodName).1.Str.length = 0 := fun h =>
        h2 ((length_eq_zero_iff_empty _).mp h)
      simp [h1, h2, h3]
  · simp [h1]

theorem duplicationMode_eq (c : ContainerInsightsCommon) (ord : RangeOrder) (m : Metric) :
    ModifyMetric.duplicationMode c ord m =
      ((ModifyMetric.normalize c ord m >>= ModifyMetric.filter c) >>= fun m5 =>
        m5.SumDataPoints >>= duplicateForNodeOnly) := by
  unfold ModifyMetric.duplicationMode
  cases ModifyMetric.normalize c ord m <;> rfl

/-! ## C14: which datapoint decides the duplication mode -/

/-- C14, as amended: the duplication mode is decided by the first datapoint that the
metric holds when duplication is reached.  For an input of gauge or sum shape this is the
first input datapoint that the selective filter keeps (the first with `percentile = p50`
for `NeuronExecutionLatency`, the first with `memory_location = neuron_device` for
`NeuronRuntimeMemoryUsage`, the first input datapoint for every other name), and the mode
is NODE_ONLY exactly when that datapoint has no `PodName` or an empty one. -/
theorem ModifyMetric_duplicationMode (c : ContainerInsightsCommon) (ord : RangeOrder)
    (m : Metric) (dps : NumberDataPointSlice) (first : NumberDataPoint)
    (rest : NumberDataPointSlice)
    (hdata : m.data = .gauge dps ∨ ∃ t mono, m.data = .sum dps t mono)
    (hkept : (if m.name = c.NeuronExecutionLatency then
          dps.filter (fun dp => (Map.Get dp.attributes Percentile).2 &&
            decide ((Map.Get dp.attributes Percentile).1.Str = "p50"))
        else if m.name = c.NeuronRuntimeMemoryUsage then
          dps.filter (fun dp => (Map.Get dp.attributes MemoryLocation).2 &&
            decide ((Map.Get dp.attributes MemoryLocation).1.Str = "neuron_device"))
        else dps) = first :: rest) :
    ModifyMetric.duplicationMode c ord m =
      .ok (decide ((Map.Get first.attributes PodName).2 = false ∨
        (Map.Get first.attributes PodName).1.Str = "")) := by
  obtain ⟨t, mono, h, _, _⟩ := normalize_filter c ord m dps hdata
  rw [duplicationMode_eq, h, hkept]
  simp only [bind, Except.bind, Metric.SumDataPoints, List.map_cons]
  rw [duplicateForNodeOnly_cons, Get_normalized_other ord first PodName (by decide) (by decide)
    (by decide)]

/-- C14, counterexample: the latency gauge whose first datapoint is a p99 sample carrying
`PodName = pod-1` and whose only p50 sample has no `PodName`.  `ModifyMetric` returns, and
the mode is NODE_ONLY although the first datapoint handed in by the caller has a non-empty
`PodName`: the statement that the mode is NODE_ONLY exactly when that datapoint has no
`PodName` or an empty one is false. -/
theorem ModifyMetric_duplicationMode_counterexample :
    Example.latencyPodOnP99.data =
      .gauge [Example.dp [("percentile", .str "p99"), ("PodName", .str "pod-1")] 4,
              Example.dp [("percentile", .str "p50")] 3] ∧
    (ModifyMetric upstream RangeOrder.insertion Example.latencyPodOnP99 []).map
        (fun r => r.2.map Metric.name) = .ok ["node_neuron_execution_latency"] ∧
    ¬ (ModifyMetric.duplicationMode upstream RangeOrder.insertion Example.latencyPodOnP99 =
        .ok true ↔
      ((Map.Get (Example.dp [("percentile", .str "p99"),
          ("PodName", .str "pod-1")] 4).attributes PodName).2 = false ∨
        (Map.Get (Example.dp [("percentile", .str "p99"),
          ("PodName", .str "pod-1")] 4).attributes PodName).1.Str = "")) := by
  refine ⟨rfl, by with_unfolding_all decide, ?_⟩
  decide

/-- The same latency gauge: the first datapoint that the filter keeps is the p50 sample
without `PodName`, and the mode is NODE_ONLY. -/
theorem ModifyMetric_duplicationMode_witness :
    (Example.latencyPodOnP99.data =
        .gauge [Example.dp [("percentile", .str "p99"), ("PodName", .str "pod-1")] 4,
                Example.dp [("percentile", .str "p50")] 3] ∨
      ∃ t mono, Example.latencyPodOnP99.data =
        .sum [Example.dp [("percentile", .str "p99"), ("PodName", .str "pod-1")] 4,
              Example.dp [("percentile", .str "p50")] 3] t mono) ∧
    ModifyMetric.duplicationMode upstream RangeOrder.insertion Example.latencyPodOnP99 =
      .ok (decide ((Map.Get (Example.dp [("percentile", .str "p50")] 3).attributes
          PodName).2 = false ∨
        (Map.Get (Example.dp [("percentile", .str "p50")] 3).attributes PodName).1.Str = "")) ∧
    ModifyMetric.duplicationMode upstream RangeOrder.insertion Example.latencyPodOnP99 =
      .ok true :=
  ⟨Or.inl rfl,
    ModifyMetric_duplicationMode upstream RangeOrder.insertion Example.latencyPodOnP99
      [Example.dp [("percentile", .str "p99"), ("PodName", .str "pod-1")] 4,
       Example.dp [("percentile", .str "p50")] 3]
      (Example.dp [("percentile", .str "p50")] 3) [] (Or.inl rfl)
      (by with_unfolding_all decide),
    by decide⟩

/-! ## C15: the filtered metrics, end to end -/

theorem resetStaleDatapoint_DoubleValue (dp : NumberDataPoint) :
    (resetStaleDatapoint dp).DoubleValue = dp.DoubleValue := by
  unfold resetStaleDatapoint
  split <;> rfl

theorem resetStaleDatapoint_timestamps (dp : NumberDataPoint) :
    (resetStaleDatapoint dp).startTimestamp = dp.startTimestamp ∧
    (resetStaleDatapoint dp).timestamp = dp.timestamp := by
  unfold resetStaleDatapoint
  split <;> exact ⟨rfl, rfl⟩

/-- What the pipeline does to one datapoint that reaches the output through the
pass-through branch: labels normalised, stale value resolved, classification stamped.
Timestamps and the double value are kept, and so is every attribute other than
`runtime_tag`, `NeuronCore`, `NeuronDevice` and the classification attribute. -/
theorem stamped_normalized_spec (c : ContainerInsightsCommon) (ord : RangeOrder)
    (duplicateType originalMetricName : String) (dp : NumberDataPoint) :
    (stampMetricType c duplicateType originalMetricName
      (resetStaleDatapoint (updateLabelsOfDatapoint ord dp))).startTimestamp =
        dp.startTimestamp ∧
    (stampMetricType c duplicateType originalMetricName
      (resetStaleDatapoint (updateLabelsOfDatapoint ord dp))).timestamp = dp.timestamp ∧
    (stampMetricType c duplicateType originalMetricName
      (resetStaleDatapoint (updateLabelsOfDatapoint ord dp))).DoubleValue = dp.DoubleValue ∧
    ∀ k : String, k ≠ RuntimeTag → k ≠ NeuronCoreAttributeKey → k ≠ NeuronDeviceAttributeKey →
      k ≠ c.MetricType →
      Map.Get (stampMetricType c duplicateType originalMetricName
        (resetStaleDatapoint (updateLabelsOfDatapoint ord dp))).attributes k =
        Map.Get dp.attributes k := by
  refine ⟨?_, ?_, ?_, ?_⟩
  · show (resetStaleDatapoint (updateLabelsOfDatapoint ord dp)).startTimestamp = _
    rw [(resetStaleDatapoint_timestamps _).1]
    rfl
  · show (resetStaleDatapoint (updateLabelsOfDatapoint ord dp)).timestamp = _
    rw [(resetStaleDatapoint_timestamps _).2]
    rfl
  · show (resetStaleDatapoint (updateLabelsOfDatapoint ord dp)).DoubleValue = _
    rw [resetStaleDatapoint_DoubleValue]
    rfl
  · intro k h1 h2 h3 h4
    show Map.Get (Map.PutStr _ c.MetricType _) k = _
    rw [Map.Get_PutStr_other _ _ _ _ (Ne.symm h4)]
    exact Get_normalized_other ord dp k (Ne.symm h2) (Ne.symm h3) (Ne.symm h1)

theorem extract_passThrough (c : ContainerInsightsCommon) (ord : RangeOrder) (m : Metric)
    (hu : (metricModificationsAt c m.name).UniqueAttribute = "") :
    extractDatapointsAsMetricsAndAggregate c ord m = .ok [m] := by
  simp [extractDatapointsAsMetricsAndAggregate, hu]

/-- C15: for `NeuronExecutionLatency` (selected series `percentile = p50`, unit Seconds)
and likewise `NeuronRuntimeMemoryUsage` (`memory_location = neuron_device`, unit Bytes),
with an input of gauge or sum shape whose first retained datapoint carries a non-empty
`PodName`: `ModifyMetric` appends exactly one metric, named after the lower-cased Node
scope, an underscore and the metric name (`node_<name>`), with the unit of the rule; its
datapoints correspond one to one, in input order, to the input datapoints of the selected
series, each being that input datapoint as normalised and stamped by the pipeline (same
timestamps, same double value, same attributes apart from `runtime_tag`, `NeuronCore`,
`NeuronDevice` and the classification attribute); no other input datapoint reaches the
output. -/
theorem ModifyMetric_filtered (c : ContainerInsightsCommon) (ord : RangeOrder) (m : Metric)
    (dps : NumberDataPointSlice) (first : NumberDataPoint) (rest : NumberDataPointSlice)
    (metrics : MetricSlice) (key value unit : String) (hd : c.Distinct)
    (hname : (m.name = c.NeuronExecutionLatency ∧ key = Percentile ∧ value = "p50" ∧
        unit = Seconds) ∨
      (m.name = c.NeuronRuntimeMemoryUsage ∧ key = MemoryLocation ∧
        value = "neuron_device" ∧ unit = Bytes))
    (hdata : m.data = .gauge dps ∨ ∃ t mono, m.data = .sum dps t mono)
    (hkept : dps.filter (fun dp => (Map.Get dp.attributes key).2 &&
      decide ((Map.Get dp.attributes key).1.Str = value)) = first :: rest)
    (hpod : (Map.Get first.attributes PodName).2 = true ∧
      (Map.Get first.attributes PodName).1.Str ≠ "") :
    ∃ (m2 d : Metric) (outDps : NumberDataPointSlice) (t : AggregationTemporality)
      (mono : Bool),
      ModifyMetric c ord m metrics = .ok (m2, metrics ++ [d]) ∧
      d.name = ToLower c c.TypeNode ++ "_" ++ m.name ∧
      (c.TypeNode = "Node" → d.name = "node_" ++ m.name) ∧
      d.unit = unit ∧
      d.data = .sum outDps t mono ∧
      outDps = (first :: rest).map (fun dp => stampMetricType c c.TypeNode m.name
        (resetStaleDatapoint (updateLabelsOfDatapoint ord dp))) ∧
      List.Forall₂ (fun dp o =>
        o.startTimestamp = dp.startTimestamp ∧ o.timestamp = dp.timestamp ∧
        o.DoubleValue = dp.DoubleValue ∧
        ∀ k : String, k ≠ RuntimeTag → k ≠ NeuronCoreAttributeKey →
          k ≠ NeuronDeviceAttributeKey → k ≠ c.MetricType →
          Map.Get o.attributes k = Map.Get dp.attributes k) (first :: rest) outDps ∧
      (c.MetricType ≠ key → ∀ o ∈ outDps,
        (Map.Get o.attributes key).2 = true ∧ (Map.Get o.attributes key).1.Str = value) := by
  -- the rule, and the names the metric differs from
  have hrule : ∃ rule, (metricModificationsMap c).lookup m.name = some rule ∧
      metricModificationsAt c m.name = ⟨[c.TypeNode], "", "", unit⟩ ∧
      m.name ≠ c.NeuronCoreUtilization := by
    rcases hname with ⟨h, _, _, hu⟩ | ⟨h, _, _, hu⟩
    · rw [h, hu]
      have hr := metricModifications_of_mem c hd c.NeuronExecutionLatency
        ⟨[c.TypeNode], "", "", Seconds⟩ (by simp [metricModificationsMap])
      exact ⟨_, hr.1, hr.2, ne_of_distinct c hd 12 9 (by decide)⟩
    · rw [h, hu]
      have hr := metricModifications_of_mem c hd c.NeuronRuntimeMemoryUsage
        ⟨[c.TypeNode], "", "", Bytes⟩ (by simp [metricModificationsMap])
      exact ⟨_, hr.1, hr.2, ne_of_distinct c hd 2 9 (by decide)⟩
  obtain ⟨rule, hlook, hat, hncu⟩ := hrule
  -- the datapoints that the filter keeps
  have hsel : (if m.name = c.NeuronExecutionLatency then
          dps.filter (fun dp => (Map.Get dp.attributes Percentile).2 &&
            decide ((Map.Get dp.attributes Percentile).1.Str = "p50"))
        else if m.name = c.NeuronRuntimeMemoryUsage then
          dps.filter (fun dp => (Map.Get dp.attributes MemoryLocation).2 &&
            decide ((Map.Get dp.attributes MemoryLocation).1.Str = "neuron_device"))
        else dps) = first :: rest := by
    rcases hname with ⟨h, hk, hv, _⟩ | ⟨h, hk, hv, _⟩
    · rw [if_pos h, ← hkept, hk, hv]
    · have hl : ¬ m.name = c.NeuronExecutionLatency := by
        rw [h]
        exact ne_of_distinct c hd 2 12 (by decide)
      rw [if_neg hl, if_pos h, ← hkept, hk, hv]
  obtain ⟨t, mono, hnf, _, _⟩ := normalize_filter c ord m dps hdata
  rw [hsel, hat] at hnf
  generalize hm5 : (⟨m.name, m.description, unit,
      .sum ((first :: rest).map
        (fun dp => resetStaleDatapoint (updateLabelsOfDatapoint ord dp))) t mono⟩ : Metric)
      = m5 at hnf
  have hm5name : m5.name = m.name := by rw [← hm5]
  have hm5data : m5.data = .sum (resetStaleDatapoint (updateLabelsOfDatapoint ord first) ::
      rest.map (fun dp => resetStaleDatapoint (updateLabelsOfDatapoint ord dp))) t mono := by
    rw [← hm5]
    rfl
  have hm5sum : ∀ x ∈ [m5], x.isSum = true := by
    intro x hx
    rw [List.mem_singleton.mp hx]
    simp [Metric.isSum, hm5data]
  have hpod2 : (Map.Get (resetStaleDatapoint
        (updateLabelsOfDatapoint ord first)).attributes PodName).2 = true ∧
      (Map.Get (resetStaleDatapoint
        (updateLabelsOfDatapoint ord first)).attributes PodName).1.Str ≠ "" := by
    rw [Get_normalized_other ord first PodName (by decide) (by decide) (by decide)]
    exact hpod
  have hdup := scoped_duplicates c [m5] m.name
    (resetStaleDatapoint (updateLabelsOfDatapoint ord first))
    (rest.map (fun dp => resetStaleDatapoint (updateLabelsOfDatapoint ord dp)))
    metrics hpod2 hm5sum
  rw [hat] at hdup
  simp only [List.map_cons, List.map_nil, List.flatMap_cons, List.flatMap_nil,
    List.append_nil] at hdup
  -- the call
  have hmod : ModifyMetric c ord m metrics =
      .ok (m5, metrics ++ [duplicateOf c m.name m5 c.TypeNode]) := by
    cases hn : ModifyMetric.normalize c ord m with
    | error e => simp [hn, bind, Except.bind] at hnf
    | ok m4 =>
      have hm4name : m4.name = m.name := by
        rcases hdata with h | ⟨t0, mono0, h⟩
        · rw [normalize_gauge c ord m dps h] at hn
          injection hn with hn
          rw [← hn]
        · rw [normalize_sum c ord m dps t0 mono0 h] at hn
          injection hn with hn
          rw [← hn]
      simp only [hn, bind, Except.bind] at hnf
      simp only [ModifyMetric, hlook, hn, bind, Except.bind]
      rw [transform_filter, hnf]
      simp only [bind, Except.bind, hm5name, if_neg hncu]
      rw [extract_passThrough c ord m5 (by rw [hm5name, hat])]
      simp only [Metric.SumDataPoints, hm5data, hm4name, hdup, pure, Except.pure]
  refine ⟨m5, duplicateOf c m.name m5 c.TypeNode,
    (first :: rest).map (fun dp => stampMetricType c c.TypeNode m.name
      (resetStaleDatapoint (updateLabelsOfDatapoint ord dp))), t, mono, hmod, ?_, ?_, ?_, ?_,
    rfl, ?_, ?_⟩
  · rw [duplicateOf_name, hm5name]
  · intro hnode
    rw [duplicateOf_name, hm5name, hnode, ToLower_Node c]
    rfl
  · rw [← hm5]
    rfl
  · rw [← hm5]
    simp [duplicateOf, List.map_map]
  · rw [List.forall₂_map_right_iff, List.forall₂_same]
    intro dp _
    exact stamped_normalized_spec c ord c.TypeNode m.name dp
  · intro hkey o ho
    obtain ⟨dp, hdp, rfl⟩ := List.mem_map.mp ho
    have hsrc : (Map.Get dp.attributes key).2 = true ∧
        (Map.Get dp.attributes key).1.Str = value := by
      have hmem : dp ∈ dps.filter (fun dp => (Map.Get dp.attributes key).2 &&
          decide ((Map.Get dp.attributes key).1.Str = value)) := by
        rw [hkept]
        exact hdp
      have h2 := (List.mem_filter.mp hmem).2
      simpa using h2
    have hk : key ≠ RuntimeTag ∧ key ≠ NeuronCoreAttributeKey ∧
        key ≠ NeuronDeviceAttributeKey := by
      rcases hname with ⟨_, hk, _, _⟩ | ⟨_, hk, _, _⟩
      · rw [hk]
        decide
      · rw [hk]
        decide
    rw [(stamped_normalized_spec c ord c.TypeNode m.name dp).2.2.2 key hk.1 hk.2.1 hk.2.2
      (Ne.symm hkey)]
    exact hsrc

/-- The latency gauge with samples p99, p50 (with `PodName`) and p50: exactly
`node_neuron_execution_latency` is appended, with unit Seconds and the two p50 samples in
their order. -/
theorem ModifyMetric_filtered_witness :
    upstream.Distinct ∧
    (ModifyMetric upstream RangeOrder.insertion Example.latencyWithPod []).map (fun r => r.2) =
      .ok [⟨"node_neuron_execution_latency", "", "Seconds",
        .sum [Example.dp [("percentile", .str "p50"), ("PodName", .str "pod-1"),
                ("runtime_tag", .str "DEFAULT"), ("Type", .str "NodeAWSNeuron")] 3,
              Example.dp [("percentile", .str "p50"), ("runtime_tag", .str "DEFAULT"),
                ("Type", .str "NodeAWSNeuron")] 9]
          AggregationTemporality.unspecified false⟩] ∧
    ∃ (m2 d : Metric) (outDps : NumberDataPointSlice) (t : AggregationTemporality)
      (mono : Bool),
      ModifyMetric upstream RangeOrder.insertion Example.latencyWithPod [] =
        .ok (m2, [] ++ [d]) ∧
      d.name = "node_" ++ Example.latencyWithPod.name ∧
      d.unit = "Seconds" ∧
      d.data = .sum outDps t mono ∧
      ∀ o ∈ outDps, (Map.Get o.attributes "percentile").2 = true ∧
        (Map.Get o.attributes "percentile").1.Str = "p50" :=
  ⟨by decide, by with_unfolding_all decide,
    let ⟨m2, d, outDps, t, mono, h1, _, h3, h4, h5, _, _, h8⟩ :=
      ModifyMetric_filtered upstream RangeOrder.insertion Example.latencyWithPod
        [Example.dp [("percentile", .str "p99")] 4,
         Example.dp [("percentile", .str "p50"), ("PodName", .str "pod-1")] 3,
         Example.dp [("percentile", .str "p50")] 9]
        (Example.dp [("percentile", .str "p50"), ("PodName", .str "pod-1")] 3)
        [Example.dp [("percentile", .str "p50")] 9] [] "percentile" "p50" "Seconds"
        (by decide) (Or.inl ⟨rfl, rfl, rfl, rfl⟩) (Or.inl rfl)
        (by with_unfolding_all decide) (by decide)
    ⟨m2, d, outDps, t, mono, h1, h3 rfl, h4, h5, h8 (by decide)⟩⟩

/-! ## Auxiliary facts: `strconv.Atoi` and integer division -/

theorem tdiv_le_self_of_nonneg (a n : Int) (ha : 0 ≤ a) (hn : 0 < n) :
    0 ≤ Int.tdiv a n ∧ Int.tdiv a n ≤ a := by
  rw [Int.tdiv_eq_ediv ha (le_of_lt hn)]
  exact ⟨Int.ediv_nonneg ha (le_of_lt hn), Int.ediv_le_self n ha⟩

theorem intDiv_of_pos (a n : Int) (hn : 0 < n) (h1 : -(2 : Int) ^ 63 ≤ a)
    (h2 : a ≤ 2 ^ 63 - 1) : intDiv a n = .ok (Int.tdiv a n) := by
  have hb : -(2 : Int) ^ 63 ≤ Int.tdiv a n ∧ Int.tdiv a n ≤ 2 ^ 63 - 1 := by
    rcases le_total 0 a with ha | ha
    · have h3 := tdiv_le_self_of_nonneg a n ha hn
      constructor <;> omega
    · have ha2 : 0 ≤ -a := by omega
      have h3 := tdiv_le_self_of_nonneg (-a) n ha2 hn
      rw [Int.neg_tdiv] at h3
      constructor <;> omega
  have hn0 : n ≠ 0 := by omega
  simp only [intDiv, hn0, if_false]
  congr 1
  omega

theorem ParseInt_range (s : List Char) :
    -(2 : Int) ^ 63 ≤ (ParseInt s).1 ∧ (ParseInt s).1 ≤ 2 ^ 63 - 1 := by
  unfold ParseInt
  split
  · constructor <;> norm_num
  · simp only
    split
    · constructor <;> norm_num
    · rename_i un _ _ _
      split
      · constructor <;> norm_num
      · split
        · constructor <;> norm_num
        · rename_i h1 h2
          split
          · rename_i hneg
            simp only [hneg, Bool.true_and, decide_eq_true_eq, Bool.not_true, Bool.false_and,
              not_lt] at h1 h2
            constructor
            · have : (un : Int) ≤ 2 ^ 63 := by exact_mod_cast h2
              omega
            · have : (0 : Int) ≤ (un : Int) := Int.ofNat_nonneg un
              omega
          · rename_i hneg
            simp only [hneg, Bool.not_false, Bool.true_and, decide_eq_true_eq, not_le] at h1
            constructor
            · have : (0 : Int) ≤ (un : Int) := Int.ofNat_nonneg un
              omega
            · have : (un : Int) < 2 ^ 63 := by exact_mod_cast h1
              omega

theorem Atoi_range (s : String) :
    -(2 : Int) ^ 63 ≤ (Atoi s).1 ∧ (Atoi s).1 ≤ 2 ^ 63 - 1 :=
  ParseInt_range s.toList

/-! ## The sum aggregator: shape of the output -/

theorem foldl_extractStep_snd (m : Metric) (u : String)
    (mapping : Option (List (String × String))) (dps : NumberDataPointSlice) :
    (dps.foldl (extractStep m u mapping) ([], [])).2 = dps.map (perValueMetric m u) := by
  cases mapping with
  | none => rw [foldl_extractStep_none, List.nil_append]
  | some mp => rw [foldl_extractStep_some, List.nil_append]

theorem rollupMetric_eq (m : Metric) (first : NumberDataPoint) (rest : NumberDataPointSlice)
    (entry : MetricDatapointAggregationKey × Float64) :
    rollupMetric m (first :: rest) entry =
      .ok ⟨entry.1.aggregatedMetricName, "", m.unit,
        .sum [{ first with
          value := NumberValue.double entry.2,
          attributes :=
            if entry.1.deviceId ≠ "" then
              Map.PutStr (Map.PutStr first.attributes RuntimeTag entry.1.runtimeTag)
                NeuronDeviceAttributeKey entry.1.deviceId
            else Map.PutStr first.attributes RuntimeTag entry.1.runtimeTag }]
          AggregationTemporality.cumulative false⟩ := by
  by_cases hdev : entry.1.deviceId = ""
  · simp [rollupMetric, NumberDataPointSlice.At, bind, Except.bind, hdev, setMetricMetadata,
      Metric.new, Metric.SetEmptySum, Metric.withSumDataPoints,
      Metric.SetAggregationTemporality, pure, Except.pure, NumberDataPoint.SetDoubleValue,
      NumberDataPoint.PutStr]
  · simp [rollupMetric, NumberDataPointSlice.At, bind, Except.bind, hdev, setMetricMetadata,
      Metric.new, Metric.SetEmptySum, Metric.withSumDataPoints,
      Metric.SetAggregationTemporality, pure, Except.pure, NumberDataPoint.SetDoubleValue,
      NumberDataPoint.PutStr]

/-- On a sum metric with a discriminant the aggregator returns the per-value metrics
followed by the rollup metrics of the accumulator entries, in the order of the iteration. -/
theorem extract_fanout (c : ContainerInsightsCommon) (ord : RangeOrder) (m : Metric)
    (dps : NumberDataPointSlice) (t : AggregationTemporality) (mono : Bool)
    (hdata : m.data = .sum dps t mono)
    (hu : (metricModificationsAt c m.name).UniqueAttribute ≠ "") :
    ∃ rollups : MetricSlice,
      extractDatapointsAsMetricsAndAggregate c ord m =
        .ok (dps.map (perValueMetric m (metricModificationsAt c m.name).UniqueAttribute)
          ++ rollups) ∧
      List.Forall₂ (fun e r => rollupMetric m dps e = .ok r)
        (ord.order (dps.foldl (extractStep m (metricModificationsAt c m.name).UniqueAttribute
          ((uniquesDatapointsToAggregatedMetricMappings c).lookup m.name)) ([], [])).1)
        rollups := by
  have hroll : ∀ e ∈ ord.order (dps.foldl (extractStep m
        (metricModificationsAt c m.name).UniqueAttribute
        ((uniquesDatapointsToAggregatedMetricMappings c).lookup m.name)) ([], [])).1,
      ∃ r, rollupMetric m dps e = .ok r ∧ rollupMetric m dps e = .ok r := by
    intro e he
    cases dps with
    | nil =>
      have he2 := (ord.perm _).mem_iff.mp he
      simp at he2
    | cons first rest => exact ⟨_, rollupMetric_eq m first rest e, rollupMetric_eq m first rest e⟩
  obtain ⟨rollups, hr1, hr2⟩ := mapRange_forall₂ _ _ _ hroll
  refine ⟨rollups, ?_, hr2⟩
  simp only [extractDatapointsAsMetricsAndAggregate]
  rw [if_neg (by simpa using hu)]
  simp only [Metric.SumDataPoints, hdata, bind, Except.bind, hr1, foldl_extractStep_snd]
  rfl

/-! ## C16: the per-value metrics -/

/-- C16: for a sum metric whose rule has a non-empty discriminant attribute and `n`
datapoints, the sum aggregator returns, and the first `n` metrics of its output are, in
input order, one metric per datapoint: named `<originalName>_<V>` with `V` the
datapoint's discriminant value (the empty string when the attribute is missing), with the
original unit, cumulative temporality, and the datapoint itself as only datapoint. -/
theorem extractDatapointsAsMetricsAndAggregate_perValue (c : ContainerInsightsCommon)
    (ord : RangeOrder) (m : Metric) (dps : NumberDataPointSlice)
    (t : AggregationTemporality) (mono : Bool) (hdata : m.data = .sum dps t mono)
    (hu : (metricModificationsAt c m.name).UniqueAttribute ≠ "") :
    ∃ out : MetricSlice,
      extractDatapointsAsMetricsAndAggregate c ord m = .ok out ∧
      out.take dps.length = dps.map (fun dp =>
        ⟨m.name ++ "_" ++
            (Map.Get dp.attributes (metricModificationsAt c m.name).UniqueAttribute).1.Str,
          "", m.unit, .sum [dp] AggregationTemporality.cumulative false⟩) ∧
      (∀ dp ∈ dps,
        (Map.Get dp.attributes (metricModificationsAt c m.name).UniqueAttribute).2 = false →
        (Map.Get dp.attributes (metricModificationsAt c m.name).UniqueAttribute).1.Str = "") := by
  obtain ⟨rollups, h, _⟩ := extract_fanout c ord m dps t mono hdata hu
  refine ⟨_, h, ?_, ?_⟩
  · have hlen : (dps.map (perValueMetric m
        (metricModificationsAt c m.name).UniqueAttribute)).length = dps.length :=
      List.length_map _ _
    rw [← hlen, List.take_left]
    rfl
  · intro dp _ hmiss
    have h2 : ∀ (attrs : Map) (key : String), (Map.Get attrs key).2 = false →
        (Map.Get attrs key).1 = Value.empty := by
      intro attrs key
      induction attrs with
      | nil => intro _; rfl
      | cons e rest ih =>
        obtain ⟨k, v⟩ := e
        by_cases hk : k = key
        · simp [Map.Get, hk]
        · simp only [Map.Get, hk, if_false]
          exact ih
    rw [h2 _ _ hmiss]
    rfl

/-- The fan-out example: the first three output metrics are the per-value metrics of the
three error counters, in input order. -/
theorem extractDatapointsAsMetricsAndAggregate_perValue_witness :
    (metricModificationsAt upstream Example.errors.name).UniqueAttribute = "error_type" ∧
    ∃ out : MetricSlice,
      extractDatapointsAsMetricsAndAggregate upstream RangeOrder.reversed Example.errors =
        .ok out ∧
      out.take 3 =
        [⟨"neuron_execution_errors_generic", "", "Count",
            .sum [Example.dp [("error_type", .str "generic"), ("runtime_tag", .str "rt1")] 1]
              AggregationTemporality.cumulative false⟩,
         ⟨"neuron_execution_errors_numerical", "", "Count",
            .sum [Example.dp [("error_type", .str "numerical"), ("runtime_tag", .str "rt1")] 2]
              AggregationTemporality.cumulative false⟩,
         ⟨"neuron_execution_errors_transient", "", "Count",
            .sum [Example.dp [("error_type", .str "transient"), ("runtime_tag", .str "rt1")] 3]
              AggregationTemporality.cumulative false⟩] :=
  ⟨by decide,
    let ⟨out, h1, h2, _⟩ :=
      extractDatapointsAsMetricsAndAggregate_perValue upstream RangeOrder.reversed
        Example.errors Example.errorDatapoints AggregationTemporality.unspecified false rfl
        (by decide)
    ⟨out, h1, h2⟩⟩

/-! ## C17: no discriminant -/

/-- C17: for a metric whose rule has an empty discriminant attribute the sum aggregator
returns exactly one metric, the input metric itself (name, unit, shape, temporality and
datapoints); there is no per-value metric and no rollup. -/
theorem extractDatapointsAsMetricsAndAggregate_noDiscriminant (c : ContainerInsightsCommon)
    (ord : RangeOrder) (m : Metric)
    (hu : (metricModificationsAt c m.name).UniqueAttribute = "") :
    extractDatapointsAsMetricsAndAggregate c ord m = .ok [m] :=
  extract_passThrough c ord m hu

/-- The latency metric has no discriminant: the aggregator returns it as it is. -/
theorem extractDatapointsAsMetricsAndAggregate_noDiscriminant_witness :
    (metricModificationsAt upstream Example.latency.name).UniqueAttribute = "" ∧
    extractDatapointsAsMetricsAndAggregate upstream RangeOrder.insertion Example.latency =
      .ok [Example.latency] :=
  ⟨by decide,
    extractDatapointsAsMetricsAndAggregate_noDiscriminant upstream RangeOrder.insertion
      Example.latency (by decide)⟩

/-! ## C18: the rollup metrics -/

/-- C18: on a sum metric with a discriminant, the metrics that follow the per-value
metrics are the rollup metrics of the accumulator entries, one per entry.  The rollup
metric of the entry with key (runtimeTag, rollupName, deviceId) has name rollupName, the
original unit, cumulative temporality, and a single datapoint that is the first input
datapoint with the accumulated value, `runtime_tag` overwritten with runtimeTag and
`NeuronDevice` overwritten with deviceId when deviceId is non-empty; every other
attribute reads as on the first input datapoint, and with an empty deviceId so does
`NeuronDevice`. -/
theorem extractDatapointsAsMetricsAndAggregate_rollupShape (c : ContainerInsightsCommon)
    (ord : RangeOrder) (m : Metric) (dps : NumberDataPointSlice)
    (t : AggregationTemporality) (mono : Bool) (hdata : m.data = .sum dps t mono)
    (hu : (metricModificationsAt c m.name).UniqueAttribute ≠ "") :
    ∃ (entries : List (MetricDatapointAggregationKey × Float64)) (rollups : MetricSlice),
      extractDatapointsAsMetricsAndAggregate c ord m =
        .ok (dps.map (perValueMetric m (metricModificationsAt c m.name).UniqueAttribute)
          ++ rollups) ∧
      entries.Perm (dps.foldl (extractStep m (metricModificationsAt c m.name).UniqueAttribute
          ((uniquesDatapointsToAggregatedMetricMappings c).lookup m.name)) ([], [])).1 ∧
      List.Forall₂ (fun e r =>
        ∃ first dp : NumberDataPoint,
          dps.head? = some first ∧
          r = ⟨e.1.aggregatedMetricName, "", m.unit,
            .sum [dp] AggregationTemporality.cumulative false⟩ ∧
          dp.value = NumberValue.double e.2 ∧
          dp.startTimestamp = first.startTimestamp ∧ dp.timestamp = first.timestamp ∧
          dp.flags = first.flags ∧
          dp.attributes =
            (if e.1.deviceId ≠ "" then
              Map.PutStr (Map.PutStr first.attributes RuntimeTag e.1.runtimeTag)
                NeuronDeviceAttributeKey e.1.deviceId
            else Map.PutStr first.attributes RuntimeTag e.1.runtimeTag) ∧
          Map.Get dp.attributes RuntimeTag = (Value.str e.1.runtimeTag, true) ∧
          (e.1.deviceId ≠ "" →
            Map.Get dp.attributes NeuronDeviceAttributeKey = (Value.str e.1.deviceId, true)) ∧
          (e.1.deviceId = "" →
            Map.Get dp.attributes NeuronDeviceAttributeKey =
              Map.Get first.attributes NeuronDeviceAttributeKey) ∧
          ∀ k : String, k ≠ RuntimeTag → k ≠ NeuronDeviceAttributeKey →
            Map.Get dp.attributes k = Map.Get first.attributes k) entries rollups := by
  obtain ⟨rollups, h, hr⟩ := extract_fanout c ord m dps t mono hdata hu
  refine ⟨_, rollups, h, ord.perm _, ?_⟩
  refine List.Forall₂.imp ?_ hr
  intro e r her
  cases dps with
  | nil => simp [rollupMetric, NumberDataPointSlice.At, bind, Except.bind] at her
  | cons first rest =>
    rw [rollupMetric_eq] at her
    injection her with her
    refine ⟨first, _, rfl, her.symm, rfl, rfl, rfl, rfl, rfl, ?_, ?_, ?_, ?_⟩
    · by_cases hdev : e.1.deviceId = ""
      · simp only [hdev, ne_eq, not_true_eq_false, if_false]
        exact Map.Get_PutStr_same _ _ _
      · simp only [hdev, ne_eq, not_false_eq_true, if_true]
        rw [Map.Get_PutStr_other _ _ _ _ (by decide)]
        exact Map.Get_PutStr_same _ _ _
    · intro hdev
      simp only [hdev, ne_eq, not_false_eq_true, if_true]
      exact Map.Get_PutStr_same _ _ _
    · intro hdev
      simp only [hdev, ne_eq, not_true_eq_false, if_false]
      exact Map.Get_PutStr_other _ _ _ _ (by decide)
    · intro k hk1 hk2
      by_cases hdev : e.1.deviceId = ""
      · simp only [hdev, ne_eq, not_true_eq_false, if_false]
        exact Map.Get_PutStr_other _ _ _ _ (Ne.symm hk1)
      · simp only [hdev, ne_eq, not_false_eq_true, if_true]
        rw [Map.Get_PutStr_other _ _ _ _ (Ne.symm hk2)]
        exact Map.Get_PutStr_other _ _ _ _ (Ne.symm hk1)

/-- The fan-out example: one rollup metric, named `neuron_execution_errors_total`, whose
datapoint is the first input datapoint with value 6 and runtime tag `rt1`. -/
theorem extractDatapointsAsMetricsAndAggregate_rollupShape_witness :
    (metricModificationsAt upstream Example.errors.name).UniqueAttribute ≠ "" ∧
    (Example.errorDatapoints.foldl (extractStep Example.errors "error_type"
        (some Example.errorsMapping)) ([], [])).1 =
      [(⟨"rt1", "neuron_execution_errors_total", ""⟩, Float64.fin 6)] ∧
    ∃ (entries : List (MetricDatapointAggregationKey × Float64)) (rollups : MetricSlice),
      extractDatapointsAsMetricsAndAggregate upstream RangeOrder.insertion Example.errors =
        .ok (Example.errorDatapoints.map (perValueMetric Example.errors
          (metricModificationsAt upstream Example.errors.name).UniqueAttribute) ++ rollups) ∧
      List.Forall₂ (fun e r =>
        ∃ first dp : NumberDataPoint,
          Example.errorDatapoints.head? = some first ∧
          r = ⟨e.1.aggregatedMetricName, "", Example.errors.unit,
            .sum [dp] AggregationTemporality.cumulative false⟩ ∧
          dp.value = NumberValue.double e.2 ∧
          Map.Get dp.attributes RuntimeTag = (Value.str e.1.runtimeTag, true)) entries rollups :=
  ⟨by decide, by with_unfolding_all decide,
    let ⟨entries, rollups, h1, _, h3⟩ :=
      extractDatapointsAsMetricsAndAggregate_rollupShape upstream RangeOrder.insertion
        Example.errors Example.errorDatapoints AggregationTemporality.unspecified false rfl
        (by decide)
    ⟨entries, rollups, h1, h3.imp (fun _ _ ⟨first, dp, a, b, c, _, _, _, _, d, _⟩ =>
      ⟨first, dp, a, b, c, d⟩)⟩⟩

/-! ## The peak aggregator: shape of the output -/

theorem aggregate_cons (ord : RangeOrder) (m : Metric) (first : NumberDataPoint)
    (rest : NumberDataPointSlice) (t : AggregationTemporality) (mono : Bool)
    (hdata : m.data = .sum (first :: rest) t mono) :
    aggregateCoreUtilizationMetrics ord m =
      (mapRange (peakDatapoint first
          (Atoi (Map.Get first.attributes NeuronCoresPerDeviceAttributeKey).1.Str).1)
          (ord.order ((first :: rest).foldl peakStep [])) >>= fun outDps =>
        pure [⟨m.name, "", m.unit, .sum outDps AggregationTemporality.unspecified false⟩]) := by
  have hlen : ¬ ((first :: rest).foldl peakStep []).length = 0 := by
    intro h
    exact foldl_peakStep_ne_nil first rest (List.length_eq_zero.mp h)
  simp only [aggregateCoreUtilizationMetrics, Metric.SumDataPoints, hdata, bind, Except.bind,
    NumberDataPointSlice.At]
  rw [if_neg hlen]
  simp only [List.getElem?_cons_zero]
  generalize mapRange _ _ = r
  cases r <;> rfl

theorem aggregate_nil (ord : RangeOrder) (m : Metric) (t : AggregationTemporality)
    (mono : Bool) (hdata : m.data = .sum [] t mono) :
    aggregateCoreUtilizationMetrics ord m = .ok [] := by
  simp [aggregateCoreUtilizationMetrics, Metric.SumDataPoints, hdata, bind, Except.bind, pure,
    Except.pure]

theorem peakDatapoint_eq (first : NumberDataPoint) (n : Int) (hn : 0 < n)
    (entry : NeuronCoreUtilizationDatapointAggregationKey × Float64) :
    peakDatapoint first n entry =
      .ok { first with
        value := NumberValue.double entry.2,
        attributes := Map.PutStr (Map.PutStr (Map.PutStr (Map.PutStr first.attributes
          RuntimeTag entry.1.runtimeTag) NeuronCoreLabel entry.1.coreID)
          NeuronCoreAttributeKey ("core" ++ entry.1.coreID))
          NeuronDeviceAttributeKey ("device" ++ Itoa (Int.tdiv (Atoi entry.1.coreID).1 n)) } := by
  have hq := intDiv_of_pos (Atoi entry.1.coreID).1 n hn (Atoi_range _).1 (Atoi_range _).2
  simp [peakDatapoint, hq, bind, Except.bind, pure, Except.pure,
    NumberDataPoint.SetDoubleValue, NumberDataPoint.PutStr]

/-! ## C19: one metric, one datapoint per group -/

/-- C19: the claim holds for an input without datapoints (the aggregator returns the empty
slice) and fails on the code for a non-empty input whose first datapoint has no
`neuroncore_per_device_count`: for every iteration order the aggregator panics with an
integer division by zero where one metric should be returned. -/
theorem aggregateCoreUtilizationMetrics_groups_divideByZero :
    (∀ ord : RangeOrder,
      aggregateCoreUtilizationMetrics ord
        ⟨"neuroncore_utilization_ratio", "", "Percent",
          .sum [] AggregationTemporality.unspecified false⟩ = .ok []) ∧
    (∀ ord : RangeOrder,
      aggregateCoreUtilizationMetrics ord Example.utilizationSumNoCount =
        .error Panic.divideByZero) :=
  ⟨fun ord => aggregate_nil ord _ _ _ rfl,
    fun ord => aggregateCoreUtilizationMetrics_divideByZero ord _ _ _ _ _ rfl (by decide)⟩

/-! ## C20: the attributes of the peak datapoints -/

/-- C20, as amended: for a non-empty input whose first datapoint carries a
`neuroncore_per_device_count` that `strconv.Atoi` parses without error to a positive
integer `n`, the peak aggregator returns one metric whose datapoints are those of the
accumulator entries; the datapoint of the group (rt, c) has the attributes of the first
input datapoint except `runtime_tag = rt`, `neuroncore = c`, `NeuronCore = "core" ++ c`
and `NeuronDevice = "device"` followed by the decimal rendering of the truncated quotient
by `n` of the integer that `strconv.Atoi` returns for `c` (the parsed value; the nearest
`int64` as soon as the digits read leave the range, whatever follows them; `0` on any other
string that is not a numeral). -/
theorem aggregateCoreUtilizationMetrics_attributes (ord : RangeOrder) (m : Metric)
    (first : NumberDataPoint) (rest : NumberDataPointSlice) (t : AggregationTemporality)
    (mono : Bool) (n : Int) (hdata : m.data = .sum (first :: rest) t mono)
    (hn : Atoi (Map.Get first.attributes NeuronCoresPerDeviceAttributeKey).1.Str = (n, true))
    (hpos : 0 < n) :
    ∃ (entries : List (NeuronCoreUtilizationDatapointAggregationKey × Float64))
      (outDps : NumberDataPointSlice),
      aggregateCoreUtilizationMetrics ord m =
        .ok [⟨m.name, "", m.unit, .sum outDps AggregationTemporality.unspecified false⟩] ∧
      entries.Perm ((first :: rest).foldl peakStep []) ∧
      List.Forall₂ (fun e dp =>
        Map.Get dp.attributes RuntimeTag = (Value.str e.1.runtimeTag, true) ∧
        Map.Get dp.attributes NeuronCoreLabel = (Value.str e.1.coreID, true) ∧
        Map.Get dp.attributes NeuronCoreAttributeKey =
          (Value.str ("core" ++ e.1.coreID), true) ∧
        Map.Get dp.attributes NeuronDeviceAttributeKey =
          (Value.str ("device" ++ Itoa (Int.tdiv (Atoi e.1.coreID).1 n)), true) ∧
        (∀ k : String, k ≠ RuntimeTag → k ≠ NeuronCoreLabel → k ≠ NeuronCoreAttributeKey →
          k ≠ NeuronDeviceAttributeKey →
          Map.Get dp.attributes k = Map.Get first.attributes k))
        entries outDps := by
  have hn1 : (Atoi (Map.Get first.attributes NeuronCoresPerDeviceAttributeKey).1.Str).1 = n := by
    rw [hn]
  obtain ⟨outDps, ho1, ho2⟩ := mapRange_forall₂
    (peakDatapoint first n)
    (fun e dp => peakDatapoint first n e = .ok dp)
    (ord.order ((first :: rest).foldl peakStep []))
    (fun e _ => ⟨_, peakDatapoint_eq first n hpos e, peakDatapoint_eq first n hpos e⟩)
  refine ⟨_, outDps, ?_, ord.perm _, ?_⟩
  · rw [aggregate_cons ord m first rest t mono hdata, hn1, ho1]
    rfl
  · refine List.Forall₂.imp ?_ ho2
    intro e dp hdp
    rw [peakDatapoint_eq first n hpos e] at hdp
    injection hdp with hdp
    subst hdp
    refine ⟨?_, ?_, ?_, ?_, ?_⟩
    · show Map.Get (Map.PutStr (Map.PutStr (Map.PutStr (Map.PutStr _ RuntimeTag _)
        NeuronCoreLabel _) NeuronCoreAttributeKey _) NeuronDeviceAttributeKey _) RuntimeTag = _
      rw [Map.Get_PutStr_other _ _ _ _ (by decide), Map.Get_PutStr_other _ _ _ _ (by decide),
        Map.Get_PutStr_other _ _ _ _ (by decide)]
      exact Map.Get_PutStr_same _ _ _
    · show Map.Get (Map.PutStr (Map.PutStr (Map.PutStr (Map.PutStr _ RuntimeTag _)
        NeuronCoreLabel _) NeuronCoreAttributeKey _) NeuronDeviceAttributeKey _)
          NeuronCoreLabel = _
      rw [Map.Get_PutStr_other _ _ _ _ (by decide), Map.Get_PutStr_other _ _ _ _ (by decide)]
      exact Map.Get_PutStr_same _ _ _
    · show Map.Get (Map.PutStr (Map.PutStr (Map.PutStr (Map.PutStr _ RuntimeTag _)
        NeuronCoreLabel _) NeuronCoreAttributeKey _) NeuronDeviceAttributeKey _)
          NeuronCoreAttributeKey = _
      rw [Map.Get_PutStr_other _ _ _ _ (by decide)]
      exact Map.Get_PutStr_same _ _ _
    · exact Map.Get_PutStr_same _ _ _
    · intro k h1 h2 h3 h4
      show Map.Get (Map.PutStr (Map.PutStr (Map.PutStr (Map.PutStr _ RuntimeTag _)
        NeuronCoreLabel _) NeuronCoreAttributeKey _) NeuronDeviceAttributeKey _) k = _
      rw [Map.Get_PutStr_other _ _ _ _ (Ne.symm h4), Map.Get_PutStr_other _ _ _ _ (Ne.symm h3),
        Map.Get_PutStr_other _ _ _ _ (Ne.symm h2), Map.Get_PutStr_other _ _ _ _ (Ne.symm h1)]

/-- C20, counterexample: one datapoint with core id 2^63 and one core per device.  The core
id does not parse (`strconv.Atoi` reports a range error) and the cores-per-device count is
the positive integer 1, yet the device attribute of the output datapoint is not
`device0`: the code divides the nearest `int64`, 2^63 - 1. -/
theorem aggregateCoreUtilizationMetrics_attributes_counterexample :
    Atoi "1" = (1, true) ∧
    (Atoi "9223372036854775808").2 = false ∧
    aggregateCoreUtilizationMetrics RangeOrder.insertion Example.utilizationHugeCore =
      .ok [⟨"neuroncore_utilization_ratio", "", "Percent",
        .sum [Example.hugeCoreOutput] AggregationTemporality.unspecified false⟩] ∧
    Map.Get Example.hugeCoreOutput.attributes NeuronCoreLabel =
      (Value.str "9223372036854775808", true) ∧
    Map.Get Example.hugeCoreOutput.attributes NeuronDeviceAttributeKey ≠
      (Value.str ("device" ++ Itoa (Int.tdiv 0 1)), true) := by
  refine ⟨by decide, by decide, by with_unfolding_all decide, by decide, by decide⟩

/-- The peak example, two cores per device: cores 1, 2 and 3 give the devices 0, 1 and 1. -/
theorem aggregateCoreUtilizationMetrics_attributes_witness :
    Atoi (Map.Get Example.utilizationFirst.attributes
      NeuronCoresPerDeviceAttributeKey).1.Str = (2, true) ∧
    ∃ (entries : List (NeuronCoreUtilizationDatapointAggregationKey × Float64))
      (outDps : NumberDataPointSlice),
      aggregateCoreUtilizationMetrics RangeOrder.reversed Example.utilization =
        .ok [⟨Example.utilization.name, "", Example.utilization.unit,
          .sum outDps AggregationTemporality.unspecified false⟩] ∧
      entries.Perm ((Example.utilizationFirst :: Example.utilizationRest).foldl peakStep []) ∧
      List.Forall₂ (fun e dp =>
        Map.Get dp.attributes NeuronCoreAttributeKey =
          (Value.str ("core" ++ e.1.coreID), true) ∧
        Map.Get dp.attributes NeuronDeviceAttributeKey =
          (Value.str ("device" ++ Itoa (Int.tdiv (Atoi e.1.coreID).1 2)), true))
        entries outDps :=
  ⟨by decide,
    let ⟨entries, outDps, h1, h2, h3⟩ :=
      aggregateCoreUtilizationMetrics_attributes RangeOrder.reversed Example.utilization
        Example.utilizationFirst Example.utilizationRest AggregationTemporality.unspecified
        false 2 rfl (by decide) (by decide)
    ⟨entries, outDps, h1, h2, h3.imp (fun _ _ ⟨_, _, c, d, _⟩ => ⟨c, d⟩)⟩⟩

/-! ## C21: one copy of the metric per call -/

/-- C21: on a metric of sum shape `duplicateMetricForType` returns the output collection
with exactly one metric appended.  The appended metric has the name
`ToLower c scope ++ "_" ++ metric.name`, where `ToLower` is Go's `strings.ToLower` (the
letters `A` to `Z` lowered in an ASCII scope, `unicode.ToLower` applied to every rune of any
other scope), and the description, the unit, the aggregation
temporality and the monotonicity of the given metric, and its datapoints correspond one to
one, in order, to those of the given metric: each carries `c.MetricType` set to
`scope ++ "AWSNeuron" ++` the `LogTypeSuffix` of the rule of `originalName`, and has every
other attribute, the value, the flags and the timestamps of its source.  The given metric
is a value that the function does not return, so it is not modified. -/
theorem duplicateMetricForType_copy (c : ContainerInsightsCommon) (metric : Metric)
    (scope originalName : String) (out : MetricSlice) (dps : NumberDataPointSlice)
    (t : AggregationTemporality) (mono : Bool) (hdata : metric.data = .sum dps t mono) :
    ∃ dps2 : NumberDataPointSlice,
      duplicateMetricForType c metric scope originalName out =
        .ok (out ++ [⟨ToLower c scope ++ "_" ++ metric.name, metric.description, metric.unit,
          .sum dps2 t mono⟩]) ∧
      (scope.toList.all (fun ch => decide (ch.val < 128)) = true →
        ToLower c scope = String.mk (scope.toList.map Char.toLower)) ∧
      (scope.toList.all (fun ch => decide (ch.val < 128)) = false →
        ToLower c scope = String.mk (scope.toList.map c.UnicodeToLower)) ∧
      dps2.length = dps.length ∧
      List.Forall₂ (fun dp dp2 =>
        Map.Get dp2.attributes c.MetricType =
          (Value.str (scope ++ "AWSNeuron" ++
            (metricModificationsAt c originalName).LogTypeSuffix), true) ∧
        (∀ k : String, k ≠ c.MetricType →
          Map.Get dp2.attributes k = Map.Get dp.attributes k) ∧
        dp2.value = dp.value ∧ dp2.flags = dp.flags ∧
        dp2.startTimestamp = dp.startTimestamp ∧ dp2.timestamp = dp.timestamp) dps dps2 := by
  refine ⟨dps.map (stampMetricType c scope originalName), ?_, ToLower_ascii c scope,
    ToLower_unicode c scope, List.length_map _ _, ?_⟩
  · have hsum : metric.isSum = true := by simp [Metric.isSum, hdata]
    rw [duplicateMetricForType_sum c metric scope originalName out hsum]
    simp only [duplicateOf, hdata]
  · rw [List.forall₂_map_right_iff]
    apply List.forall₂_same.mpr
    intro dp _
    refine ⟨Map.Get_PutStr_same _ _ _, fun k hk => ?_, rfl, rfl, rfl, rfl⟩
    exact Map.Get_PutStr_other _ _ _ _ (Ne.symm hk)

/-- The latency metric duplicated for the scope `Pod`: the one metric appended is named
`pod_neuron_execution_latency` and every datapoint is stamped `PodAWSNeuron`. -/
theorem duplicateMetricForType_copy_witness :
    Example.latency.data = .sum Example.latencyDatapoints AggregationTemporality.unspecified
      false ∧
    ToLower upstream "Pod" = "pod" ∧
    duplicateMetricForType upstream Example.latency "Pod" "neuron_execution_latency" [] =
      .ok [⟨"pod_neuron_execution_latency", "", "Seconds",
        .sum (Example.latencyDatapoints.map (fun dp =>
          { dp with attributes := dp.attributes ++ [("Type", Value.str "PodAWSNeuron")] }))
          AggregationTemporality.unspecified false⟩] ∧
    ∃ dps2 : NumberDataPointSlice,
      duplicateMetricForType upstream Example.latency "Pod" "neuron_execution_latency" [] =
        .ok ([] ++ [⟨ToLower upstream "Pod" ++ "_" ++ Example.latency.name,
          Example.latency.description, Example.latency.unit,
          .sum dps2 AggregationTemporality.unspecified false⟩]) ∧
      ("Pod".toList.all (fun ch => decide (ch.val < 128)) = true →
        ToLower upstream "Pod" = String.mk ("Pod".toList.map Char.toLower)) ∧
      ("Pod".toList.all (fun ch => decide (ch.val < 128)) = false →
        ToLower upstream "Pod" = String.mk ("Pod".toList.map upstream.UnicodeToLower)) ∧
      dps2.length = Example.latencyDatapoints.length ∧
      List.Forall₂ (fun dp dp2 =>
        Map.Get dp2.attributes upstream.MetricType =
          (Value.str ("Pod" ++ "AWSNeuron" ++
            (metricModificationsAt upstream "neuron_execution_latency").LogTypeSuffix), true) ∧
        (∀ k : String, k ≠ upstream.MetricType →
          Map.Get dp2.attributes k = Map.Get dp.attributes k) ∧
        dp2.value = dp.value ∧ dp2.flags = dp.flags ∧
        dp2.startTimestamp = dp.startTimestamp ∧ dp2.timestamp = dp.timestamp)
        Example.latencyDatapoints dps2 :=
  ⟨rfl, by decide, by decide!,
    duplicateMetricForType_copy upstream Example.latency "Pod" "neuron_execution_latency" []
      Example.latencyDatapoints AggregationTemporality.unspecified false rfl⟩

/-! ## C22: the attribute normaliser -/

theorem Get_absent (m : Map) (key : String) (h : ¬ (Map.Get m key).2 = true) :
    Map.Get m key = (Value.empty, false) := by
  induction m with
  | nil => rfl
  | cons e rest ih =>
    obtain ⟨k, v⟩ := e
    unfold Map.Get at h ⊢
    by_cases hk : k = key
    · simp [hk] at h
    · simp only [hk, if_false] at h ⊢
      exact ih h

theorem Get_prefixAttribute_same (attrs : Map) (entry : String × String) :
    Map.Get (prefixAttribute attrs entry) entry.1 =
      if (Map.Get attrs entry.1).2 = true then
        (Value.str (entry.2 ++ (Map.Get attrs entry.1).1.Str), true)
      else Map.Get attrs entry.1 := by
  unfold prefixAttribute
  by_cases h : (Map.Get attrs entry.1).2 = true
  · simp only [h, if_true]
    exact Map.Get_PutStr_same _ _ _
  · simp only [h]
    rfl

theorem Get_foldl_prefixAttribute_mem (l : List (String × String)) (attrs : Map)
    (hnd : (l.map Prod.fst).Nodup) (e : String × String) (he : e ∈ l) :
    Map.Get (l.foldl prefixAttribute attrs) e.1 =
      if (Map.Get attrs e.1).2 = true then
        (Value.str (e.2 ++ (Map.Get attrs e.1).1.Str), true)
      else Map.Get attrs e.1 := by
  induction l generalizing attrs with
  | nil => exact absurd he (List.not_mem_nil e)
  | cons a rest ih =>
    rw [List.map_cons, List.nodup_cons] at hnd
    rw [List.foldl_cons]
    rcases List.mem_cons.mp he with h | h
    · subst h
      rw [Get_foldl_prefixAttribute_other rest _ e.1, Get_prefixAttribute_same]
      intro x hx hxe
      exact hnd.1 (hxe ▸ List.mem_map_of_mem Prod.fst hx)
    · have hne : a.1 ≠ e.1 := fun hae => hnd.1 (hae ▸ List.mem_map_of_mem Prod.fst h)
      rw [ih _ hnd.2 h, Get_prefixAttribute_other attrs a e.1 hne]

theorem Get_updateLabelsOfDatapoint_prefixed (ord : RangeOrder) (dp : NumberDataPoint)
    (e : String × String) (he : e ∈ attributeValuePrefixingMap) :
    Map.Get (updateLabelsOfDatapoint ord dp).attributes e.1 =
      if (Map.Get dp.attributes e.1).2 = true then
        (Value.str (e.2 ++ (Map.Get dp.attributes e.1).1.Str), true)
      else Map.Get dp.attributes e.1 := by
  have hne : RuntimeTag ≠ e.1 := by
    simp only [attributeValuePrefixingMap, List.mem_cons, List.mem_singleton,
      List.not_mem_nil, or_false] at he
    rcases he with h | h <;> rw [h] <;> decide
  show Map.Get (Map.PutStr _ RuntimeTag RuntimeTagOverride) e.1 = _
  rw [Map.Get_PutStr_other _ _ _ _ hne]
  apply Get_foldl_prefixAttribute_mem
  · exact ((ord.perm attributeValuePrefixingMap).map Prod.fst).nodup_iff.mpr (by decide)
  · exact (ord.perm _).mem_iff.mpr he

theorem Get_updateLabelsOfDatapoint_runtimeTag (ord : RangeOrder) (dp : NumberDataPoint) :
    Map.Get (updateLabelsOfDatapoint ord dp).attributes RuntimeTag =
      (Value.str RuntimeTagOverride, true) :=
  Map.Get_PutStr_same _ _ _

/-- C22: on a metric of sum shape `updateCoreDeviceRuntimeLabels` returns the metric with
the same name, description, unit, temporality and monotonicity, whose datapoints correspond
one to one, in order, to the given ones.  On each datapoint, whatever the iteration order of
the prefixing table: the attribute `NeuronCore`, when present with value `v`, reads
`"core" ++ v` and stays absent otherwise; the attribute `NeuronDevice`, when present with
value `v`, reads `"device" ++ v` and stays absent otherwise; `runtime_tag` reads `DEFAULT`;
every other attribute, the value, the flags and the timestamps are those of the source.  The
value `v` is read with `Str()`. -/
theorem updateCoreDeviceRuntimeLabels_spec (ord : RangeOrder) (m : Metric)
    (dps : NumberDataPointSlice) (t : AggregationTemporality) (mono : Bool)
    (hdata : m.data = .sum dps t mono) :
    ∃ dps2 : NumberDataPointSlice,
      updateCoreDeviceRuntimeLabels ord m =
        .ok ⟨m.name, m.description, m.unit, .sum dps2 t mono⟩ ∧
      dps2.length = dps.length ∧
      List.Forall₂ (fun dp dp2 =>
        Map.Get dp2.attributes "NeuronCore" =
          (if (Map.Get dp.attributes "NeuronCore").2 = true then
            (Value.str ("core" ++ (Map.Get dp.attributes "NeuronCore").1.Str), true)
          else (Value.empty, false)) ∧
        Map.Get dp2.attributes "NeuronDevice" =
          (if (Map.Get dp.attributes "NeuronDevice").2 = true then
            (Value.str ("device" ++ (Map.Get dp.attributes "NeuronDevice").1.Str), true)
          else (Value.empty, false)) ∧
        Map.Get dp2.attributes "runtime_tag" = (Value.str "DEFAULT", true) ∧
        (∀ k : String, k ≠ "NeuronCore" → k ≠ "NeuronDevice" → k ≠ "runtime_tag" →
          Map.Get dp2.attributes k = Map.Get dp.attributes k) ∧
        dp2.value = dp.value ∧ dp2.flags = dp.flags ∧
        dp2.startTimestamp = dp.startTimestamp ∧ dp2.timestamp = dp.timestamp) dps dps2 := by
  refine ⟨dps.map (updateLabelsOfDatapoint ord), ?_, List.length_map _ _, ?_⟩
  · obtain ⟨name, desc, unit, data⟩ := m
    simp only at hdata
    subst hdata
    rfl
  · rw [List.forall₂_map_right_iff]
    apply List.forall₂_same.mpr
    intro dp _
    refine ⟨?_, ?_, Get_updateLabelsOfDatapoint_runtimeTag ord dp, fun k h1 h2 h3 => ?_,
      rfl, rfl, rfl, rfl⟩
    · have h := Get_updateLabelsOfDatapoint_prefixed ord dp ("NeuronCore", "core")
        (by decide)
      rw [h]
      split_ifs with hp
      · rfl
      · exact Get_absent _ _ hp
    · have h := Get_updateLabelsOfDatapoint_prefixed ord dp ("NeuronDevice", "device")
        (by decide)
      rw [h]
      split_ifs with hp
      · rfl
      · exact Get_absent _ _ hp
    · exact Get_updateLabelsOfDatapoint_other ord dp k (Ne.symm h1) (Ne.symm h2) (Ne.symm h3)

/-- A datapoint with `NeuronCore = 3`, without `NeuronDevice`, under the runtime tag `rt1`:
the attributes read `core3`, absent and `DEFAULT`, for the reversed iteration order too. -/
theorem updateCoreDeviceRuntimeLabels_spec_witness :
    (Example.coreLabelled).data =
      .sum [Example.dp [("NeuronCore", .str "3"), ("runtime_tag", .str "rt1")] 7]
        AggregationTemporality.unspecified false ∧
    updateCoreDeviceRuntimeLabels RangeOrder.reversed Example.coreLabelled =
      .ok ⟨"neuron_hardware", "", "",
        .sum [Example.dp [("NeuronCore", .str "core3"), ("runtime_tag", .str "DEFAULT")] 7]
          AggregationTemporality.unspecified false⟩ ∧
    ∃ dps2 : NumberDataPointSlice,
      updateCoreDeviceRuntimeLabels RangeOrder.reversed Example.coreLabelled =
        .ok ⟨Example.coreLabelled.name, Example.coreLabelled.description,
          Example.coreLabelled.unit, .sum dps2 AggregationTemporality.unspecified false⟩ ∧
      dps2.length =
        [Example.dp [("NeuronCore", .str "3"), ("runtime_tag", .str "rt1")] 7].length ∧
      List.Forall₂ (fun dp dp2 =>
        Map.Get dp2.attributes "NeuronCore" =
          (if (Map.Get dp.attributes "NeuronCore").2 = true then
            (Value.str ("core" ++ (Map.Get dp.attributes "NeuronCore").1.Str), true)
          else (Value.empty, false)) ∧
        Map.Get dp2.attributes "NeuronDevice" =
          (if (Map.Get dp.attributes "NeuronDevice").2 = true then
            (Value.str ("device" ++ (Map.Get dp.attributes "NeuronDevice").1.Str), true)
          else (Value.empty, false)) ∧
        Map.Get dp2.attributes "runtime_tag" = (Value.str "DEFAULT", true) ∧
        (∀ k : String, k ≠ "NeuronCore" → k ≠ "NeuronDevice" → k ≠ "runtime_tag" →
          Map.Get dp2.attributes k = Map.Get dp.attributes k) ∧
        dp2.value = dp.value ∧ dp2.flags = dp.flags ∧
        dp2.startTimestamp = dp.startTimestamp ∧ dp2.timestamp = dp.timestamp)
        [Example.dp [("NeuronCore", .str "3"), ("runtime_tag", .str "rt1")] 7] dps2 :=
  ⟨rfl, by with_unfolding_all decide,
    updateCoreDeviceRuntimeLabels_spec RangeOrder.reversed Example.coreLabelled
      [Example.dp [("NeuronCore", .str "3"), ("runtime_tag", .str "rt1")] 7]
      AggregationTemporality.unspecified false rfl⟩

/-! ## C23: the stale resolver -/

/-- C23: on a metric of sum shape `resetStaleDatapoints` returns the metric with the same
name, description, unit, temporality and monotonicity, whose datapoints correspond one to
one, in order, to the given ones.  A datapoint whose value is unset or whose
no-recorded-value flag is set comes out with the double value `DoubleValue()` of the source
(which is `0` unless the source held a double), with `runtime_tag` reading `DEFAULT`, with
the flag cleared, and with every other attribute, the other flag bits and the timestamps of
the source.  Every other datapoint comes out equal to its source. -/
theorem resetStaleDatapoints_spec (m : Metric) (dps : NumberDataPointSlice)
    (t : AggregationTemporality) (mono : Bool) (hdata : m.data = .sum dps t mono) :
    ∃ dps2 : NumberDataPointSlice,
      resetStaleDatapoints m = .ok ⟨m.name, m.description, m.unit, .sum dps2 t mono⟩ ∧
      dps2.length = dps.length ∧
      List.Forall₂ (fun dp dp2 =>
        ((dp.value = NumberValue.empty ∨ dp.flags.noRecordedValue = true) →
          dp2.value = NumberValue.double dp.DoubleValue ∧
          ((∀ d : Float64, dp.value ≠ NumberValue.double d) → dp2.value = NumberValue.double 0) ∧
          Map.Get dp2.attributes "runtime_tag" = (Value.str "DEFAULT", true) ∧
          dp2.flags.noRecordedValue = false ∧
          (∀ k : String, k ≠ "runtime_tag" →
            Map.Get dp2.attributes k = Map.Get dp.attributes k) ∧
          dp2.flags.otherBits = dp.flags.otherBits ∧
          dp2.startTimestamp = dp.startTimestamp ∧ dp2.timestamp = dp.timestamp) ∧
        (¬ (dp.value = NumberValue.empty ∨ dp.flags.noRecordedValue = true) → dp2 = dp))
        dps dps2 := by
  refine ⟨dps.map resetStaleDatapoint, ?_, List.length_map _ _, ?_⟩
  · obtain ⟨name, desc, unit, data⟩ := m
    simp only at hdata
    subst hdata
    rfl
  · rw [List.forall₂_map_right_iff]
    apply List.forall₂_same.mpr
    intro dp _
    constructor
    · intro hs
      have hr : resetStaleDatapoint dp =
          { ((dp.SetDoubleValue dp.DoubleValue).PutStr RuntimeTag RuntimeTagOverride) with
            flags := ((dp.SetDoubleValue dp.DoubleValue).PutStr RuntimeTag
              RuntimeTagOverride).flags.WithNoRecordedValue false } := by
        unfold resetStaleDatapoint
        rw [if_pos hs]
      rw [hr]
      refine ⟨rfl, fun hd => ?_, Map.Get_PutStr_same _ _ _, rfl, fun k hk => ?_, rfl, rfl, rfl⟩
      · show NumberValue.double dp.DoubleValue = NumberValue.double 0
        unfold NumberDataPoint.DoubleValue
        cases hv : dp.value with
        | empty => rfl
        | double d => exact absurd hv (hd d)
        | int i => rfl
      · exact Map.Get_PutStr_other _ _ _ _ (Ne.symm hk)
    · intro hs
      unfold resetStaleDatapoint
      rw [if_neg hs]

/-- Example with a stale datapoint without value, a flagged datapoint with an integer value
and a live datapoint: the first two come out with value `0`, tag `DEFAULT` and the flag
cleared, the third unchanged. -/
theorem resetStaleDatapoints_spec_witness :
    resetStaleDatapoints Example.partlyStale =
      .ok ⟨"neuron_hardware", "", "",
        .sum [⟨[("runtime_tag", .str "DEFAULT")], 5, 6, NumberValue.double 0, ⟨false, 0⟩⟩,
          ⟨[("runtime_tag", .str "DEFAULT")], 5, 6, NumberValue.double 0, ⟨false, 2⟩⟩,
          Example.dp [("runtime_tag", .str "rt3")] 8]
          AggregationTemporality.unspecified false⟩ ∧
    ∃ dps2 : NumberDataPointSlice,
      resetStaleDatapoints Example.partlyStale =
        .ok ⟨Example.partlyStale.name, Example.partlyStale.description,
          Example.partlyStale.unit, .sum dps2 AggregationTemporality.unspecified false⟩ ∧
      dps2.length = 3 ∧
      List.Forall₂ (fun dp dp2 =>
        ((dp.value = NumberValue.empty ∨ dp.flags.noRecordedValue = true) →
          dp2.value = NumberValue.double dp.DoubleValue ∧
          ((∀ d : Float64, dp.value ≠ NumberValue.double d) → dp2.value = NumberValue.double 0) ∧
          Map.Get dp2.attributes "runtime_tag" = (Value.str "DEFAULT", true) ∧
          dp2.flags.noRecordedValue = false ∧
          (∀ k : String, k ≠ "runtime_tag" →
            Map.Get dp2.attributes k = Map.Get dp.attributes k) ∧
          dp2.flags.otherBits = dp.flags.otherBits ∧
          dp2.startTimestamp = dp.startTimestamp ∧ dp2.timestamp = dp.timestamp) ∧
        (¬ (dp.value = NumberValue.empty ∨ dp.flags.noRecordedValue = true) → dp2 = dp))
        [Example.staleDatapoint,
          ⟨[("runtime_tag", .str "rt2")], 5, 6, NumberValue.int 4, ⟨true, 2⟩⟩,
          Example.dp [("runtime_tag", .str "rt3")] 8] dps2 :=
  ⟨by with_unfolding_all decide,
    resetStaleDatapoints_spec Example.partlyStale
      [Example.staleDatapoint,
        ⟨[("runtime_tag", .str "rt2")], 5, 6, NumberValue.int 4, ⟨true, 2⟩⟩,
        Example.dp [("runtime_tag", .str "rt3")] 8]
      AggregationTemporality.unspecified false rfl⟩

/-! ## The runtime tag through `ModifyMetric` -/

theorem mapRange_inv {α β : Type} (f : α → Result β) (l : List α) (bs : List β)
    (h : mapRange f l = .ok bs) : List.Forall₂ (fun a b => f a = .ok b) l bs := by
  induction l generalizing bs with
  | nil =>
    simp only [mapRange, Except.ok.injEq] at h
    subst h
    exact List.Forall₂.nil
  | cons a rest ih =>
    unfold mapRange at h
    cases hfa : f a with
    | error e => simp [hfa] at h
    | ok b =>
      cases hr : mapRange f rest with
      | error e => simp [hfa, hr] at h
      | ok bs2 =>
        simp only [hfa, hr, Except.ok.injEq] at h
        subst h
        exact List.Forall₂.cons hfa (ih bs2 hr)

theorem forall₂_mem_right {α β : Type} {R : α → β → Prop} {l : List α} {bs : List β}
    (h : List.Forall₂ R l bs) (b : β) (hb : b ∈ bs) : ∃ a ∈ l, R a b := by
  induction h with
  | nil => exact absurd hb (List.not_mem_nil b)
  | cons h1 _ ih =>
    rcases List.mem_cons.mp hb with hb1 | hb1
    · subst hb1
      exact ⟨_, List.mem_cons_self _ _, h1⟩
    · obtain ⟨a, ha, hR⟩ := ih hb1
      exact ⟨a, List.mem_cons_of_mem _ ha, hR⟩

theorem Get_normalized_runtimeTag (ord : RangeOrder) (dp : NumberDataPoint) :
    Map.Get (resetStaleDatapoint (updateLabelsOfDatapoint ord dp)).attributes RuntimeTag =
      (Value.str RuntimeTagOverride, true) := by
  unfold resetStaleDatapoint
  split
  · exact Map.Get_PutStr_same _ _ _
  · exact Map.Get_PutStr_same _ _ _

theorem normalize_runtimeDefault (c : ContainerInsightsCommon) (ord : RangeOrder)
    (m m4 : Metric) (h : ModifyMetric.normalize c ord m = .ok m4) :
    m4.name = m.name ∧ m4.RuntimeDefault := by
  have hall : ∀ (dps : NumberDataPointSlice),
      ∀ dp ∈ dps.map (fun dp => resetStaleDatapoint (updateLabelsOfDatapoint ord dp)),
        Map.Get dp.attributes RuntimeTag = (Value.str RuntimeTagOverride, true) := by
    intro dps dp hdp
    obtain ⟨x, _, hx⟩ := List.mem_map.mp hdp
    rw [← hx]
    exact Get_normalized_runtimeTag ord x
  cases hdata : m.data with
  | sum dps t mono =>
    rw [normalize_sum c ord m dps t mono hdata] at h
    injection h with h
    subst h
    exact ⟨rfl, _, _, _, rfl, hall dps⟩
  | gauge dps =>
    rw [normalize_gauge c ord m dps hdata] at h
    injection h with h
    subst h
    exact ⟨rfl, _, _, _, rfl, hall dps⟩
  | empty =>
    simp [ModifyMetric.normalize, Metric.isGauge, hdata, addUnit,
      updateCoreDeviceRuntimeLabels, Metric.SumDataPoints, bind, Except.bind, pure,
      Except.pure] at h
  | other =>
    simp [ModifyMetric.normalize, Metric.isGauge, hdata, addUnit,
      updateCoreDeviceRuntimeLabels, Metric.SumDataPoints, bind, Except.bind, pure,
      Except.pure] at h

theorem keepSpecific_runtimeDefault (m4 m5 : Metric) (key value : String)
    (hP : m4.RuntimeDefault)
    (h : keepSpecificDatapointBasedOnAttribute m4 key value = .ok m5) :
    m5.name = m4.name ∧ m5.RuntimeDefault := by
  obtain ⟨name, desc, unit, data⟩ := m4
  obtain ⟨dps, t, mono, hdata, hall⟩ := hP
  simp only at hdata
  subst hdata
  rw [keepSpecific_sum] at h
  injection h with h
  subst h
  exact ⟨rfl, _, _, _, rfl, fun dp hdp => hall dp (List.mem_filter.mp hdp).1⟩

theorem filter_runtimeDefault (c : ContainerInsightsCommon) (m4 m5 : Metric)
    (hP : m4.RuntimeDefault) (h : ModifyMetric.filter c m4 = .ok m5) :
    m5.name = m4.name ∧ m5.RuntimeDefault := by
  unfold ModifyMetric.filter at h
  split_ifs at h
  · exact keepSpecific_runtimeDefault m4 m5 _ _ hP h
  · exact keepSpecific_runtimeDefault m4 m5 _ _ hP h
  · simp only [pure, Except.pure, Except.ok.injEq] at h
    subst h
    exact ⟨rfl, hP⟩

theorem peakKey_runtimeTag (dps : NumberDataPointSlice)
    (hall : ∀ dp ∈ dps, Map.Get dp.attributes RuntimeTag = (Value.str RuntimeTagOverride, true))
    (e : NeuronCoreUtilizationDatapointAggregationKey × Float64) (he : e ∈ dps.foldl peakStep []) :
    e.1.runtimeTag = RuntimeTagOverride := by
  have h1 : e.1 ∈ (dps.foldl peakStep []).map Prod.fst := List.mem_map_of_mem Prod.fst he
  rw [peakStep_eq] at h1
  rcases (mem_keys_foldl_upsert peakKey _ dps [] e.1).mp h1 with h2 | ⟨dp, hdp, hk⟩
  · simp at h2
  · rw [← hk]
    show (Map.Get dp.attributes RuntimeTag).1.Str = _
    rw [hall dp hdp]
    rfl

theorem sumKey_runtimeTag (m : Metric) (u : String) (mapping : Option (List (String × String)))
    (dps : NumberDataPointSlice)
    (hall : ∀ dp ∈ dps, Map.Get dp.attributes RuntimeTag = (Value.str RuntimeTagOverride, true))
    (e : MetricDatapointAggregationKey × Float64)
    (he : e ∈ (dps.foldl (extractStep m u mapping) ([], [])).1) :
    e.1.runtimeTag = RuntimeTagOverride := by
  cases mapping with
  | none =>
    rw [foldl_extractStep_none] at he
    exact absurd he (List.not_mem_nil e)
  | some mp =>
    rw [foldl_extractStep_some] at he
    have h1 := List.mem_map_of_mem Prod.fst he
    rcases (mem_keys_foldl_upsert (sumKey u mp) _ dps [] e.1).mp h1 with h2 | ⟨dp, hdp, hk⟩
    · simp at h2
    · rw [← hk]
      show (Map.Get dp.attributes RuntimeTag).1.Str = _
      rw [hall dp hdp]
      rfl


theorem aggregate_runtimeDefault (ord : RangeOrder) (m5 : Metric) (slice : MetricSlice)
    (hP : m5.RuntimeDefault) (h : aggregateCoreUtilizationMetrics ord m5 = .ok slice) :
    ∀ s ∈ slice, s.RuntimeDefault := by
  obtain ⟨dps, t, mono, hdata, hall⟩ := hP
  cases dps with
  | nil =>
    rw [aggregate_nil ord m5 t mono hdata] at h
    injection h with h
    subst h
    intro s hs
    exact absurd hs (List.not_mem_nil s)
  | cons first rest =>
    rw [aggregate_cons ord m5 first rest t mono hdata] at h
    cases hm : mapRange (peakDatapoint first
        (Atoi (Map.Get first.attributes NeuronCoresPerDeviceAttributeKey).1.Str).1)
        (ord.order ((first :: rest).foldl peakStep [])) with
    | error e =>
      rw [hm] at h
      simp [bind, Except.bind] at h
    | ok outDps =>
      rw [hm] at h
      simp only [bind, Except.bind, pure, Except.pure, Except.ok.injEq] at h
      subst h
      intro s hs
      rw [List.mem_singleton] at hs
      subst hs
      refine ⟨outDps, _, _, rfl, fun dp hdp => ?_⟩
      obtain ⟨e, he, hpd⟩ := forall₂_mem_right (mapRange_inv _ _ _ hm) dp hdp
      have he2 : e ∈ (first :: rest).foldl peakStep [] := (ord.perm _).mem_iff.mp he
      have hrt := peakKey_runtimeTag (first :: rest) hall e he2
      unfold peakDatapoint at hpd
      cases hdiv : intDiv (Atoi e.1.coreID).1
          (Atoi (Map.Get first.attributes NeuronCoresPerDeviceAttributeKey).1.Str).1 with
      | error err => simp [hdiv, bind, Except.bind] at hpd
      | ok q =>
        simp only [hdiv, bind, Except.bind, pure, Except.pure, Except.ok.injEq] at hpd
        subst hpd
        show Map.Get (Map.PutStr (Map.PutStr (Map.PutStr (Map.PutStr _ RuntimeTag _)
          NeuronCoreLabel _) NeuronCoreAttributeKey _) NeuronDeviceAttributeKey _) RuntimeTag = _
        rw [Map.Get_PutStr_other _ _ _ _ (by decide), Map.Get_PutStr_other _ _ _ _ (by decide),
          Map.Get_PutStr_other _ _ _ _ (by decide), Map.Get_PutStr_same, hrt]

theorem perValueMetric_runtimeDefault (m : Metric) (u : String) (dp : NumberDataPoint)
    (h : Map.Get dp.attributes RuntimeTag = (Value.str RuntimeTagOverride, true)) :
    (perValueMetric m u dp).RuntimeDefault := by
  refine ⟨[dp], AggregationTemporality.cumulative, false, rfl, fun x hx => ?_⟩
  rw [List.mem_singleton] at hx
  rw [hx]
  exact h

theorem rollupMetric_runtimeDefault (m : Metric) (dps : NumberDataPointSlice)
    (e : MetricDatapointAggregationKey × Float64) (r : Metric)
    (hrt : e.1.runtimeTag = RuntimeTagOverride) (h : rollupMetric m dps e = .ok r) :
    r.RuntimeDefault := by
  cases dps with
  | nil => simp [rollupMetric, NumberDataPointSlice.At, bind, Except.bind] at h
  | cons first rest =>
    rw [rollupMetric_eq] at h
    injection h with h
    subst h
    refine ⟨_, _, _, rfl, fun x hx => ?_⟩
    rw [List.mem_singleton] at hx
    rw [hx]
    show Map.Get (if e.1.deviceId ≠ "" then _ else _) RuntimeTag = _
    split_ifs
    · rw [Map.Get_PutStr_other _ _ _ _ (by decide), Map.Get_PutStr_same, hrt]
    · rw [Map.Get_PutStr_same, hrt]

theorem extract_runtimeDefault (c : ContainerInsightsCommon) (ord : RangeOrder) (m5 : Metric)
    (slice : MetricSlice) (hP : m5.RuntimeDefault)
    (h : extractDatapointsAsMetricsAndAggregate c ord m5 = .ok slice) :
    ∀ s ∈ slice, s.RuntimeDefault := by
  by_cases hu : (metricModificationsAt c m5.name).UniqueAttribute = ""
  · rw [extract_passThrough c ord m5 hu] at h
    injection h with h
    subst h
    intro s hs
    rw [List.mem_singleton] at hs
    rw [hs]
    exact hP
  · obtain ⟨dps, t, mono, hdata, hall⟩ := hP
    obtain ⟨rollups, hex, hf⟩ := extract_fanout c ord m5 dps t mono hdata hu
    rw [hex] at h
    injection h with h
    subst h
    intro s hs
    rcases List.mem_append.mp hs with h1 | h1
    · obtain ⟨dp, hdp, hx⟩ := List.mem_map.mp h1
      rw [← hx]
      exact perValueMetric_runtimeDefault m5 _ dp (hall dp hdp)
    · obtain ⟨e, he, hr⟩ := forall₂_mem_right hf s h1
      have he2 := (ord.perm _).mem_iff.mp he
      exact rollupMetric_runtimeDefault m5 dps e s
        (sumKey_runtimeTag m5 _ _ dps hall e he2) hr

theorem duplicateOf_runtimeDefault (c : ContainerInsightsCommon) (name : String)
    (metric : Metric) (scope : String) (hmt : c.MetricType ≠ RuntimeTag)
    (hP : metric.RuntimeDefault) : (duplicateOf c name metric scope).RuntimeDefault := by
  obtain ⟨dps, t, mono, hdata, hall⟩ := hP
  refine ⟨dps.map (stampMetricType c scope name), t, mono, ?_, fun dp hdp => ?_⟩
  · simp only [duplicateOf, hdata]
  · obtain ⟨x, hx, hxe⟩ := List.mem_map.mp hdp
    rw [← hxe]
    show Map.Get (Map.PutStr _ c.MetricType _) RuntimeTag = _
    rw [Map.Get_PutStr_other _ _ _ _ hmt]
    exact hall x hx

theorem duplicateMetricForType_runtimeDefault (c : ContainerInsightsCommon) (metric : Metric)
    (scope name : String) (out r : MetricSlice) (hmt : c.MetricType ≠ RuntimeTag)
    (hP : metric.RuntimeDefault)
    (h : duplicateMetricForType c metric scope name out = .ok r) :
    ∃ appended, r = out ++ appended ∧ ∀ d ∈ appended, d.RuntimeDefault := by
  have hsum : metric.isSum = true := by
    obtain ⟨dps, t, mono, hdata, _⟩ := hP
    simp [Metric.isSum, hdata]
  rw [duplicateMetricForType_sum c metric scope name out hsum] at h
  injection h with h
  refine ⟨_, h.symm, fun d hd => ?_⟩
  rw [List.mem_singleton] at hd
  rw [hd]
  exact duplicateOf_runtimeDefault c name metric scope hmt hP

theorem foldlM_appended {α : Type} (Q : Metric → Prop) (f : MetricSlice → α → Result MetricSlice)
    (l : List α)
    (hf : ∀ a ∈ l, ∀ out r, f out a = .ok r →
      ∃ appended, r = out ++ appended ∧ ∀ d ∈ appended, Q d)
    (metrics r : MetricSlice) (h : l.foldlM f metrics = .ok r) :
    ∃ appended, r = metrics ++ appended ∧ ∀ d ∈ appended, Q d := by
  induction l generalizing metrics with
  | nil =>
    simp only [List.foldlM_nil, pure, Except.pure, Except.ok.injEq] at h
    exact ⟨[], by rw [← h, List.append_nil], fun d hd => absurd hd (List.not_mem_nil d)⟩
  | cons a rest ih =>
    rw [List.foldlM_cons] at h
    cases hfa : f metrics a with
    | error e => simp [hfa, bind, Except.bind] at h
    | ok mid =>
      simp only [hfa, bind, Except.bind] at h
      obtain ⟨app1, h1, hq1⟩ := hf a (List.mem_cons_self a rest) metrics mid hfa
      obtain ⟨app2, h2, hq2⟩ :=
        ih (fun x hx => hf x (List.mem_cons_of_mem a hx)) mid h
      refine ⟨app1 ++ app2, by rw [h2, h1, List.append_assoc], fun d hd => ?_⟩
      rcases List.mem_append.mp hd with hd1 | hd1
      · exact hq1 d hd1
      · exact hq2 d hd1

theorem duplicateMetrics_runtimeDefault (c : ContainerInsightsCommon) (slice : MetricSlice)
    (name : String) (dps : NumberDataPointSlice) (metrics r : MetricSlice)
    (hmt : c.MetricType ≠ RuntimeTag) (hP : ∀ s ∈ slice, s.RuntimeDefault)
    (h : duplicateMetrics c slice name dps metrics = .ok r) :
    ∃ appended, r = metrics ++ appended ∧ ∀ d ∈ appended, d.RuntimeDefault := by
  rw [duplicateMetrics_flag] at h
  cases hflag : duplicateForNodeOnly dps with
  | error e => simp [hflag, bind, Except.bind] at h
  | ok flag =>
    simp only [hflag, bind, Except.bind] at h
    refine foldlM_appended _ _ slice ?_ metrics r h
    intro metric hm out r2 h2
    by_cases hf : flag = true
    · simp only [hf, if_true] at h2
      exact duplicateMetricForType_runtimeDefault c metric _ _ out r2 hmt (hP metric hm) h2
    · simp only [hf] at h2
      exact foldlM_appended _ _ _ (fun s _ o r3 h3 =>
        duplicateMetricForType_runtimeDefault c metric s _ o r3 hmt (hP metric hm) h3) out r2 h2

theorem transform_runtimeDefault (c : ContainerInsightsCommon) (ord : RangeOrder)
    (m4 : Metric) (metrics : MetricSlice) (r : Metric × MetricSlice)
    (hmt : c.MetricType ≠ RuntimeTag) (hP : m4.RuntimeDefault)
    (h : ModifyMetric.transform c ord m4 metrics = .ok r) :
    ∃ appended, r.2 = metrics ++ appended ∧ ∀ d ∈ appended, d.RuntimeDefault := by
  rw [transform_filter] at h
  cases h1 : ModifyMetric.filter c m4 with
  | error e => simp [h1, bind, Except.bind] at h
  | ok m5 =>
    simp only [h1, bind, Except.bind] at h
    have hP5 := (filter_runtimeDefault c m4 m5 hP h1).2
    cases h2 : (if m5.name = c.NeuronCoreUtilization then
        aggregateCoreUtilizationMetrics ord m5
        else extractDatapointsAsMetricsAndAggregate c ord m5) with
    | error e => simp [h2] at h
    | ok slice =>
      simp only [h2] at h
      have hslice : ∀ s ∈ slice, s.RuntimeDefault := by
        split_ifs at h2
        · exact aggregate_runtimeDefault ord m5 slice hP5 h2
        · exact extract_runtimeDefault c ord m5 slice hP5 h2
      cases h3 : m5.SumDataPoints with
      | error e => simp [h3] at h
      | ok dps =>
        simp only [h3] at h
        cases h4 : duplicateMetrics c slice m4.name dps metrics with
        | error e => simp [h4] at h
        | ok out =>
          simp only [h4, pure, Except.pure, Except.ok.injEq] at h
          obtain ⟨appended, h5, h6⟩ :=
            duplicateMetrics_runtimeDefault c slice _ dps metrics out hmt hslice h4
          exact ⟨appended, by rw [← h, h5], h6⟩

theorem nodup_map_of_runtimeTag {κ κ2 : Type} (tag : κ → String) (proj : κ → κ2)
    (hinj : ∀ a b : κ, tag a = tag b → proj a = proj b → a = b)
    (acc : List (κ × Float64)) (hnd : (acc.map Prod.fst).Nodup)
    (htag : ∀ e ∈ acc, tag e.1 = RuntimeTagOverride) :
    (acc.map (fun e => proj e.1)).Nodup := by
  have h : acc.map (fun e => proj e.1) = (acc.map Prod.fst).map proj := by
    rw [List.map_map]
    rfl
  rw [h]
  apply List.Nodup.map_on _ hnd
  intro x hx y hy hxy
  obtain ⟨ex, hex, hex2⟩ := List.mem_map.mp hx
  obtain ⟨ey, hey, hey2⟩ := List.mem_map.mp hy
  apply hinj x y _ hxy
  rw [← hex2, ← hey2, htag ex hex, htag ey hey]

theorem nodup_keys_extractStep (m : Metric) (u : String)
    (mapping : Option (List (String × String))) (dps : NumberDataPointSlice) :
    ((dps.foldl (extractStep m u mapping) ([], [])).1.map Prod.fst).Nodup := by
  cases mapping with
  | none =>
    rw [foldl_extractStep_none]
    exact List.nodup_nil
  | some mp =>
    rw [foldl_extractStep_some]
    exact nodup_keys_foldl_upsert _ _ dps [] List.nodup_nil

theorem nodup_keys_peakStep (dps : NumberDataPointSlice) :
    ((dps.foldl peakStep []).map Prod.fst).Nodup := by
  rw [peakStep_eq]
  exact nodup_keys_foldl_upsert _ _ dps [] List.nodup_nil

/-! ## C24: the runtime tag of every appended datapoint -/

/-- C24: for a registered metric, and constants whose classification key is not
`runtime_tag`, whenever `ModifyMetric` returns, every metric that it appended to the output
collection is of sum shape and each of its datapoints carries `runtime_tag = DEFAULT`,
whatever the attributes of the input datapoints.  Moreover the datapoints that
`ModifyMetric` hands to its aggregator (those left by the normalisation and the selective
filter) give accumulators whose keys all carry the runtime tag `DEFAULT`: the sum
accumulator holds at most one entry per (rollup name, device id) and the peak accumulator at
most one entry per core id. -/
theorem ModifyMetric_runtimeTag (c : ContainerInsightsCommon) (ord : RangeOrder)
    (m : Metric) (metrics : MetricSlice) (rule : MetricModifications)
    (hreg : (metricModificationsMap c).lookup m.name = some rule)
    (hmt : c.MetricType ≠ "runtime_tag") :
    (∀ r, ModifyMetric c ord m metrics = .ok r →
      ∃ appended, r.2 = metrics ++ appended ∧
        ∀ d ∈ appended, ∃ dps t mono, d.data = .sum dps t mono ∧
          ∀ dp ∈ dps, Map.Get dp.attributes "runtime_tag" = (Value.str "DEFAULT", true)) ∧
    (∀ m5 dps5, (ModifyMetric.normalize c ord m >>= ModifyMetric.filter c) = .ok m5 →
      m5.SumDataPoints = .ok dps5 →
      (∀ e ∈ (dps5.foldl (extractStep m5 (metricModificationsAt c m5.name).UniqueAttribute
          ((uniquesDatapointsToAggregatedMetricMappings c).lookup m5.name)) ([], [])).1,
        e.1.runtimeTag = "DEFAULT") ∧
      ((dps5.foldl (extractStep m5 (metricModificationsAt c m5.name).UniqueAttribute
          ((uniquesDatapointsToAggregatedMetricMappings c).lookup m5.name)) ([], [])).1.map
        (fun e => (e.1.aggregatedMetricName, e.1.deviceId))).Nodup ∧
      (∀ e ∈ dps5.foldl peakStep [], e.1.runtimeTag = "DEFAULT") ∧
      ((dps5.foldl peakStep []).map (fun e => e.1.coreID)).Nodup) := by
  constructor
  · intro r h
    unfold ModifyMetric at h
    simp only [hreg, bind, Except.bind] at h
    cases hn : ModifyMetric.normalize c ord m with
    | error e => simp [hn] at h
    | ok m4 =>
      simp only [hn] at h
      exact transform_runtimeDefault c ord m4 metrics r hmt
        (normalize_runtimeDefault c ord m m4 hn).2 h
  · intro m5 dps5 h5 hdps
    cases hn : ModifyMetric.normalize c ord m with
    | error e => simp [hn, bind, Except.bind] at h5
    | ok m4 =>
      simp only [hn, bind, Except.bind] at h5
      obtain ⟨dps, t, mono, hdata, hall⟩ :=
        (filter_runtimeDefault c m4 m5 (normalize_runtimeDefault c ord m m4 hn).2 h5).2
      simp only [Metric.SumDataPoints, hdata, Except.ok.injEq] at hdps
      subst hdps
      have hs := sumKey_runtimeTag m5 (metricModificationsAt c m5.name).UniqueAttribute
        ((uniquesDatapointsToAggregatedMetricMappings c).lookup m5.name) dps hall
      have hp := peakKey_runtimeTag dps hall
      refine ⟨hs, ?_, hp, ?_⟩
      · refine nodup_map_of_runtimeTag MetricDatapointAggregationKey.runtimeTag
          (fun k => (k.aggregatedMetricName, k.deviceId)) ?_ _
          (nodup_keys_extractStep _ _ _ dps) hs
        intro a b hab hproj
        obtain ⟨a1, a2, a3⟩ := a
        obtain ⟨b1, b2, b3⟩ := b
        simp only [Prod.mk.injEq] at hab hproj
        rw [hab, hproj.1, hproj.2]
      · refine nodup_map_of_runtimeTag NeuronCoreUtilizationDatapointAggregationKey.runtimeTag
          (fun k => k.coreID) ?_ _ (nodup_keys_peakStep dps) hp
        intro a b hab hproj
        obtain ⟨a1, a2⟩ := a
        obtain ⟨b1, b2⟩ := b
        simp only at hab hproj
        rw [hab, hproj]

/-- The error counters, which arrive under the runtime tag `rt1`: `ModifyMetric` returns and
appends four metrics, for the reversed iteration order too. -/
theorem ModifyMetric_runtimeTag_witness :
    (metricModificationsMap upstream).lookup Example.errors.name =
      some (metricModificationsAt upstream Example.errors.name) ∧
    upstream.MetricType ≠ "runtime_tag" ∧
    (ModifyMetric upstream RangeOrder.reversed Example.errors []).map
        (fun r => r.2.map Metric.name) =
      .ok ["node_neuron_execution_errors_generic", "node_neuron_execution_errors_numerical",
        "node_neuron_execution_errors_transient", "node_neuron_execution_errors_total"] ∧
    (∀ r, ModifyMetric upstream RangeOrder.reversed Example.errors [] = .ok r →
      ∃ appended, r.2 = [] ++ appended ∧
        ∀ d ∈ appended, ∃ dps t mono, d.data = .sum dps t mono ∧
          ∀ dp ∈ dps, Map.Get dp.attributes "runtime_tag" = (Value.str "DEFAULT", true)) ∧
    (∀ m5 dps5,
      (ModifyMetric.normalize upstream RangeOrder.reversed Example.errors >>=
        ModifyMetric.filter upstream) = .ok m5 →
      m5.SumDataPoints = .ok dps5 →
      (∀ e ∈ (dps5.foldl (extractStep m5 (metricModificationsAt upstream m5.name).UniqueAttribute
          ((uniquesDatapointsToAggregatedMetricMappings upstream).lookup m5.name)) ([], [])).1,
        e.1.runtimeTag = "DEFAULT") ∧
      ((dps5.foldl (extractStep m5 (metricModificationsAt upstream m5.name).UniqueAttribute
          ((uniquesDatapointsToAggregatedMetricMappings upstream).lookup m5.name)) ([], [])).1.map
        (fun e => (e.1.aggregatedMetricName, e.1.deviceId))).Nodup ∧
      (∀ e ∈ dps5.foldl peakStep [], e.1.runtimeTag = "DEFAULT") ∧
      ((dps5.foldl peakStep []).map (fun e => e.1.coreID)).Nodup) :=
  ⟨by decide, by decide, by with_unfolding_all decide,
    ModifyMetric_runtimeTag upstream RangeOrder.reversed Example.errors []
      (metricModificationsAt upstream Example.errors.name) (by decide) (by decide)⟩

/-! ## C25: the rollups and the total -/

theorem rollupMetric_valueSum (m : Metric) (dps : NumberDataPointSlice)
    (e : MetricDatapointAggregationKey × Float64) (r : Metric)
    (h : rollupMetric m dps e = .ok r) : r.valueSum = e.2.toRat := by
  cases dps with
  | nil => simp [rollupMetric, NumberDataPointSlice.At, bind, Except.bind] at h
  | cons first rest =>
    rw [rollupMetric_eq] at h
    injection h with h
    subst h
    simp [Metric.valueSum, NumberDataPoint.DoubleValue]

theorem forall₂_rollup_valueSum (m : Metric) (dps : NumberDataPointSlice)
    (entries : List (MetricDatapointAggregationKey × Float64)) (rollups : MetricSlice)
    (h : List.Forall₂ (fun e r => rollupMetric m dps e = .ok r) entries rollups) :
    rollups.map Metric.valueSum = entries.map (fun e => e.2.toRat) := by
  induction h with
  | nil => rfl
  | cons h1 _ ih =>
    rw [List.map_cons, List.map_cons, ih, rollupMetric_valueSum _ _ _ _ h1]

/-- One update of the accumulator by an integer, when all values held and the integer have
magnitudes that add up to at most `2^53`: the values stay integers, their sum grows by the
integer, and no addition rounds. -/
theorem upsert_intCast {κ : Type} [DecidableEq κ] (acc : List (κ × Float64)) (k : κ)
    (n : Int) (ints : List Int)
    (hacc : acc.map Prod.snd = ints.map (fun (i : Int) => Float64.fin (i : Rat)))
    (hB : (ints.map Int.natAbs).sum + n.natAbs ≤ 2 ^ 53) :
    ∃ ints2 : List Int,
      (upsert acc k (fun old => old + Float64.fin (n : Rat))).map Prod.snd =
        ints2.map (fun (i : Int) => Float64.fin (i : Rat)) ∧
      ints2.sum = ints.sum + n ∧
      (ints2.map Int.natAbs).sum ≤ (ints.map Int.natAbs).sum + n.natAbs := by
  induction acc generalizing ints with
  | nil =>
    refine ⟨[n], ?_, by simp [List.map_eq_nil_iff.mp hacc.symm], ?_⟩
    · have h0 : (0 : Float64) + Float64.fin (n : Rat) = Float64.fin (n : Rat) := by
        have h := float64_add_intCast 0 n (by
          rw [zero_add, Int.abs_eq_natAbs]
          have : (n.natAbs : Int) ≤ ((2 ^ 53 : Nat) : Int) := by
            exact_mod_cast (by omega : n.natAbs ≤ 2 ^ 53)
          simpa using this)
        simpa [float64_zero_def] using h
      simp [upsert, h0]
    · simp
  | cons e rest ih =>
    obtain ⟨k0, v⟩ := e
    cases ints with
    | nil => simp at hacc
    | cons i is =>
      simp only [List.map_cons, List.cons.injEq] at hacc
      obtain ⟨hv, hrest⟩ := hacc
      simp only [List.map_cons, List.sum_cons] at hB
      unfold upsert
      by_cases hk : k0 = k
      · rw [if_pos hk]
        refine ⟨(i + n) :: is, ?_, ?_, ?_⟩
        · have hadd : v + Float64.fin (n : Rat) = Float64.fin ((i + n : Int) : Rat) := by
            rw [hv]
            apply float64_add_intCast
            rw [Int.abs_eq_natAbs]
            have h1 := Int.natAbs_add_le i n
            have : ((i + n).natAbs : Int) ≤ ((2 ^ 53 : Nat) : Int) := by
              exact_mod_cast (by omega : (i + n).natAbs ≤ 2 ^ 53)
            simpa using this
          simp only [List.map_cons, hadd, hrest]
        · simp only [List.sum_cons]
          ring
        · have h1 := Int.natAbs_add_le i n
          simp only [List.map_cons, List.sum_cons]
          omega
      · rw [if_neg hk]
        obtain ⟨ints2, h1, h2, h3⟩ := ih is hrest (by omega)
        refine ⟨i :: ints2, ?_, ?_, ?_⟩
        · simp only [List.map_cons, h1, hv]
        · simp only [List.sum_cons, h2]
          ring
        · simp only [List.map_cons, List.sum_cons]
          omega

theorem foldl_upsert_intCast {δ κ : Type} [DecidableEq κ] (key : δ → κ) (val : δ → Float64)
    (dps : List δ) (vals : List Int)
    (hv : dps.map val = vals.map (fun (i : Int) => Float64.fin (i : Rat)))
    (acc : List (κ × Float64)) (ints : List Int)
    (hacc : acc.map Prod.snd = ints.map (fun (i : Int) => Float64.fin (i : Rat)))
    (hB : (ints.map Int.natAbs).sum + (vals.map Int.natAbs).sum ≤ 2 ^ 53) :
    ∃ ints2 : List Int,
      (dps.foldl (fun a dp => upsert a (key dp) (fun old => old + val dp)) acc).map Prod.snd =
        ints2.map (fun (i : Int) => Float64.fin (i : Rat)) ∧
      ints2.sum = ints.sum + vals.sum := by
  induction dps generalizing vals acc ints with
  | nil =>
    have hvals : vals = [] := List.map_eq_nil_iff.mp hv.symm
    subst hvals
    exact ⟨ints, hacc, by simp⟩
  | cons d rest ih =>
    cases vals with
    | nil => simp at hv
    | cons n ns =>
      simp only [List.map_cons, List.cons.injEq] at hv
      obtain ⟨hd, hrest⟩ := hv
      simp only [List.map_cons, List.sum_cons] at hB
      rw [List.foldl_cons, hd]
      obtain ⟨ints1, h1, h2, h3⟩ := upsert_intCast acc (key d) n ints hacc (by omega)
      obtain ⟨ints2, h4, h5⟩ := ih ns hrest _ ints1 h1 (by omega)
      refine ⟨ints2, h4, ?_⟩
      rw [h5, h2, List.sum_cons]
      ring

/-- C25, as amended: for a metric of sum shape with a rollup mapping, the sum aggregator
returns the `n` per-value metrics followed by one rollup metric per distinct accumulator
key, `n + k` metrics in all.  When the values of the datapoints are integers whose
magnitudes add up to at most `2^53`, so that no `float64` addition rounds, the values of the
rollup metrics add up to the sum of the values of all input datapoints. -/
theorem extractDatapointsAsMetricsAndAggregate_conservation (c : ContainerInsightsCommon)
    (ord : RangeOrder) (m : Metric) (dps : NumberDataPointSlice)
    (t : AggregationTemporality) (mono : Bool) (mp : List (String × String))
    (hd : c.Distinct)
    (hdata : m.data = .sum dps t mono)
    (hmap : (uniquesDatapointsToAggregatedMetricMappings c).lookup m.name = some mp) :
    ∃ (out rollups : MetricSlice),
      extractDatapointsAsMetricsAndAggregate c ord m = .ok out ∧
      out = dps.map (perValueMetric m (metricModificationsAt c m.name).UniqueAttribute)
        ++ rollups ∧
      rollups.length =
        ((dps.map (sumKey (metricModificationsAt c m.name).UniqueAttribute mp)).dedup).length ∧
      out.length = dps.length +
        ((dps.map (sumKey (metricModificationsAt c m.name).UniqueAttribute mp)).dedup).length ∧
      (∀ vals : List Int,
        dps.map NumberDataPoint.DoubleValue =
          vals.map (fun (i : Int) => Float64.fin (i : Rat)) →
        (vals.map Int.natAbs).sum ≤ 2 ^ 53 →
        (rollups.map Metric.valueSum).sum =
          (dps.map (fun dp => dp.DoubleValue.toRat)).sum) := by
  have hu := uniqueAttribute_of_rollup c hd m.name mp hmap
  obtain ⟨rollups, hex, hf⟩ := extract_fanout c ord m dps t mono hdata hu
  rw [hmap, foldl_extractStep_some] at hf
  simp only at hf
  generalize hacc : dps.foldl (fun a dp =>
    upsert a (sumKey (metricModificationsAt c m.name).UniqueAttribute mp dp)
      ((fun (d : NumberDataPoint) (old : Float64) => old + d.DoubleValue) dp)) [] = acc at hf
  have hnodup : (acc.map Prod.fst).Nodup := by
    rw [← hacc]
    exact nodup_keys_foldl_upsert _ _ dps [] List.nodup_nil
  have hmem : ∀ k, k ∈ acc.map Prod.fst ↔
      k ∈ (dps.map (sumKey (metricModificationsAt c m.name).UniqueAttribute mp)).dedup := by
    intro k
    rw [← hacc, mem_keys_foldl_upsert, List.mem_dedup, List.mem_map]
    simp
  have hlen : acc.length =
      ((dps.map (sumKey (metricModificationsAt c m.name).UniqueAttribute mp)).dedup).length := by
    have hp := (List.perm_ext_iff_of_nodup hnodup (List.nodup_dedup _)).mpr hmem
    rw [← hp.length_eq, List.length_map]
  have hrl : rollups.length = acc.length := by
    rw [← hf.length_eq, (ord.perm acc).length_eq]
  refine ⟨_, rollups, hex, rfl, ?_, ?_, ?_⟩
  · rw [hrl, hlen]
  · rw [List.length_append, List.length_map, hrl, hlen]
  · intro vals hvals hB
    obtain ⟨ints, h1, h2⟩ := foldl_upsert_intCast
      (sumKey (metricModificationsAt c m.name).UniqueAttribute mp)
      NumberDataPoint.DoubleValue dps vals hvals [] [] rfl (by simpa using hB)
    rw [hacc] at h1
    have h3 : (acc.map (fun e => e.2.toRat)).sum = ((ints.sum : Int) : Rat) := by
      have h4 : acc.map (fun e => e.2.toRat) = (acc.map Prod.snd).map Float64.toRat := by
        rw [List.map_map]
        rfl
      rw [h4, h1, List.map_map]
      have h5 : (Float64.toRat ∘ fun (i : Int) => Float64.fin (i : Rat)) =
          fun (i : Int) => (i : Rat) := rfl
      rw [h5]
      induction ints with
      | nil => simp
      | cons i is ih => simp [List.sum_cons]
    have h6 : (dps.map (fun dp => dp.DoubleValue.toRat)).sum = ((vals.sum : Int) : Rat) := by
      have h7 : dps.map (fun dp => dp.DoubleValue.toRat) =
          (dps.map NumberDataPoint.DoubleValue).map Float64.toRat := by
        rw [List.map_map]
        rfl
      rw [h7, hvals, List.map_map]
      have h5 : (Float64.toRat ∘ fun (i : Int) => Float64.fin (i : Rat)) =
          fun (i : Int) => (i : Rat) := rfl
      rw [h5]
      clear hvals hB h2
      induction vals with
      | nil => simp
      | cons i is ih => simp [List.sum_cons]
    rw [forall₂_rollup_valueSum m dps _ rollups hf,
      ((ord.perm acc).map (fun e => e.2.toRat)).sum_eq, h3, h6, h2]
    simp

/-- C25, counterexample: two error counters under one key with the exact integer values
2^53 and 1.  The only rollup metric carries 2^53, the `float64` nearest to the sum, while
the values of the input datapoints add up to 2^53 + 1. -/
theorem extractDatapointsAsMetricsAndAggregate_conservation_counterexample :
    (uniquesDatapointsToAggregatedMetricMappings upstream).lookup Example.errorsRounding.name =
      some Example.errorsMapping ∧
    extractDatapointsAsMetricsAndAggregate upstream RangeOrder.insertion
        Example.errorsRounding =
      .ok [⟨"neuron_execution_errors_generic", "", "Count",
            .sum [Example.dp [("error_type", .str "generic"), ("runtime_tag", .str "rt1")]
              9007199254740992] AggregationTemporality.cumulative false⟩,
           ⟨"neuron_execution_errors_numerical", "", "Count",
            .sum [Example.dp [("error_type", .str "numerical"), ("runtime_tag", .str "rt1")] 1]
              AggregationTemporality.cumulative false⟩,
           ⟨"neuron_execution_errors_total", "", "Count",
            .sum [Example.dp [("error_type", .str "generic"), ("runtime_tag", .str "rt1")]
              9007199254740992] AggregationTemporality.cumulative false⟩] ∧
    Metric.valueSum ⟨"neuron_execution_errors_total", "", "Count",
      .sum [Example.dp [("error_type", .str "generic"), ("runtime_tag", .str "rt1")]
        9007199254740992] AggregationTemporality.cumulative false⟩ = 9007199254740992 ∧
    Example.errorsRounding.valueSum = 9007199254740993 ∧
    Metric.valueSum ⟨"neuron_execution_errors_total", "", "Count",
      .sum [Example.dp [("error_type", .str "generic"), ("runtime_tag", .str "rt1")]
        9007199254740992] AggregationTemporality.cumulative false⟩ ≠
      Example.errorsRounding.valueSum := by
  refine ⟨by decide, by decide!, by decide!, by decide!, by decide!⟩

/-- The fan-out example: the values 1, 2 and 3 share one accumulator key; the single
rollup metric carries 6, the sum of the values, and four metrics are returned. -/
theorem extractDatapointsAsMetricsAndAggregate_conservation_witness :
    upstream.Distinct ∧
    (uniquesDatapointsToAggregatedMetricMappings upstream).lookup Example.errors.name =
      some Example.errorsMapping ∧
    Example.errorDatapoints.map NumberDataPoint.DoubleValue =
      [1, 2, 3].map (fun (i : Int) => Float64.fin (i : Rat)) ∧
    (([1, 2, 3] : List Int).map Int.natAbs).sum ≤ 2 ^ 53 ∧
    (Example.errorDatapoints.map (fun dp => dp.DoubleValue.toRat)).sum = 6 ∧
    ((Example.errorDatapoints.map (sumKey
      (metricModificationsAt upstream Example.errors.name).UniqueAttribute
        Example.errorsMapping)).dedup).length = 1 ∧
    ∃ (out rollups : MetricSlice),
      extractDatapointsAsMetricsAndAggregate upstream RangeOrder.reversed Example.errors =
        .ok out ∧
      out = Example.errorDatapoints.map (perValueMetric Example.errors
        (metricModificationsAt upstream Example.errors.name).UniqueAttribute) ++ rollups ∧
      rollups.length =
        ((Example.errorDatapoints.map (sumKey
          (metricModificationsAt upstream Example.errors.name).UniqueAttribute
            Example.errorsMapping)).dedup).length ∧
      out.length = Example.errorDatapoints.length +
        ((Example.errorDatapoints.map (sumKey
          (metricModificationsAt upstream Example.errors.name).UniqueAttribute
            Example.errorsMapping)).dedup).length ∧
      (rollups.map Metric.valueSum).sum =
        (Example.errorDatapoints.map (fun dp => dp.DoubleValue.toRat)).sum :=
  ⟨by decide, by decide, by decide!, by decide, by decide!, by decide,
    let ⟨out, rollups, h1, h2, h3, h4, h5⟩ :=
      extractDatapointsAsMetricsAndAggregate_conservation upstream RangeOrder.reversed
        Example.errors Example.errorDatapoints AggregationTemporality.unspecified false
        Example.errorsMapping (by decide) rfl (by decide)
    ⟨out, rollups, h1, h2, h3, h4, h5 [1, 2, 3] (by decide!) (by decide)⟩⟩

end AwsNeuron

namespace Pipeline

/-! ## The `Pipelines` map that `Translate` builds -/

theorem assign_of_not_mem (m : List (ID × PipelineConfig)) (id : ID) (v : PipelineConfig)
    (h : id ∉ m.map Prod.fst) : assign m id v = m ++ [(id, v)] := by
  induction m with
  | nil => rfl
  | cons e rest ih =>
    obtain ⟨id0, v0⟩ := e
    rw [List.map_cons, List.mem_cons, not_or] at h
    unfold assign
    rw [if_neg (Ne.symm h.1), ih h.2]
    rfl

theorem Pipelines_translateStep (k : Common) {Conf : Type} (conf : Conf)
    (translation : Translation k) (entry : ID × Translator k Conf)
    (h : entry.1 ∉ translation.Pipelines.map Prod.fst) :
    (translateStep k conf translation entry).Pipelines =
      translation.Pipelines ++ (pipelineEntry k conf entry).toList := by
  unfold translateStep pipelineEntry
  cases hp : (entry.2 conf).1 with
  | none => simp
  | some pipeline =>
    simp only [Option.map_some', Option.toList_some]
    exact assign_of_not_mem _ _ _ h

theorem Pipelines_foldl_translateStep (k : Common) {Conf : Type} (conf : Conf)
    (l : List (ID × Translator k Conf)) (translation : Translation k)
    (hnd : (l.map Prod.fst).Nodup)
    (hnew : ∀ e ∈ l, e.1 ∉ translation.Pipelines.map Prod.fst) :
    (l.foldl (translateStep k conf) translation).Pipelines =
      translation.Pipelines ++ l.filterMap (pipelineEntry k conf) := by
  induction l generalizing translation with
  | nil => simp
  | cons e rest ih =>
    rw [List.map_cons, List.nodup_cons] at hnd
    have hstep := Pipelines_translateStep k conf translation e
      (hnew e (List.mem_cons_self e rest))
    rw [List.foldl_cons, ih _ hnd.2, hstep]
    · cases hp : pipelineEntry k conf e with
      | none => simp [List.filterMap_cons, hp]
      | some x => simp [List.filterMap_cons, hp]
    · intro x hx hmem
      rw [hstep, List.map_append, List.mem_append] at hmem
      rcases hmem with h1 | h1
      · exact hnew x (List.mem_cons_of_mem e hx) h1
      · cases hp : pipelineEntry k conf e with
        | none => simp [hp] at h1
        | some y =>
          have hy : y.1 = e.1 := by
            unfold pipelineEntry at hp
            cases hq : (e.2 conf).1 with
            | none => simp [hq] at hp
            | some p =>
              simp only [hq, Option.map_some', Option.some.injEq] at hp
              rw [← hp]
          simp only [hp, Option.toList_some, List.map_cons, List.map_nil,
            List.mem_singleton] at h1
          exact hnd.1 (by rw [← hy, ← h1]; exact List.mem_map_of_mem Prod.fst hx)

theorem keys_filterMap_pipelineEntry (k : Common) {Conf : Type} (conf : Conf)
    (l : List (ID × Translator k Conf)) :
    ((l.filterMap (pipelineEntry k conf)).map Prod.fst).Sublist (l.map Prod.fst) := by
  induction l with
  | nil => exact List.Sublist.slnil
  | cons e rest ih =>
    unfold pipelineEntry at ih ⊢
    cases hp : (e.2 conf).1 with
    | none =>
      simp only [List.filterMap_cons, hp, Option.map_none', List.map_cons]
      exact List.Sublist.cons _ ih
    | some p =>
      simp only [List.filterMap_cons, hp, Option.map_some', List.map_cons]
      exact List.Sublist.cons₂ _ ih

theorem Translate_eq (k : Common) {Conf : Type} (ord : AwsNeuron.RangeOrder)
    (translators : List (ID × Translator k Conf)) (conf : Conf)
    (hnd : (translators.map Prod.fst).Nodup) :
    ((ord.order translators).foldl (translateStep k conf)
      ⟨[], ⟨k.NewTranslatorMap, k.NewTranslatorMap, k.NewTranslatorMap,
        k.NewTranslatorMap⟩⟩).Pipelines =
      (ord.order translators).filterMap (pipelineEntry k conf) := by
  rw [Pipelines_foldl_translateStep]
  · rfl
  · exact ((ord.perm translators).map Prod.fst).nodup_iff.mpr hnd
  · intro e _ hmem
    exact absurd hmem (List.not_mem_nil _)

/-! ## C26: `ErrNoPipelines` and the entries of `Pipelines` -/

/-- C26: for child translators under distinct ids, as the keys of a Go map are, `Translate`
returns the error `ErrNoPipelines`, and no translation, if and only if no child translator
yields a non-nil pipeline.  If some child translator yields a non-nil pipeline, `Translate`
returns a translation and no error; the keys of its `Pipelines` map are distinct and are
exactly the ids of the child translators that yielded a non-nil pipeline, and the entry of
such a child holds the sorted keys of its pipeline, whatever error the child returned with
it. -/
theorem Translate_pipelines (k : Common) {Conf : Type} (ord : AwsNeuron.RangeOrder)
    (translators : List (ID × Translator k Conf)) (conf : Conf)
    (hnd : (translators.map Prod.fst).Nodup) :
    (Translate k ord translators conf = .error Error.ErrNoPipelines ↔
      ∀ e ∈ translators, (e.2 conf).1 = none) ∧
    ((∃ e ∈ translators, (e.2 conf).1 ≠ none) →
      ∃ tr : Translation k,
        Translate k ord translators conf = .ok tr ∧
        (tr.Pipelines.map Prod.fst).Nodup ∧
        (∀ id : ID, id ∈ tr.Pipelines.map Prod.fst ↔
          ∃ e ∈ translators, e.1 = id ∧ (e.2 conf).1 ≠ none) ∧
        (∀ e ∈ translators, ∀ (p : ComponentTranslators k) (err : Option String),
          e.2 conf = (some p, err) → (e.1, pipelineConfig k p) ∈ tr.Pipelines)) := by
  have hP := Translate_eq k ord translators conf hnd
  have hnil : (ord.order translators).filterMap (pipelineEntry k conf) = [] ↔
      ∀ e ∈ translators, (e.2 conf).1 = none := by
    rw [List.filterMap_eq_nil_iff]
    constructor
    · intro h e he
      have h1 := h e ((ord.perm translators).mem_iff.mpr he)
      unfold pipelineEntry at h1
      cases hq : (e.2 conf).1 with
      | none => rfl
      | some p => simp [hq] at h1
    · intro h e he
      unfold pipelineEntry
      rw [h e ((ord.perm translators).mem_iff.mp he)]
      rfl
  have hlen : ((ord.order translators).foldl (translateStep k conf)
      ⟨[], ⟨k.NewTranslatorMap, k.NewTranslatorMap, k.NewTranslatorMap,
        k.NewTranslatorMap⟩⟩).Pipelines.length = 0 ↔
      (ord.order translators).filterMap (pipelineEntry k conf) = [] := by
    rw [hP, List.length_eq_zero]
  constructor
  · unfold Translate
    simp only
    constructor
    · intro h
      split_ifs at h with h1
      exact hnil.mp (hlen.mp h1)
    · intro h
      rw [if_pos (hlen.mpr (hnil.mpr h))]
  · rintro ⟨e0, he0, hne0⟩
    have hne : ¬ (ord.order translators).filterMap (pipelineEntry k conf) = [] :=
      fun h => hne0 (hnil.mp h e0 he0)
    refine ⟨(ord.order translators).foldl (translateStep k conf)
      ⟨[], ⟨k.NewTranslatorMap, k.NewTranslatorMap, k.NewTranslatorMap,
        k.NewTranslatorMap⟩⟩, ?_, ?_, ?_, ?_⟩
    · unfold Translate
      simp only
      rw [if_neg (fun h => hne (hlen.mp h))]
    · rw [hP]
      exact (keys_filterMap_pipelineEntry k conf _).nodup
        (((ord.perm translators).map Prod.fst).nodup_iff.mpr hnd)
    · intro id
      rw [hP]
      simp only [List.mem_map, List.mem_filterMap, pipelineEntry]
      constructor
      · rintro ⟨x, ⟨e, he, hx⟩, hid⟩
        refine ⟨e, (ord.perm translators).mem_iff.mp he, ?_, ?_⟩
        · cases hq : (e.2 conf).1 with
          | none => simp [hq] at hx
          | some p =>
            simp only [hq, Option.map_some', Option.some.injEq] at hx
            rw [← hid, ← hx]
        · intro hq
          simp [hq] at hx
      · rintro ⟨e, he, hid, hq⟩
        cases hq2 : (e.2 conf).1 with
        | none => exact absurd hq2 hq
        | some p =>
          exact ⟨(e.1, pipelineConfig k p),
            ⟨e, (ord.perm translators).mem_iff.mpr he, by simp [hq2]⟩, hid⟩
    · intro e he p err hpe
      rw [hP]
      refine List.mem_filterMap.mpr ⟨e, (ord.perm translators).mem_iff.mpr he, ?_⟩
      unfold pipelineEntry
      rw [hpe]
      rfl

/-- Three child translators under distinct ids: the first yields no pipeline, the second a
pipeline, the third a pipeline together with an error.  `Translate` returns a translation
whose `Pipelines` has the keys of the second and the third.  With two child translators
that yield no pipeline it returns `ErrNoPipelines`. -/
theorem Translate_pipelines_witness :
    (Example.translators.map Prod.fst).Nodup ∧
    (Translate Example.common AwsNeuron.RangeOrder.reversed Example.translators ()).map
        (fun tr => tr.Pipelines.map Prod.fst) =
      .ok [⟨"metrics", "c"⟩, ⟨"metrics", "b"⟩] ∧
    (Translate Example.common AwsNeuron.RangeOrder.insertion Example.noPipelines ()).map
        (fun tr => tr.Pipelines) =
      .error Error.ErrNoPipelines ∧
    (Translate Example.common AwsNeuron.RangeOrder.reversed Example.translators () =
        .error Error.ErrNoPipelines ↔
      ∀ e ∈ Example.translators, (e.2 ()).1 = none) ∧
    ((∃ e ∈ Example.translators, (e.2 ()).1 ≠ none) →
      ∃ tr : Translation Example.common,
        Translate Example.common AwsNeuron.RangeOrder.reversed Example.translators () =
          .ok tr ∧
        (tr.Pipelines.map Prod.fst).Nodup ∧
        (∀ id : ID, id ∈ tr.Pipelines.map Prod.fst ↔
          ∃ e ∈ Example.translators, e.1 = id ∧ (e.2 ()).1 ≠ none) ∧
        (∀ e ∈ Example.translators,
          ∀ (p : ComponentTranslators Example.common) (err : Option String),
            e.2 () = (some p, err) →
              (e.1, pipelineConfig Example.common p) ∈ tr.Pipelines)) :=
  ⟨by decide, rfl, rfl,
    Translate_pipelines Example.common AwsNeuron.RangeOrder.reversed Example.translators ()
      (by decide)⟩

end Pipeline
